import Mathlib

/-!
# A shallow embedding of `fel.c` (Allwinner FEL boot-recovery host tool)

The C program talks to a USB device through `libusb_bulk_transfer`.  The
embedding threads an explicit `World` through every function:

* the C globals (`uboot_entry`, `uboot_size`, `progress`) and the function-local
  `static` cache of `aw_fel_get_sram_info` are fields of `World`;
* every completed bulk transfer is appended to `World.usb` (the wire log), every
  FEL command is appended to `World.fel` when its request is issued, and every call
  of the progress callback is appended to `World.sink`;
* `exit(..)` and a failing `assert` end the run with `Res.exit`, carrying the
  diagnostic that was printed and the world at that moment;
* the command line is the list `argv[1], .., argv[argc - 1]`, and the files and the
  standard input that `load_file` and `save_file` touch are a `Host` value that `main`
  passes along.

Text written to stdout and stderr is not modelled, nor is the `verbose` flag, which
only controls printing: of a diagnostic that precedes `exit` the embedding keeps which
one it was.

Machine integers are natural numbers reduced modulo `2^32` / `2^64` where the C
arithmetic wraps (`uint32_t`, and `size_t` of an LP64 host); C `int` values are
integers obtained through `to_int32`.  The host is little-endian, so the
`htole*`/`le*toh` calls are the little-endian encoding and decoding of a value.
-/

namespace Fel

/-! ## Bytes, words, C strings -/

/-- One octet (`uint8_t` / `char`). -/
abbrev Byte := Fin 256

/-- Wrap to `uint32_t`. -/
def u32 (n : Nat) : Nat := n % 4294967296

/-- Wrap to `size_t` (64-bit). -/
def usize (n : Nat) : Nat := n % 18446744073709551616

/-- Unsigned 32-bit subtraction `a - b`. -/
def sub32 (a b : Nat) : Nat := (a % 4294967296 + 4294967296 - b % 4294967296) % 4294967296

/-- Unsigned 64-bit (`size_t`) subtraction `a - b`. -/
def sub64 (a b : Nat) : Nat :=
  (a % 18446744073709551616 + 18446744073709551616 - b % 18446744073709551616)
    % 18446744073709551616

/-- Conversion of an unsigned value to C `int` (two's complement, 32 bits). -/
def to_int32 (n : Nat) : Int :=
  if n % 4294967296 < 2147483648 then (n % 4294967296 : Nat) else (n % 4294967296 : Nat) - 4294967296

/-- Conversion of a C `int` to `uint32_t`. -/
def u32_of_int (i : Int) : Nat := (i % 4294967296).toNat

/-- Conversion of a C `int` to `uint16_t`. -/
def u16_of_int (i : Int) : Nat := (i % 65536).toNat

/-- The byte `buf[i]` as a number; reading past the end of the list yields 0. -/
def byte_at (buf : List Byte) (i : Nat) : Nat := (buf.getD i 0).val

/-- The value `le32toh(*(uint32_t *)(buf + off))`. -/
def le32_at (buf : List Byte) (off : Nat) : Nat :=
  byte_at buf off + 256 * byte_at buf (off + 1) + 65536 * byte_at buf (off + 2)
    + 16777216 * byte_at buf (off + 3)

/-- The value `le16toh(*(uint16_t *)(buf + off))`. -/
def le16_at (buf : List Byte) (off : Nat) : Nat :=
  byte_at buf off + 256 * byte_at buf (off + 1)

/-- The value `be32toh(*(uint32_t *)(buf + off))`. -/
def be32_at (buf : List Byte) (off : Nat) : Nat :=
  16777216 * byte_at buf off + 65536 * byte_at buf (off + 1) + 256 * byte_at buf (off + 2)
    + byte_at buf (off + 3)

/-- The four bytes in memory of `htole32(x)`. -/
def htole32 (x : Nat) : List Byte :=
  [Fin.ofNat x, Fin.ofNat (x / 256), Fin.ofNat (x / 65536), Fin.ofNat (x / 16777216)]

/-- The two bytes in memory of `htole16(x)`. -/
def htole16 (x : Nat) : List Byte :=
  [Fin.ofNat x, Fin.ofNat (x / 256)]

/-- The bytes in memory of an array of `uint32_t`, each stored with `htole32`. -/
def words_le (ws : List Nat) : List Byte := (ws.map htole32).flatten

/-- The C string held in a `char` array: the bytes before the first NUL. -/
def c_str (buf : List Byte) : List Byte := buf.takeWhile (fun b => b != 0)

/-- ASCII "AWUC". -/
def str_AWUC : List Byte := [0x41, 0x57, 0x55, 0x43]

/-- ASCII "AWUS". -/
def str_AWUS : List Byte := [0x41, 0x57, 0x55, 0x53]

/-- ASCII "eGON.BT0". -/
def str_eGON_BT0 : List Byte := [0x65, 0x47, 0x4F, 0x4E, 0x2E, 0x42, 0x54, 0x30]

/-- ASCII "eGON.FEL". -/
def str_eGON_FEL : List Byte := [0x65, 0x47, 0x4F, 0x4E, 0x2E, 0x46, 0x45, 0x4C]

/-- ASCII "SPL". -/
def SPL_SIGNATURE : List Byte := [0x53, 0x50, 0x4C]

/-! ## SoC descriptors -/

/-- The C struct `sram_swap_buffers`. -/
structure sram_swap_buffers where
  buf1 : Nat
  buf2 : Nat
  size : Nat
deriving DecidableEq, Repr

/-- The C struct `soc_sram_info`; `swap_buffers = none` is the NULL pointer, and a
`some` list is the pointed-to array, its `{ 0 }` terminator included. -/
structure soc_sram_info where
  soc_id : Nat
  spl_addr : Nat
  scratch_addr : Nat
  thunk_addr : Nat
  thunk_size : Nat
  needs_l2en : Nat
  swap_buffers : Option (List sram_swap_buffers)
deriving DecidableEq, Repr

def a10_a13_a20_sram_swap_buffers : List sram_swap_buffers :=
  [ { buf1 := 0x01800, buf2 := 0x8000, size := 0x800 },
    { buf1 := 0x05C00, buf2 := 0x8800, size := 0x8000 - 0x5C00 },
    { buf1 := 0, buf2 := 0, size := 0 } ]

def a31_sram_swap_buffers : List sram_swap_buffers :=
  [ { buf1 := 0x01800, buf2 := 0x44000, size := 0x800 },
    { buf1 := 0x05C00, buf2 := 0x44800, size := 0x8000 - 0x5C00 },
    { buf1 := 0, buf2 := 0, size := 0 } ]

def soc_sram_info_table : List soc_sram_info :=
  [ { soc_id := 0x1623, spl_addr := 0, scratch_addr := 0x2000,
      thunk_addr := 0xAE00, thunk_size := 0x200,
      swap_buffers := some a10_a13_a20_sram_swap_buffers, needs_l2en := 1 },
    { soc_id := 0x1625, spl_addr := 0, scratch_addr := 0x2000,
      thunk_addr := 0xAE00, thunk_size := 0x200,
      swap_buffers := some a10_a13_a20_sram_swap_buffers, needs_l2en := 1 },
    { soc_id := 0x1651, spl_addr := 0, scratch_addr := 0x2000,
      thunk_addr := 0xAE00, thunk_size := 0x200,
      swap_buffers := some a10_a13_a20_sram_swap_buffers, needs_l2en := 0 },
    { soc_id := 0x1650, spl_addr := 0, scratch_addr := 0x2000,
      thunk_addr := 0x46E00, thunk_size := 0x200,
      swap_buffers := some a31_sram_swap_buffers, needs_l2en := 0 },
    { soc_id := 0x1633, spl_addr := 0, scratch_addr := 0x2000,
      thunk_addr := 0x46E00, thunk_size := 0x200,
      swap_buffers := some a31_sram_swap_buffers, needs_l2en := 0 },
    { soc_id := 0x1667, spl_addr := 0, scratch_addr := 0x2000,
      thunk_addr := 0x46E00, thunk_size := 0x200,
      swap_buffers := some a31_sram_swap_buffers, needs_l2en := 0 },
    { soc_id := 0x1673, spl_addr := 0, scratch_addr := 0x2000,
      thunk_addr := 0x46E00, thunk_size := 0x200,
      swap_buffers := some a31_sram_swap_buffers, needs_l2en := 0 },
    { soc_id := 0x1680, spl_addr := 0, scratch_addr := 0x2000,
      thunk_addr := 0x46E00, thunk_size := 0x200,
      swap_buffers := some a31_sram_swap_buffers, needs_l2en := 0 },
    { soc_id := 0, spl_addr := 0, scratch_addr := 0, thunk_addr := 0, thunk_size := 0,
      swap_buffers := none, needs_l2en := 0 } ]

def generic_sram_swap_buffers : List sram_swap_buffers :=
  [ { buf1 := 0x01C00, buf2 := 0x5800, size := 0x400 },
    { buf1 := 0, buf2 := 0, size := 0 } ]

def generic_sram_info : soc_sram_info :=
  { soc_id := 0, spl_addr := 0, scratch_addr := 0x2000,
    thunk_addr := 0x5680, thunk_size := 0x180,
    swap_buffers := some generic_sram_swap_buffers, needs_l2en := 0 }

/-! ## The world: globals, device, logs -/

/-- The two bulk endpoints found by `aw_fel_get_endpoint`. -/
inductive Endpoint where
  | AW_USB_FEL_BULK_EP_OUT
  | AW_USB_FEL_BULK_EP_IN
deriving DecidableEq, Repr

/-- One completed `libusb_bulk_transfer`: the endpoint and the bytes that crossed
the wire (sent by the host on the OUT endpoint, received on the IN endpoint). -/
structure Xfer where
  ep : Endpoint
  data : List Byte
deriving DecidableEq, Repr

/-- The device side of the bulk IN endpoint: given the transfers so far and the
length the host asks for, the byte delivered at each position. -/
abbrev Device := List Xfer → Nat → Nat → Byte

/-- A FEL command, logged when its request is issued by `aw_send_fel_request`
(`write` with the bytes the host is about to send, `read` with the length asked). -/
inductive FelOp where
  | version
  | read (addr : Nat) (len : Nat)
  | write (addr : Nat) (data : List Byte)
  | exec (addr : Nat)
deriving DecidableEq, Repr

/-- The diagnostics that end a run: every `fprintf(stderr, ..); exit(..)` and
`perror(..); exit(..)` site of the source, the failing `assert` of
`aw_read_usb_response`, `strtoul_null`, the crash of `strtoul` when it is handed the
NULL pointer `argv[argc]`, and `fuel`, the outcome of a loop that was stopped by its
iteration bound. -/
inductive Diag where
  | usb_bulk_send_error
  | usb_bulk_recv_error
  | assert_awus
  | overwrite_uboot
  | tex_remap_enabled
  | unexpected_ttbr0
  | mmu_not_section
  | mmu_not_direct
  | spl_unsupported_soc
  | spl_no_egon_header
  | spl_bad_length
  | spl_checksum
  | spl_too_large
  | spl_bad_thunk_size
  | spl_failure_code (sig : List Byte)
  | uboot_bad_size_or_signature
  | uboot_wrong_architecture
  | uboot_error_code (code : Int)
  | uboot_type_mismatch (type : Int)
  | uboot_data_size_mismatch
  | invalid_command
  | fuel
  | failed_to_open_input_file
  | failed_to_open_output_file
  | strtoul_null
deriving DecidableEq, Repr

/-- Program state and observation logs. -/
structure World where
  dev : Device
  usb : List Xfer
  fel : List FelOp
  sink : List (Int × Int × Int)
  progress : Bool
  uboot_entry : Nat
  uboot_size : Nat
  result : Option soc_sram_info

/-- Outcome of running a piece of the program: normal return with a value, or the
end of the process with a diagnostic. -/
inductive Res (α : Type) where
  | ok (a : α) (w : World)
  | exit (d : Diag) (w : World)

/-- A C function acting on the world. -/
def FelM (α : Type) : Type := World → Res α

/-- Sequencing: a run that ended the process runs nothing more. -/
def FelM.bind {α β : Type} (m : FelM α) (f : α → FelM β) : FelM β := fun w =>
  match m w with
  | .ok a w1 => f a w1
  | .exit d w1 => .exit d w1

instance : Monad FelM where
  pure a := fun w => .ok a w
  bind := FelM.bind

/-- The C call `exit`, after the diagnostic `d` was printed. -/
def die {α : Type} (d : Diag) : FelM α := fun w => .exit d w

/-- The world in which a run ended. -/
def Res.world {α : Type} : Res α → World
  | .ok _ w => w
  | .exit _ w => w

/-- The diagnostic of a run that ended the process. -/
def Res.diag {α : Type} : Res α → Option Diag
  | .ok _ _ => none
  | .exit d _ => some d

/-- The value a run returned. -/
def Res.value {α : Type} : Res α → Option α
  | .ok a _ => some a
  | .exit _ _ => none

/-! ## USB bulk transport -/

def AW_USB_READ : Int := 0x11
def AW_USB_WRITE : Int := 0x12

/-- The constant `4 * 1024 * 1024`: 4 MiB per bulk request. -/
def AW_USB_MAX_BULK_SEND : Int := 4 * 1024 * 1024

/-- Model of the library call `libusb_bulk_transfer(usb, ep, data, len, &transferred,
timeout)`; libusb is not part of the repository.  The transport is the recording mock
of the specification: every transfer completes in full with return code 0.  On the OUT
endpoint the first `len` bytes of `data` are sent; on the IN endpoint the device
chooses the `len` bytes that arrive.  Returns `(rc, transferred, bytes received)`. -/
def libusb_bulk_transfer (ep : Endpoint) (data : List Byte) (len : Nat) :
    FelM (Int × Int × List Byte) := fun w =>
  match ep with
  | .AW_USB_FEL_BULK_EP_OUT =>
    .ok (0, (len : Int), []) { w with usb := w.usb ++ [⟨ep, data.take len⟩] }
  | .AW_USB_FEL_BULK_EP_IN =>
    let got := (List.range len).map (w.dev w.usb len)
    .ok (0, (len : Int), got) { w with usb := w.usb ++ [⟨ep, got⟩] }

/-- The call `progress_cb(total, sent, len)` for a non-NULL callback: recorded. -/
def progress_cb (total sent len : Int) : FelM Unit := fun w =>
  .ok () { w with sink := w.sink ++ [(total, sent, len)] }

/-- The `while (length > 0)` loop of `usb_bulk_send`, bounded by `fuel` iterations.
`data` is the current data pointer, `acc` collects what arrived when the endpoint is
the IN endpoint (the loop then fills the caller's buffer). -/
def usb_bulk_send_loop (ep : Endpoint) (total : Int) (cb : Bool) :
    Nat → List Byte → Int → List Byte → FelM (List Byte)
  | 0, _, length, acc => fun w => if length > 0 then .exit .fuel w else .ok acc w
  | fuel + 1, data, length, acc =>
    if length > 0 then do
      let len := if length < AW_USB_MAX_BULK_SEND then length else AW_USB_MAX_BULK_SEND
      let (rc, sent, got) ← libusb_bulk_transfer ep data len.toNat
      if rc != 0 then die .usb_bulk_send_error
      else do
        let length1 := length - sent
        (if cb then progress_cb total (total - length1) len else pure ())
        usb_bulk_send_loop ep total cb fuel (data.drop sent.toNat) length1 (acc ++ got)
    else pure acc

/-- The function `usb_bulk_send`; `cb` tells whether `progress_cb` is non-NULL.  Every
iteration moves at least one byte, so `length` iterations always suffice. -/
def usb_bulk_send (ep : Endpoint) (data : List Byte) (length : Int) (cb : Bool) :
    FelM (List Byte) :=
  usb_bulk_send_loop ep length cb length.toNat data length []

/-- The `while (length > 0)` loop of `usb_bulk_recv`, bounded by `fuel` iterations. -/
def usb_bulk_recv_loop (ep : Endpoint) :
    Nat → List Byte → Int → List Byte → FelM (List Byte)
  | 0, _, length, acc => fun w => if length > 0 then .exit .fuel w else .ok acc w
  | fuel + 1, data, length, acc =>
    if length > 0 then do
      let (rc, recv, got) ← libusb_bulk_transfer ep data length.toNat
      if rc != 0 then die .usb_bulk_recv_error
      else usb_bulk_recv_loop ep fuel (data.drop recv.toNat) (length - recv) (acc ++ got)
    else pure acc

/-- The function `usb_bulk_recv`; returns the bytes stored into the buffer. -/
def usb_bulk_recv (ep : Endpoint) (length : Int) : FelM (List Byte) :=
  usb_bulk_recv_loop ep length.toNat [] length []

/-! ## AW-USB envelope -/

/-- The packed `struct aw_usb_request` as built by `aw_send_usb_request`, in memory
order: `signature[8]`, `length`, `unknown1`, `request`, `length2`, `pad[10]`. -/
def aw_usb_request_bytes (type : Int) (length : Int) : List Byte :=
  str_AWUC ++ [0, 0, 0, 0]
    ++ htole32 (u32_of_int length)
    ++ htole32 0x0c000000
    ++ htole16 (u16_of_int type)
    ++ htole32 (u32_of_int length)
    ++ List.replicate 10 0

def aw_send_usb_request (type : Int) (length : Int) : FelM Unit := do
  let _ ← usb_bulk_send .AW_USB_FEL_BULK_EP_OUT (aw_usb_request_bytes type length) 32 false
  pure ()

/-- The function `aw_read_usb_response`: `strcmp(buf, "AWUS") == 0` on the 13 bytes
received compares the C string in `buf` with "AWUS". -/
def aw_read_usb_response : FelM Unit := do
  let buf ← usb_bulk_recv .AW_USB_FEL_BULK_EP_IN 13
  if c_str buf = str_AWUS then pure () else die .assert_awus

/-- The function `aw_usb_write`; `len` is the `size_t` argument. -/
def aw_usb_write (data : List Byte) (len : Nat) (cb : Bool) : FelM Unit := do
  aw_send_usb_request AW_USB_WRITE (to_int32 len)
  let _ ← usb_bulk_send .AW_USB_FEL_BULK_EP_OUT data (to_int32 len) cb
  aw_read_usb_response

/-- The function `aw_usb_read` (it drives the IN endpoint through `usb_bulk_send`);
returns the bytes stored into the caller's buffer. -/
def aw_usb_read (len : Nat) (cb : Bool) : FelM (List Byte) := do
  aw_send_usb_request AW_USB_READ (to_int32 len)
  let buf ← usb_bulk_send .AW_USB_FEL_BULK_EP_IN [] (to_int32 len) cb
  aw_read_usb_response
  pure buf

/-! ## FEL requests and commands -/

def AW_FEL_VERSION : Int := 0x001
def AW_FEL_1_WRITE : Int := 0x101
def AW_FEL_1_EXEC : Int := 0x102
def AW_FEL_1_READ : Int := 0x103

/-- The `struct aw_fel_request` in memory: `request`, `address`, `length`, `pad`. -/
def aw_fel_request_bytes (type : Int) (addr length : Nat) : List Byte :=
  htole32 (u32_of_int type) ++ htole32 (u32 addr) ++ htole32 (u32 length) ++ htole32 0

def aw_send_fel_request (type : Int) (addr length : Nat) : FelM Unit :=
  aw_usb_write (aw_fel_request_bytes type addr length) 16 false

def aw_read_fel_status : FelM Unit := do
  let _ ← aw_usb_read 8 false
  pure ()

/-- Record a FEL command in the command log. -/
def log_fel (op : FelOp) : FelM Unit := fun w => .ok () { w with fel := w.fel ++ [op] }

/-- The value of the global `progress`. -/
def get_progress : FelM Bool := fun w => .ok w.progress w

/-- The C struct `aw_fel_version` after the conversions of `aw_fel_get_version`. -/
structure aw_fel_version where
  signature : List Byte
  soc_id : Nat
  unknown_0a : Nat
  protocol : Nat
  unknown_12 : Nat
  unknown_13 : Nat
  scratchpad : Nat
  pad0 : Nat
  pad1 : Nat
deriving DecidableEq, Repr

/-- The function `aw_fel_get_version`.  The struct is packed: `signature` at 0,
`soc_id` at 8, `unknown_0a` at 12, `protocol` at 16, `unknown_12` at 18, `unknown_13`
at 19, `scratchpad` at 20, `pad` at 24 and 28.  `protocol` is a 16-bit field passed
through `le32toh`, `scratchpad` a 32-bit field passed through `le16toh`. -/
def aw_fel_get_version : FelM aw_fel_version := do
  log_fel .version
  aw_send_fel_request AW_FEL_VERSION 0 0
  let buf ← aw_usb_read 32 false
  aw_read_fel_status
  pure { signature := buf.take 8
         soc_id := (le32_at buf 8 >>> 8) &&& 0xFFFF
         unknown_0a := le32_at buf 12
         protocol := le16_at buf 16
         unknown_12 := byte_at buf 18
         unknown_13 := byte_at buf 19
         scratchpad := le32_at buf 20 % 65536
         pad0 := le32_at buf 24
         pad1 := le32_at buf 28 }

/-- The function `aw_fel_read`; `len` is the `size_t` argument.  Returns the bytes
stored into `buf`. -/
def aw_fel_read (offset : Nat) (len : Nat) : FelM (List Byte) := do
  log_fel (.read offset len)
  aw_send_fel_request AW_FEL_1_READ offset len
  let buf ← aw_usb_read len (← get_progress)
  aw_read_fel_status
  pure buf

/-- The function `aw_fel_write`: `offset` is a `uint32_t`, `len` a `size_t`; the sum
`uboot_entry + uboot_size` is computed in `uint32_t`, the sum `offset + len` in
`size_t`. -/
def aw_fel_write (buf : List Byte) (offset : Nat) (len : Nat) : FelM Unit := fun w =>
  if w.uboot_size > 0 ∧ offset ≤ u32 (w.uboot_entry + w.uboot_size)
      ∧ usize (offset + len) ≥ w.uboot_entry then
    .exit .overwrite_uboot w
  else
    (do
      log_fel (.write offset (buf.take len))
      aw_send_fel_request AW_FEL_1_WRITE offset len
      aw_usb_write buf len w.progress
      aw_read_fel_status) w

def aw_fel_execute (offset : Nat) : FelM Unit := do
  log_fel (.exec offset)
  aw_send_fel_request AW_FEL_1_EXEC offset 0
  aw_read_fel_status

/-! ## mkimage headers -/

def IH_MAGIC : Nat := 0x27051956
def IH_ARCH_ARM : Nat := 2
def IH_TYPE_INVALID : Int := 0
def IH_TYPE_FIRMWARE : Int := 5
def IH_TYPE_SCRIPT : Int := 6
def IH_NMLEN : Nat := 32
def IH_TYPE_ARCH_MISMATCH : Int := -1
def HEADER_NAME_OFFSET : Nat := 32
def HEADER_SIZE : Nat := HEADER_NAME_OFFSET + IH_NMLEN

def get_image_type (buf : List Byte) (len : Nat) : Int :=
  if len ≤ HEADER_SIZE then IH_TYPE_INVALID
  else if be32_at buf 0 ≠ IH_MAGIC then IH_TYPE_INVALID
  else if byte_at buf 29 ≠ IH_ARCH_ARM then IH_TYPE_ARCH_MISMATCH
  else (byte_at buf 30 : Int)

/-! ## SoC lookup -/

/-- The `for` loop of `aw_fel_get_sram_info`: scan the table up to the entry whose
`swap_buffers` is NULL; `none` when the loop ends without a match. -/
def sram_info_scan (soc_id : Nat) : List soc_sram_info → Option soc_sram_info
  | [] => none
  | e :: rest =>
    match e.swap_buffers with
    | none => none
    | some _ => if e.soc_id = soc_id then some e else sram_info_scan soc_id rest

/-- The function `aw_fel_get_sram_info`; `World.result` is its `static` pointer. -/
def aw_fel_get_sram_info : FelM soc_sram_info := fun w =>
  match w.result with
  | some r => .ok r w
  | none =>
    (do
      let buf ← aw_fel_get_version
      let result := match sram_info_scan buf.soc_id soc_sram_info_table with
        | some e => e
        | none => generic_sram_info
      fun w1 => .ok result { w1 with result := some result }) w

/-! ## Small ARM stubs run from the scratch area -/

def DRAM_BASE : Nat := 0x40000000
def DRAM_SIZE : Nat := 0x80000000

def aw_enable_l2_cache (sram_info : soc_sram_info) : FelM Unit := do
  let arm_code := words_le [0xee112f30, 0xe3822002, 0xee012f30, 0xe12fff1e]
  aw_fel_write arm_code sram_info.scratch_addr 16
  aw_fel_execute sram_info.scratch_addr

/-- The function `aw_get_stackinfo` (the `#else` branch); returns `(sp_irq, sp)`. -/
def aw_get_stackinfo (sram_info : soc_sram_info) : FelM (Nat × Nat) := do
  let arm_code := words_le [0xe10f0000, 0xe3c0101f, 0xe3811012, 0xe121f001, 0xe1a0100d,
    0xe121f000, 0xe58f1004, 0xe58fd004, 0xe12fff1e]
  aw_fel_write arm_code sram_info.scratch_addr 36
  aw_fel_execute sram_info.scratch_addr
  let results ← aw_fel_read (u32 (sram_info.scratch_addr + 0x24)) 8
  pure (le32_at results 0, le32_at results 4)

def aw_get_ttbr0 (sram_info : soc_sram_info) : FelM Nat := do
  let arm_code := words_le [0xee122f10, 0xe58f2008, 0xe12fff1e]
  aw_fel_write arm_code sram_info.scratch_addr 12
  aw_fel_execute sram_info.scratch_addr
  let ttbr0 ← aw_fel_read (u32 (sram_info.scratch_addr + 0x14)) 4
  pure (le32_at ttbr0 0)

def aw_get_sctlr (sram_info : soc_sram_info) : FelM Nat := do
  let arm_code := words_le [0xee112f10, 0xe58f2008, 0xe12fff1e]
  aw_fel_write arm_code sram_info.scratch_addr 12
  aw_fel_execute sram_info.scratch_addr
  let sctlr ← aw_fel_read (u32 (sram_info.scratch_addr + 0x14)) 4
  pure (le32_at sctlr 0)

/-- The sanity loop over the translation table in `aw_backup_and_disable_mmu`,
from index `i` on: the diagnostic of the first entry that fails a check. -/
def mmu_sanity : Nat → List Nat → Option Diag
  | _, [] => none
  | i, e :: rest =>
    if ((e >>> 1) &&& 1) ≠ 1 ∨ ((e >>> 18) &&& 1) ≠ 0 then some .mmu_not_section
    else if (e >>> 20) ≠ i then some .mmu_not_direct
    else mmu_sanity (i + 1) rest

/-- The function `aw_backup_and_disable_mmu`; `none` is the NULL return. -/
def aw_backup_and_disable_mmu (sram_info : soc_sram_info) : FelM (Option (List Nat)) := do
  let ttbr0 ← aw_get_ttbr0 sram_info
  let sctlr ← aw_get_sctlr sram_info
  let arm_code := words_le [0xee110f10, 0xe3c00001, 0xe3c00a01, 0xe3c00b02, 0xee010f10,
    0xe12fff1e]
  if (sctlr &&& 1) = 0 then pure none
  else if ((sctlr >>> 28) &&& 1) ≠ 0 then die .tex_remap_enabled
  else if (ttbr0 &&& 0x3FFF) ≠ 0 then die .unexpected_ttbr0
  else do
    let raw ← aw_fel_read ttbr0 (16 * 1024)
    let tt := (List.range 4096).map (fun i => le32_at raw (4 * i))
    match mmu_sanity 0 tt with
    | some d => die d
    | none => do
      aw_fel_write arm_code sram_info.scratch_addr 24
      aw_fel_execute sram_info.scratch_addr
      pure (some tt)

/-- The 32-bit value `~((7 << 12) | (1 << 3) | (1 << 2))`. -/
def TEXCB_CLEAR : Nat := 0xFFFFFFFF ^^^ ((7 <<< 12) ||| (1 <<< 3) ||| (1 <<< 2))

/-- The first loop of `aw_restore_and_enable_mmu` on entry `i`. -/
def tt_dram_entry (i e : Nat) : Nat :=
  if (DRAM_BASE >>> 20) ≤ i ∧ i < (u32 (DRAM_BASE + DRAM_SIZE) >>> 20) then
    (e &&& TEXCB_CLEAR) ||| (1 <<< 12)
  else e

/-- The table as rewritten by `aw_restore_and_enable_mmu` before the write-back. -/
def tt_rewrite (tt : List Nat) : List Nat :=
  let tt1 := tt.enum.map (fun p => tt_dram_entry p.1 p.2)
  tt1.set 0xFFF (((tt1.getD 0xFFF 0) &&& TEXCB_CLEAR) ||| ((1 <<< 12) ||| (1 <<< 3) ||| (1 <<< 2)))

def aw_restore_and_enable_mmu (sram_info : soc_sram_info) (tt : List Nat) : FelM Unit := do
  let ttbr0 ← aw_get_ttbr0 sram_info
  let arm_code := words_le [0xe3a00000, 0xee080f17, 0xee070f15, 0xee070fd5, 0xf57ff04f,
    0xf57ff06f, 0xee110f10, 0xe3800001, 0xe3800a01, 0xe3800b02, 0xee010f10, 0xe12fff1e]
  aw_fel_write (words_le (tt_rewrite tt)) ttbr0 (16 * 1024)
  aw_fel_write arm_code sram_info.scratch_addr 48
  aw_fel_execute sram_info.scratch_addr

/-! ## SPL loader -/

/-- Maximum size of SPL, and start offset of the main U-Boot image. -/
def SPL_LEN_LIMIT : Nat := 0x8000

/-- The variable `spl_checksum` after the loop
`for (i = 0; i < len / 4; i++) spl_checksum -= le32toh(buf32[i]);`
started from `2 * le32toh(buf32[3]) - 0x5F0A6C39`, all in `uint32_t`. -/
def spl_checksum (buf : List Byte) (len : Nat) : Nat :=
  (List.range (len / 4)).foldl (fun c i => sub32 c (le32_at buf (4 * i)))
    (sub32 (u32 (2 * le32_at buf 12)) 0x5F0A6C39)

/-- The header, length and checksum checks of `aw_fel_write_and_execute_spl`
(source lines 801-821): the diagnostic of the first failing check, or the stored
length `spl_len`. -/
def spl_check_header (buf : List Byte) (len : Nat) : Except Diag Nat :=
  if len < 32 ∨ (buf.drop 4).take 8 ≠ str_eGON_BT0 then .error .spl_no_egon_header
  else
    let spl_len := le32_at buf 16
    if spl_len > len ∨ spl_len % 4 ≠ 0 then .error .spl_bad_length
    else if spl_checksum buf spl_len ≠ 0 then .error .spl_checksum
    else .ok spl_len

/-- The local variables that the swap-buffer loop of the loader updates. -/
structure Staging where
  i : Nat
  spl_len_limit : Nat
  cur_addr : Nat
  buf : List Byte
  len : Nat

/-- The first conditional write of the loop body: the part below `buf1`. -/
def spl_stage_below (sb : sram_swap_buffers) (st : Staging) : FelM Staging :=
  if st.len > 0 ∧ st.cur_addr < sb.buf1 then do
    let tmp0 := sub32 sb.buf1 st.cur_addr
    let tmp := if tmp0 > st.len then u32 st.len else tmp0
    aw_fel_write st.buf st.cur_addr tmp
    pure { st with cur_addr := u32 (st.cur_addr + tmp), buf := st.buf.drop tmp,
                   len := sub64 st.len tmp }
  else pure st

/-- The second conditional write of the loop body: the part redirected to `buf2`. -/
def spl_stage_swap (sb : sram_swap_buffers) (st : Staging) : FelM Staging :=
  if st.len > 0 ∧ st.cur_addr = sb.buf1 then do
    let tmp0 := sb.size
    let tmp := if tmp0 > st.len then u32 st.len else tmp0
    aw_fel_write st.buf sb.buf2 tmp
    pure { st with cur_addr := u32 (st.cur_addr + tmp), buf := st.buf.drop tmp,
                   len := sub64 st.len tmp }
  else pure st

/-- The loop `for (i = 0; swap_buffers[i].size; i++)` of the loader over the entries
from the current one on.  The arrays of the program all end with a `size == 0`
entry; a list without one ends the loop at its end. -/
def spl_stage_loop (spl_addr : Nat) : List sram_swap_buffers → Staging → FelM Staging
  | [], st => pure st
  | sb :: rest, st =>
    if sb.size = 0 then pure st
    else do
      let st1 : Staging :=
        if sb.buf2 ≥ spl_addr ∧ sb.buf2 < u32 (spl_addr + st.spl_len_limit) then
          { st with spl_len_limit := sub32 sb.buf2 spl_addr }
        else st
      let st2 ← spl_stage_below sb st1
      let st3 ← spl_stage_swap sb st2
      spl_stage_loop spl_addr rest { st3 with i := st3.i + 1 }

/-- The words of `thunk_buf`: the thunk code, `spl_addr`, and the first `i + 1`
swap-buffer entries. -/
def thunk_words (fel_to_spl_thunk : List Nat) (spl_addr : Nat)
    (swap_buffers : List sram_swap_buffers) (i : Nat) : List Nat :=
  fel_to_spl_thunk ++ [spl_addr]
    ++ ((swap_buffers.take (i + 1)).map (fun sb => [sb.buf1, sb.buf2, sb.size])).flatten

/-- The part of `aw_fel_write_and_execute_spl` after the header checks (source lines
823-911): cache and MMU preparation, the staging of `spl_len` bytes of `buf` around
the swap buffers, the size checks, the thunk, and the read-back of the result.  The
array `fel_to_spl_thunk` is included from `fel-to-spl-thunk.h`, which is not among
the sources: its words are a parameter.  The `usleep` before the read-back has no
counterpart here. -/
def spl_stage_and_run (fel_to_spl_thunk : List Nat) (sram_info : soc_sram_info)
    (swap_buffers : List sram_swap_buffers) (buf : List Byte) (spl_len : Nat) : FelM Unit := do
  (if sram_info.needs_l2en ≠ 0 then aw_enable_l2_cache sram_info else pure ())
  let _ ← aw_get_stackinfo sram_info
  let tt ← aw_backup_and_disable_mmu sram_info
  let st ← spl_stage_loop sram_info.spl_addr swap_buffers
    { i := 0, spl_len_limit := SPL_LEN_LIMIT, cur_addr := sram_info.spl_addr,
      buf := buf, len := spl_len }
  let spl_len_limit :=
    if sram_info.thunk_addr < st.spl_len_limit then sram_info.thunk_addr
    else st.spl_len_limit
  if spl_len > spl_len_limit then die .spl_too_large
  else do
    (if st.len > 0 then aw_fel_write st.buf st.cur_addr st.len else pure ())
    let thunk_size := 4 * fel_to_spl_thunk.length + 4 + (st.i + 1) * 12
    if thunk_size > sram_info.thunk_size then die .spl_bad_thunk_size
    else do
      let thunk_buf :=
        words_le (thunk_words fel_to_spl_thunk sram_info.spl_addr swap_buffers st.i)
      aw_fel_write thunk_buf sram_info.thunk_addr thunk_size
      aw_fel_execute sram_info.thunk_addr
      let sig ← aw_fel_read (u32 (sram_info.spl_addr + 4)) 8
      let header_signature := sig ++ [0]
      if c_str header_signature ≠ str_eGON_FEL then
        die (.spl_failure_code (c_str header_signature))
      else
        match tt with
        | some t => aw_restore_and_enable_mmu sram_info t
        | none => pure ()

/-- The function `aw_fel_write_and_execute_spl`: SoC lookup and check (lines 785-799),
header checks (`spl_check_header`), then `spl_stage_and_run`. -/
def aw_fel_write_and_execute_spl (fel_to_spl_thunk : List Nat) (buf : List Byte) (len : Nat) :
    FelM Unit := do
  let sram_info ← aw_fel_get_sram_info
  match sram_info.swap_buffers with
  | none => die .spl_unsupported_soc
  | some swap_buffers =>
    match spl_check_header buf len with
    | .error d => die d
    | .ok spl_len => spl_stage_and_run fel_to_spl_thunk sram_info swap_buffers buf spl_len

/-! ## U-Boot image writer -/

def aw_fel_write_uboot_image (buf : List Byte) (len : Nat) : FelM Unit :=
  if len ≤ HEADER_SIZE then pure ()
  else
    let image_type := get_image_type buf len
    if image_type ≤ IH_TYPE_INVALID then
      if image_type = IH_TYPE_INVALID then die .uboot_bad_size_or_signature
      else if image_type = IH_TYPE_ARCH_MISMATCH then die .uboot_wrong_architecture
      else die (.uboot_error_code image_type)
    else if image_type ≠ IH_TYPE_FIRMWARE then die (.uboot_type_mismatch image_type)
    else
      let data_size := be32_at buf 12
      let load_addr := be32_at buf 16
      if data_size ≠ sub64 len HEADER_SIZE then die .uboot_data_size_mismatch
      else do
        aw_fel_write (buf.drop HEADER_SIZE) load_addr data_size
        fun w => .ok () { w with uboot_entry := load_addr, uboot_size := data_size }

/-- The function `aw_fel_process_spl_and_uboot`, from the loaded file contents on. -/
def aw_fel_process_spl_and_uboot (fel_to_spl_thunk : List Nat) (buf : List Byte)
    (size : Nat) : FelM Unit := do
  aw_fel_write_and_execute_spl fel_to_spl_thunk buf size
  if size > SPL_LEN_LIMIT then
    aw_fel_write_uboot_image (buf.drop SPL_LEN_LIMIT) (sub64 size SPL_LEN_LIMIT)

/-! ## Sunxi SPL side channel -/

def SPL_MIN_VERSION : Nat := 1
def SPL_MAX_VERSION : Nat := 1

/-- The function `have_sunxi_spl`; the two version diagnostics go to `stderr` and
the function returns 0, the run goes on. -/
def have_sunxi_spl (spl_addr : Nat) : FelM Int := do
  let spl_signature ← aw_fel_read (u32 (spl_addr + 0x14)) 4
  if spl_signature.take 3 ≠ SPL_SIGNATURE then pure 0
  else if byte_at spl_signature 3 < SPL_MIN_VERSION then pure 0
  else if byte_at spl_signature 3 > SPL_MAX_VERSION then pure 0
  else pure 1

def pass_fel_information (script_address : Nat) : FelM Unit := do
  let sram_info ← aw_fel_get_sram_info
  if (← have_sunxi_spl sram_info.spl_addr) ≠ 0 then
    aw_fel_write (htole32 script_address) (u32 (sram_info.spl_addr + 0x18)) 4

/-! ## Version printing -/

/-- The `switch` of `aw_fel_print_version`: the SoC name it prints for a SoC id. -/
def soc_name (soc_id : Nat) : String :=
  match soc_id with
  | 0x1623 => "A10"
  | 0x1625 => "A13"
  | 0x1633 => "A31"
  | 0x1651 => "A20"
  | 0x1650 => "A23"
  | 0x1639 => "A80"
  | 0x1667 => "A33"
  | 0x1673 => "A83T"
  | 0x1680 => "H3"
  | _ => "unknown"

/-- The function `aw_fel_print_version`; the value returned here is what its `printf`
is given: the SoC name and the converted version record. -/
def aw_fel_print_version : FelM (String × aw_fel_version) := do
  let buf ← aw_fel_get_version
  pure (soc_name buf.soc_id, buf)

/-! ## Command line -/

/-- What the program sees of the host: the files `fopen(name, "rb")` can open, with
their contents, the bytes waiting on standard input, and the names for which
`fopen(name, "wb")` fails. -/
structure Host where
  files : String → Option (List Byte)
  stdin : List Byte
  readonly : String → Bool

/-- The function `load_file`: the whole contents of the file, or of standard input for
the name "-"; the returned list is the buffer and its length is `*size`. -/
def load_file (name : String) (h : Host) : FelM (List Byte × Host) :=
  if name = "-" then pure (h.stdin, { h with stdin := [] })
  else
    match h.files name with
    | some data => pure (data, h)
    | none => die .failed_to_open_input_file

/-- The function `save_file`: `fwrite(data, size, 1, out)` on a fresh file. -/
def save_file (name : String) (data : List Byte) (size : Nat) (h : Host) : FelM Host :=
  if h.readonly name then die .failed_to_open_output_file
  else pure { h with files := fun n => if n = name then some (data.take size) else h.files n }

/-- The value of a digit of `strtoul` (letters count from 10, in either case). -/
def digit_value (c : Char) : Option Nat :=
  if '0' ≤ c ∧ c ≤ '9' then some (c.toNat - 48)
  else if 'a' ≤ c ∧ c ≤ 'z' then some (c.toNat - 87)
  else if 'A' ≤ c ∧ c ≤ 'Z' then some (c.toNat - 55)
  else none

/-- The digits of `strtoul`: the longest run of digits below `base`, accumulated. -/
def strtoul_digits (base : Nat) : List Char → Nat → Nat
  | [], acc => acc
  | c :: rest, acc =>
    match digit_value c with
    | some d => if d < base then strtoul_digits base rest (acc * base + d) else acc
    | none => acc

/-- Model of the library call `strtoul(s, NULL, 0)` for a 64-bit `unsigned long`:
leading white space, an optional sign, then hexadecimal digits after "0x" or "0X", octal
digits after "0", decimal digits otherwise; no digits give 0, a value that does not fit
gives `ULONG_MAX`, a minus sign negates modulo `2^64`. -/
def strtoul (s : String) : Nat :=
  let cs := s.toList.dropWhile
    (fun c => c = ' ' ∨ c = '\t' ∨ c = '\n' ∨ c = '\r' ∨ c.toNat = 11 ∨ c.toNat = 12)
  let neg := cs.head? = some '-'
  let cs := if cs.head? = some '-' ∨ cs.head? = some '+' then cs.drop 1 else cs
  let hex : Bool := decide (cs.head? = some '0' ∧ (cs.get? 1 = some 'x' ∨ cs.get? 1 = some 'X'))
    && (match (cs.get? 2).bind digit_value with
        | some d => decide (d < 16)
        | none => false)
  let v :=
    if hex then strtoul_digits 16 (cs.drop 2) 0
    else if cs.head? = some '0' then strtoul_digits 8 cs 0
    else strtoul_digits 10 cs 0
  if v > 18446744073709551615 then 18446744073709551615
  else if neg then (18446744073709551616 - v) % 18446744073709551616
  else v

/-- The call `strtoul(argv[k], NULL, 0)`: `none` is the NULL pointer that ends `argv`,
on which the call crashes. -/
def strtoul_arg : Option String → FelM Nat
  | some s => pure (strtoul s)
  | none => die .strtoul_null

/-- The function `aw_fel_hexdump`; the text it prints is not modelled. -/
def aw_fel_hexdump (offset : Nat) (size : Nat) : FelM Unit := do
  let _ ← aw_fel_read offset size
  pure ()

/-- The function `aw_fel_dump`; the bytes it writes to `stdout` are returned. -/
def aw_fel_dump (offset : Nat) (size : Nat) : FelM (List Byte) :=
  aw_fel_read offset size

/-- The function `aw_fel_fill`. -/
def aw_fel_fill (offset : Nat) (size : Nat) (value : Byte) : FelM Unit :=
  aw_fel_write (List.replicate size value) offset size

/-- The value of `uboot_entry > 0 && uboot_size > 0`. -/
def uboot_detected : FelM Bool := fun w =>
  .ok (decide (w.uboot_entry > 0 ∧ w.uboot_size > 0)) w

/-- The loop `while (argc > 1)` of `main` that reads the options: `args` is
`argv[1], .., argv[argc - 1]`.  Returns the arguments left for the commands.  The bus
and device numbers of `--dev` select the device to open, which is outside the model; the
`verbose` flag only controls printing. -/
def fel_main_options : Nat → List String → FelM (List String)
  | 0, args => if args.isEmpty then pure args else die .fuel
  | fuel + 1, args =>
    match args with
    | [] => pure args
    | a :: rest =>
      if a.toList.head? ≠ some '-' then pure args
      else do
        (if a = "--progress" ∨ a = "-p" then
          (fun w => .ok () { w with progress := true } : FelM Unit)
         else pure ())
        if a = "--dev" ∨ a = "-d" then do
          let _ ← strtoul_arg rest.head?
          fel_main_options fuel (rest.drop 1)
        else fel_main_options fuel rest

/-- The command loop `while (argc > 1)` of `main` (source lines 1228-1292): `args` is
`argv[1], .., argv[argc - 1]`, so `argc = args.length + 1` and `argv[k]` is
`args.get? (k - 1)`, the NULL pointer for `k = argc`.  The state is the host and the
flag `uboot_autostart`. -/
def fel_main_loop (fel_to_spl_thunk : List Nat) :
    Nat → List String → Host → Bool → FelM (Host × Bool)
  | 0, args, h, uboot_autostart =>
    if args.isEmpty then pure (h, uboot_autostart) else die .fuel
  | fuel + 1, args, h, uboot_autostart =>
    match args with
    | [] => pure (h, uboot_autostart)
    | cmd :: _ =>
      let argc := args.length + 1
      if cmd.toList.take 3 = ['h', 'e', 'x'] ∧ argc > 3 then do
        let offset ← strtoul_arg (args.get? 1)
        let size ← strtoul_arg (args.get? 2)
        aw_fel_hexdump (u32 offset) size
        fel_main_loop fel_to_spl_thunk fuel (args.drop 3) h uboot_autostart
      else if cmd.toList.take 4 = ['d', 'u', 'm', 'p'] ∧ argc > 3 then do
        let offset ← strtoul_arg (args.get? 1)
        let size ← strtoul_arg (args.get? 2)
        let _ ← aw_fel_dump (u32 offset) size
        fel_main_loop fel_to_spl_thunk fuel (args.drop 3) h uboot_autostart
      else if cmd.toList.take 3 = ['e', 'x', 'e'] ∧ argc > 2 then do
        let offset ← strtoul_arg (args.get? 1)
        aw_fel_execute (u32 offset)
        fel_main_loop fel_to_spl_thunk fuel (args.drop 3) h uboot_autostart
      else if cmd.toList.take 3 = ['v', 'e', 'r'] ∧ argc > 1 then do
        let _ ← aw_fel_print_version
        fel_main_loop fel_to_spl_thunk fuel (args.drop 1) h uboot_autostart
      else if cmd = "write" ∧ argc > 3 then do
        let (buf, h1) ← load_file (args.getD 2 "") h
        let offset ← strtoul_arg (args.get? 1)
        aw_fel_write buf (u32 offset) buf.length
        (if get_image_type buf buf.length = IH_TYPE_SCRIPT then
          pass_fel_information (u32 offset)
         else pure ())
        fel_main_loop fel_to_spl_thunk fuel (args.drop 3) h1 uboot_autostart
      else if cmd = "read" ∧ argc > 4 then do
        let size ← strtoul_arg (args.get? 2)
        let offset ← strtoul_arg (args.get? 1)
        let buf ← aw_fel_read (u32 offset) size
        let h1 ← save_file (args.getD 3 "") buf size h
        fel_main_loop fel_to_spl_thunk fuel (args.drop 4) h1 uboot_autostart
      else if cmd = "clear" ∧ argc > 2 then do
        let offset ← strtoul_arg (args.get? 1)
        let size ← strtoul_arg (args.get? 2)
        aw_fel_fill (u32 offset) size 0
        fel_main_loop fel_to_spl_thunk fuel (args.drop 3) h uboot_autostart
      else if cmd = "fill" ∧ argc > 3 then do
        let offset ← strtoul_arg (args.get? 1)
        let size ← strtoul_arg (args.get? 2)
        let value ← strtoul_arg (args.get? 3)
        aw_fel_fill (u32 offset) size (Fin.ofNat value)
        fel_main_loop fel_to_spl_thunk fuel (args.drop 4) h uboot_autostart
      else if cmd = "spl" ∧ argc > 2 then do
        let (buf, h1) ← load_file (args.getD 1 "") h
        aw_fel_process_spl_and_uboot fel_to_spl_thunk buf buf.length
        fel_main_loop fel_to_spl_thunk fuel (args.drop 2) h1 uboot_autostart
      else if cmd = "uboot" ∧ argc > 2 then do
        let (buf, h1) ← load_file (args.getD 1 "") h
        aw_fel_process_spl_and_uboot fel_to_spl_thunk buf buf.length
        let detected ← uboot_detected
        fel_main_loop fel_to_spl_thunk fuel (args.drop 2) h1 detected
      else die .invalid_command

/-- The function `main` (`fel_main` with `LIBSUNXI`) from the option loop on, for a
device that was found and claimed: options, commands, and the start of U-Boot when the
last `uboot` command asked for it.  `args` is `argv[1], .., argv[argc - 1]`; every
iteration of a loop consumes at least one argument, so `args.length` iterations
suffice. -/
def fel_main (fel_to_spl_thunk : List Nat) (args : List String) (h : Host) : FelM Host := do
  let cmds ← fel_main_options args.length args
  let (h1, uboot_autostart) ← fel_main_loop fel_to_spl_thunk cmds.length cmds h false
  if uboot_autostart then do
    let uboot_entry ← (fun w => .ok w.uboot_entry w : FelM Nat)
    aw_fel_execute uboot_entry
    pure h1
  else pure h1

/-! ## Predicates used in the statements -/

deriving instance DecidableEq for Except

/-- Only the wire log and the callback log differ between the two worlds. -/
def Wire (w w1 : World) : Prop :=
  w1.dev = w.dev ∧ w1.fel = w.fel ∧ w1.progress = w.progress ∧
  w1.uboot_entry = w.uboot_entry ∧ w1.uboot_size = w.uboot_size ∧ w1.result = w.result

/-- Every run of `m` ends (normally or not) in a world related by `R` to the initial
one, and a diagnostic it ends with satisfies `D`. -/
def Keeps (R : World → World → Prop) (D : Diag → Prop) {α : Type} (m : FelM α) : Prop :=
  ∀ w, R w (m w).world ∧ ∀ d, (m w).diag = some d → D d

/-- The device acknowledges: every 13-byte block it delivers is the C string "AWUS". -/
def Acks (dev : Device) : Prop :=
  ∀ h : List Xfer, c_str ((List.range 13).map (dev h 13)) = str_AWUS

/-- On an acknowledging device `m` returns normally, in a world related by `R`. -/
def Runs (R : World → World → Prop) {α : Type} (m : FelM α) : Prop :=
  ∀ w, Acks w.dev → ∃ a w1, m w = .ok a w1 ∧ R w w1

/-- Device and globals are the same in both worlds and the FEL command log grew by
exactly `ops`. -/
def Logs (ops : List FelOp) (w w1 : World) : Prop :=
  w1.dev = w.dev ∧ w1.fel = w.fel ++ ops ∧ w1.progress = w.progress ∧
  w1.uboot_entry = w.uboot_entry ∧ w1.uboot_size = w.uboot_size ∧ w1.result = w.result

/-- The overlap test of `aw_fel_write`. -/
def interlock (w : World) (offset len : Nat) : Prop :=
  w.uboot_size > 0 ∧ offset ≤ u32 (w.uboot_entry + w.uboot_size)
    ∧ usize (offset + len) ≥ w.uboot_entry

instance (w : World) (offset len : Nat) : Decidable (interlock w offset len) := by
  unfold interlock; infer_instance

/-- Device, globals and lookup cache are the same in both worlds and the FEL command
log of the first is an initial segment of the log of the second. -/
def Ext (w w1 : World) : Prop :=
  w1.dev = w.dev ∧ w.fel <+: w1.fel ∧ w1.progress = w.progress ∧
  w1.uboot_entry = w.uboot_entry ∧ w1.uboot_size = w.uboot_size ∧ w1.result = w.result

/-- The diagnostics a single FEL command can end with. -/
def CmdDiag (d : Diag) : Prop := d = .assert_awus ∨ d = .overwrite_uboot

/-! ## Segments of the SPL loader

`spl_stage_and_run` is one C block; the definitions below name its consecutive
segments so that statements can refer to them.  `spl_stage_and_run_eq` shows that the
block is their composition. -/

/-- Source lines 823-831 of the loader: L2 cache enable, stack probe, MMU backup. -/
def spl_prepare (sram_info : soc_sram_info) : FelM (Option (List Nat)) := do
  (if sram_info.needs_l2en ≠ 0 then aw_enable_l2_cache sram_info else pure ())
  let _ ← aw_get_stackinfo sram_info
  aw_backup_and_disable_mmu sram_info

/-- Source lines 901-911 of the loader: read-back of the signature and MMU restore. -/
def spl_verify (sram_info : soc_sram_info) (tt : Option (List Nat)) : FelM Unit := do
  let sig ← aw_fel_read (u32 (sram_info.spl_addr + 4)) 8
  let header_signature := sig ++ [0]
  if c_str header_signature ≠ str_eGON_FEL then
    die (.spl_failure_code (c_str header_signature))
  else
    match tt with
    | some t => aw_restore_and_enable_mmu sram_info t
    | none => pure ()

/-- Source lines 872-911 of the loader: thunk size check, thunk upload and execution,
then `spl_verify`; `i` is the loop counter left by the swap-buffer loop. -/
def spl_thunk (fel_to_spl_thunk : List Nat) (sram_info : soc_sram_info)
    (swap_buffers : List sram_swap_buffers) (tt : Option (List Nat)) (i : Nat) : FelM Unit :=
  let thunk_size := 4 * fel_to_spl_thunk.length + 4 + (i + 1) * 12
  if thunk_size > sram_info.thunk_size then die .spl_bad_thunk_size
  else do
    let thunk_buf :=
      words_le (thunk_words fel_to_spl_thunk sram_info.spl_addr swap_buffers i)
    aw_fel_write thunk_buf sram_info.thunk_addr thunk_size
    aw_fel_execute sram_info.thunk_addr
    spl_verify sram_info tt

/-- Source lines 858-911 of the loader: the size limit check, the write of the
remaining part of the SPL, then `spl_thunk`; `st` holds the variables left by the
swap-buffer loop. -/
def spl_finish (fel_to_spl_thunk : List Nat) (sram_info : soc_sram_info)
    (swap_buffers : List sram_swap_buffers) (spl_len : Nat) (tt : Option (List Nat))
    (st : Staging) : FelM Unit :=
  let spl_len_limit :=
    if sram_info.thunk_addr < st.spl_len_limit then sram_info.thunk_addr
    else st.spl_len_limit
  if spl_len > spl_len_limit then die .spl_too_large
  else do
    (if st.len > 0 then aw_fel_write st.buf st.cur_addr st.len else pure ())
    spl_thunk fel_to_spl_thunk sram_info swap_buffers tt st.i

/-! ## Shapes of wire traces -/

/-- The transfers `t` all go through `ep`, carry `bytes` in order, and each moves at
least one byte and at most 4 MiB. -/
def Chunked (ep : Endpoint) (bytes : List Byte) (t : List Xfer) : Prop :=
  (t.map (fun x => x.data)).flatten = bytes ∧
  ∀ x ∈ t, x.ep = ep ∧ 0 < x.data.length ∧ x.data.length ≤ 4194304

/-- The trace of one AW-USB write of `p`: the 32-byte request on the OUT endpoint,
then `p` on the OUT endpoint, then a 13-byte block from the IN endpoint. -/
def AwWrite (p : List Byte) (t : List Xfer) : Prop :=
  ∃ tc ack,
    t = ⟨.AW_USB_FEL_BULK_EP_OUT, aw_usb_request_bytes AW_USB_WRITE p.length⟩ :: tc
          ++ [⟨.AW_USB_FEL_BULK_EP_IN, ack⟩] ∧
    Chunked .AW_USB_FEL_BULK_EP_OUT p tc ∧ ack.length = 13

/-- The trace of one AW-USB read of `n` bytes that delivers `got`: the 32-byte request
on the OUT endpoint, then `got` from the IN endpoint, then a 13-byte block from the IN
endpoint. -/
def AwRead (n : Nat) (got : List Byte) (t : List Xfer) : Prop :=
  ∃ tc ack,
    t = ⟨.AW_USB_FEL_BULK_EP_OUT, aw_usb_request_bytes AW_USB_READ n⟩ :: tc
          ++ [⟨.AW_USB_FEL_BULK_EP_IN, ack⟩] ∧
    Chunked .AW_USB_FEL_BULK_EP_IN got tc ∧ got.length = n ∧ ack.length = 13

/-- On an acknowledging device `m` returns normally, changes only the wire and callback
logs, and the transfers `t` it adds to the wire log satisfy `P a t` for the value `a`
it returns. -/
def Emits {α : Type} (P : α → List Xfer → Prop) (m : FelM α) : Prop :=
  ∀ w, Acks w.dev → ∃ a w1 t, m w = .ok a w1 ∧ Wire w w1 ∧ w1.usb = w.usb ++ t ∧ P a t

/-- On an acknowledging device, with no U-Boot image recorded, `m` returns normally,
changes nothing but the logs, and the FEL commands `ops` it adds to the command log
satisfy `P a ops` for the value `a` it returns. -/
def Performs {α : Type} (P : α → List FelOp → Prop) (m : FelM α) : Prop :=
  ∀ w, Acks w.dev → w.uboot_size = 0 →
    ∃ a w1 ops, m w = .ok a w1 ∧ Logs ops w w1 ∧ P a ops

/-- Every run of `m` either ends the process with a diagnostic satisfying `D`, or goes
on as `k a` from a world `w2` that has the device and the recorded U-Boot size of the
initial world and satisfies `P a w2`. -/
def Leads {α : Type} (D : Diag → Prop) (P : α → World → Prop) (k : α → FelM Unit)
    (m : FelM Unit) : Prop :=
  ∀ w, (∃ d w1, m w = .exit d w1 ∧ D d) ∨
    (∃ a w2, m w = k a w2 ∧ w2.dev = w.dev ∧ w2.uboot_size = w.uboot_size ∧ P a w2)

/-! ## The size limit of the specification -/

/-- The value of `spl_len_limit` after the swap-buffer loop (source lines 834-837): the
loop over the entries up to the first one with `size == 0`, keeping only the update of
the limit. -/
def spl_len_limit_walk (spl_addr : Nat) : List sram_swap_buffers → Nat → Nat
  | [], limit => limit
  | sb :: rest, limit =>
    if sb.size = 0 then limit
    else spl_len_limit_walk spl_addr rest
      (if sb.buf2 ≥ spl_addr ∧ sb.buf2 < u32 (spl_addr + limit) then sub32 sb.buf2 spl_addr
       else limit)

/-- The limit that the loader compares `spl_len` with (source lines 834-837 and
859-862): the limit left by the loop, replaced by `thunk_addr` when that is smaller. -/
def enforced_spl_len_limit (sram_info : soc_sram_info)
    (swap_buffers : List sram_swap_buffers) : Nat :=
  let spl_len_limit := spl_len_limit_walk sram_info.spl_addr swap_buffers SPL_LEN_LIMIT
  if sram_info.thunk_addr < spl_len_limit then sram_info.thunk_addr else spl_len_limit

/-! ## SRAM layout -/

/-- The half-open address ranges `[a, a + n)` and `[b, b + m)` have no address in
common. -/
def Apart (a n b m : Nat) : Prop := ∀ x, ¬ (a ≤ x ∧ x < a + n ∧ b ≤ x ∧ x < b + m)

/-- The comparisons that show the SPL region of a descriptor to be apart from the
thunk, and every stash region to be apart from the SPL region, from the thunk and from
every BROM-live region. -/
def layout_check (info : soc_sram_info) (sbs : List sram_swap_buffers) : Bool :=
  let limit := enforced_spl_len_limit info sbs
  let es := sbs.takeWhile (fun e => decide (e.size ≠ 0))
  (decide (info.spl_addr + limit ≤ info.thunk_addr)
    || decide (info.thunk_addr + info.thunk_size ≤ info.spl_addr))
  && es.all (fun e =>
      (decide (info.spl_addr + limit ≤ e.buf2) || decide (e.buf2 + e.size ≤ info.spl_addr))
      && (decide (e.buf2 + e.size ≤ info.thunk_addr)
          || decide (info.thunk_addr + info.thunk_size ≤ e.buf2))
      && es.all (fun e1 =>
          decide (e.buf2 + e.size ≤ e1.buf1) || decide (e1.buf1 + e1.size ≤ e.buf2)))

/-! ## Sequences of session operations -/

/-- The recorded U-Boot footprint is the same in both worlds. -/
def Foot (w w1 : World) : Prop :=
  w1.uboot_entry = w.uboot_entry ∧ w1.uboot_size = w.uboot_size

/-- One operation of a session: a FEL write, read or execute, an SPL load, or a call of
`aw_fel_write_uboot_image`. -/
inductive SessionOp where
  | write (buf : List Byte) (offset len : Nat)
  | read (offset len : Nat)
  | exec (offset : Nat)
  | spl (buf : List Byte) (len : Nat)
  | uboot_image (buf : List Byte) (len : Nat)

/-- The function call that a session operation stands for. -/
def SessionOp.call (fel_to_spl_thunk : List Nat) : SessionOp → FelM Unit
  | .write buf offset len => aw_fel_write buf offset len
  | .read offset len => do
    let _ ← aw_fel_read offset len
    pure ()
  | .exec offset => aw_fel_execute offset
  | .spl buf len => aw_fel_write_and_execute_spl fel_to_spl_thunk buf len
  | .uboot_image buf len => aw_fel_write_uboot_image buf len

/-- A sequence of session operations, one after the other. -/
def session (fel_to_spl_thunk : List Nat) : List SessionOp → FelM Unit
  | [] => pure ()
  | op :: rest => do
    op.call fel_to_spl_thunk
    session fel_to_spl_thunk rest

/-! ## The lookup cache -/

/-- The lookup cache of `aw_fel_get_sram_info` is empty or holds a descriptor of the
program: an entry of `soc_sram_info_table` or `generic_sram_info`. -/
def ProgramCache (w : World) : Prop :=
  ∀ r, w.result = some r → r ∈ soc_sram_info_table ∨ r = generic_sram_info

/-- If the lookup cache of the first world is empty or holds a descriptor of the
program, so does the cache of the second. -/
def CacheKept (w w1 : World) : Prop := ProgramCache w → ProgramCache w1

/-! ## Placement of the SPL bytes -/

/-- The address the specification gives to the SPL byte that belongs at address `a`:
inside the swap region `[buf1, buf1 + size)` of an entry it is `buf2 + (a - buf1)`, the
same offset into the stash; outside every swap region it is `a`. -/
def spec_spl_target (entries : List sram_swap_buffers) (a : Nat) : Nat :=
  match entries.find? (fun e => decide (e.buf1 ≤ a ∧ a < e.buf1 + e.size)) with
  | some e => e.buf2 + (a - e.buf1)
  | none => a

/-- The placement the specification expects for the first `n` bytes of `buf` when byte 0
belongs at address `addr`: for every offset `k < n`, in increasing order, the target
address of byte `k` and the byte. -/
def spec_spl_placement (entries : List sram_swap_buffers) (addr : Nat) (buf : List Byte)
    (n : Nat) : List (Nat × Byte) :=
  (List.range n).map (fun k => (spec_spl_target entries (addr + k), buf.getD k 0))

/-- The bytes that a list of writes (address, data) puts into memory, in the order in
which they are written, each with its address. -/
def placed (ws : List (Nat × List Byte)) : List (Nat × Byte) :=
  (ws.map (fun p => (List.range p.2.length).map (fun j => (p.1 + j, p.2.getD j 0)))).flatten

/-- The swap entries are sorted by `buf1`, their regions `[buf1, buf1 + size)` do not
overlap, and they start at or above `lo`. -/
def SortedFrom (lo : Nat) : List sram_swap_buffers → Prop
  | [] => True
  | e :: rest => lo ≤ e.buf1 ∧ SortedFrom (e.buf1 + e.size) rest

instance decSortedFrom : (lo : Nat) → (es : List sram_swap_buffers) →
    Decidable (SortedFrom lo es)
  | _, [] => isTrue trivial
  | lo, e :: rest =>
    match Nat.decLe lo e.buf1, decSortedFrom (e.buf1 + e.size) rest with
    | isTrue h1, isTrue h2 => isTrue ⟨h1, h2⟩
    | isFalse h1, _ => isFalse (fun h => h1 h.1)
    | _, isFalse h2 => isFalse (fun h => h2 h.2)

/-! ## Concrete devices and inputs -/

/-- A device that acknowledges every request with "AWUS", answers every 8-byte read
with "eGON.FEL" and everything else with zero bytes (so its version record carries
SoC id 0 and its SCTLR reads as 0: MMU off). -/
def mock_dev : Device := fun _ n i =>
  if n = 13 then (str_AWUS ++ [0]).getD i 0
  else if n = 8 then str_eGON_FEL.getD i 0
  else 0

/-- The state of the program when `main` starts talking to the device `dev`. -/
def session_start (dev : Device) : World :=
  { dev := dev, usb := [], fel := [], sink := [], progress := false,
    uboot_entry := 0, uboot_size := 0, result := none }

/-- A 64-byte mkimage legacy header: magic, `data_size` at 12, `load_addr` at 16, ARM
(byte 29), firmware (byte 30), everything else zero. -/
def mkimage_header (data_size load_addr : Nat) : List Byte :=
  [0x27, 0x05, 0x19, 0x56] ++ List.replicate 8 0
    ++ [Fin.ofNat (data_size / 16777216), Fin.ofNat (data_size / 65536),
        Fin.ofNat (data_size / 256), Fin.ofNat data_size]
    ++ [Fin.ofNat (load_addr / 16777216), Fin.ofNat (load_addr / 65536),
        Fin.ofNat (load_addr / 256), Fin.ofNat load_addr]
    ++ List.replicate 9 0 ++ [2, 5, 0] ++ List.replicate 32 0

/-- A firmware image of 256 data bytes to be loaded at `0xFFFFFF00`, the last 256
bytes of the 32-bit address space. -/
def top_image : List Byte := mkimage_header 0x100 0xFFFFFF00 ++ List.replicate 256 7

/-- The session after `top_image` was loaded into a fresh session on `mock_dev`. -/
def top_session : World :=
  (aw_fel_write_uboot_image top_image top_image.length (session_start mock_dev)).world

/-- A firmware image of `0x80000` data bytes for load address `0x4A000000`. -/
def dram_image : List Byte := mkimage_header 0x80000 0x4A000000 ++ List.replicate 0x80000 0

/-- A 65-byte buffer without the mkimage magic. -/
def junk_image : List Byte := List.replicate 65 0

/-- A mkimage header with architecture byte 0 followed by one data byte. -/
def arch0_image : List Byte :=
  [0x27, 0x05, 0x19, 0x56] ++ List.replicate 25 0 ++ [0, 5, 0] ++ List.replicate 33 0

/-- A minimal valid SPL: 32 bytes, a branch instruction, "eGON.BT0", the stored
checksum 0xC7ADF602, the stored length 32 and three zero words. -/
def tiny_spl : List Byte :=
  [0x16, 0x00, 0x00, 0xEA, 0x65, 0x47, 0x4F, 0x4E, 0x2E, 0x42, 0x54, 0x30,
   0x02, 0xF6, 0xAD, 0xC7, 0x20, 0x00, 0x00, 0x00, 0x00, 0x00, 0x00, 0x00,
   0x00, 0x00, 0x00, 0x00, 0x00, 0x00, 0x00, 0x00]

/-- A valid 32-byte SPL whose word 5 is 0xFFFFFFE0 (stored checksum 0xC7ADF5E2). -/
def short_spl : List Byte :=
  [0x16, 0x00, 0x00, 0xEA, 0x65, 0x47, 0x4F, 0x4E, 0x2E, 0x42, 0x54, 0x30,
   0xE2, 0xF5, 0xAD, 0xC7, 0x20, 0x00, 0x00, 0x00, 0xE0, 0xFF, 0xFF, 0xFF,
   0x00, 0x00, 0x00, 0x00, 0x00, 0x00, 0x00, 0x00]

/-- A stand-in for the words of `fel_to_spl_thunk` (a single `bx lr`). -/
def sample_thunk : List Nat := [0xe12fff1e]

/-- A device like `mock_dev` whose version record carries the raw SoC id 0x00165100. -/
def a20_dev : Device := fun _ n i =>
  if n = 13 then (str_AWUS ++ [0]).getD i 0
  else if n = 32 then
    ([0x41, 0x57, 0x55, 0x53, 0x42, 0x45, 0x58, 0x00, 0x00, 0x51, 0x16, 0x00] : List Byte).getD i 0
  else 0

/-- A device whose version record carries the raw SoC id 0x00163900 (the A80, which
`aw_fel_print_version` names but `soc_sram_info_table` does not list); it acknowledges
every request and answers every 8-byte read with "eGON.FEL", everything else with
zero bytes (SCTLR reads as 0: MMU off). -/
def a80_dev : Device := fun _ n i =>
  if n = 13 then (str_AWUS ++ [0]).getD i 0
  else if n = 32 then
    ([0x41, 0x57, 0x55, 0x53, 0x42, 0x45, 0x58, 0x00, 0x00, 0x39, 0x16, 0x00] : List Byte).getD i 0
  else if n = 8 then str_eGON_FEL.getD i 0
  else 0

/-- The stub uploaded by `aw_get_stackinfo`, as bytes. -/
def stackinfo_stub : List Byte :=
  words_le [0xe10f0000, 0xe3c0101f, 0xe3811012, 0xe121f001, 0xe1a0100d,
    0xe121f000, 0xe58f1004, 0xe58fd004, 0xe12fff1e]

/-- A session on the mock device whose footprint is armed for `0x80000` bytes at
`0x4A000000`. -/
def dram_session : World :=
  { session_start mock_dev with uboot_entry := 0x4A000000, uboot_size := 0x80000 }

/-- A device whose 13-byte blocks are "AWUS" followed by the byte 1 and zeros. -/
def tagged_ack_dev : Device := fun _ n i =>
  if n = 13 then ([0x41, 0x57, 0x55, 0x53, 0x01] : List Byte).getD i 0 else 0

/-- A translation table of 4096 section descriptors that map every MiB onto itself. -/
def flat_table : List Nat := (List.range 4096).map (fun i => (i <<< 20) ||| 0xC02)

/-- The first 32 bytes of `spl_24k`: an eGON header with the length `0x6000` and the
checksum that matches an image whose other bytes are zero. -/
def spl_24k_header : List Byte :=
  [0x16, 0x00, 0x00, 0xEA, 0x65, 0x47, 0x4F, 0x4E, 0x2E, 0x42, 0x54, 0x30,
   0xE2, 0x55, 0xAE, 0xC7, 0x00, 0x60, 0x00, 0x00, 0x00, 0x00, 0x00, 0x00,
   0x00, 0x00, 0x00, 0x00, 0x00, 0x00, 0x00, 0x00]

/-- A valid SPL image of 24 KiB: `spl_24k_header` followed by zero bytes. -/
def spl_24k : List Byte := spl_24k_header ++ List.replicate (0x6000 - 32) 0

/-- A device that reports the A20 (raw SoC id `0x00165100`), acknowledges, and answers
every 8-byte read with "eGON.FEL". -/
def a20_fel_dev : Device := fun _ n i =>
  if n = 13 then (str_AWUS ++ [0]).getD i 0
  else if n = 32 then
    ([0x41, 0x57, 0x55, 0x53, 0x42, 0x45, 0x58, 0x00, 0x00, 0x51, 0x16, 0x00] : List Byte).getD i 0
  else if n = 8 then str_eGON_FEL.getD i 0
  else 0

/-- The entry of `soc_sram_info_table` for the A20 (SoC id `0x1651`). -/
def a20_sram_info : soc_sram_info :=
  { soc_id := 0x1651, spl_addr := 0, scratch_addr := 0x2000,
    thunk_addr := 0xAE00, thunk_size := 0x200,
    swap_buffers := some a10_a13_a20_sram_swap_buffers, needs_l2en := 0 }

/-- A host without files, with nothing on standard input. -/
def empty_host : Host :=
  { files := fun _ => none, stdin := [], readonly := fun _ => false }

/-- A device that acknowledges every request and answers every 4-byte read with "SPL"
followed by the version byte 1. -/
def sunxi_spl_dev : Device := fun _ n i =>
  if n = 13 then (str_AWUS ++ [0]).getD i 0
  else if n = 4 then ([0x53, 0x50, 0x4C, 0x01] : List Byte).getD i 0
  else 0

/-- A firmware image of 16 data bytes for load address `0x4A000000`. -/
def low_image : List Byte := mkimage_header 0x10 0x4A000000 ++ List.replicate 16 0

/-- A firmware image of 16 data bytes for load address `0x4B000000`. -/
def high_image : List Byte := mkimage_header 0x10 0x4B000000 ++ List.replicate 16 0

/-- A session on a device that reports the A20, with the footprint of a U-Boot image of
`0x80000` bytes at `0x4A000000` recorded. -/
def a20_armed_session : World :=
  { session_start a20_fel_dev with uboot_entry := 0x4A000000, uboot_size := 0x80000 }

/-- A firmware image of `0x80000000` data bytes (2 GiB) for load address `0x40000000`:
`0x80000040` bytes in all, as `main` reads them from a file for `spl` or `uboot`. -/
def huge_image : List Byte :=
  mkimage_header 0x80000000 0x40000000 ++ List.replicate 0x80000000 7

/-! ## Reasoning principles -/

theorem bind_apply {α β : Type} (m : FelM α) (f : α → FelM β) (w : World) :
    (m >>= f) w = match m w with
      | .ok a w1 => f a w1
      | .exit d w1 => .exit d w1 := rfl

theorem pure_apply {α : Type} (a : α) (w : World) : (pure a : FelM α) w = .ok a w := rfl

theorem die_apply {α : Type} (d : Diag) (w : World) : (die d : FelM α) w = .exit d w := rfl

theorem wire_refl (w : World) : Wire w w := ⟨rfl, rfl, rfl, rfl, rfl, rfl⟩

theorem wire_trans {a b c : World} (h1 : Wire a b) (h2 : Wire b c) : Wire a c := by
  obtain ⟨h11, h12, h13, h14, h15, h16⟩ := h1
  obtain ⟨h21, h22, h23, h24, h25, h26⟩ := h2
  exact ⟨h21.trans h11, h22.trans h12, h23.trans h13, h24.trans h14, h25.trans h15,
    h26.trans h16⟩

theorem keeps_pure {R : World → World → Prop} {D : Diag → Prop} {α : Type}
    (hr : ∀ w, R w w) (a : α) : Keeps R D (pure a : FelM α) := by
  intro w
  exact ⟨hr w, fun d h => by simp [pure_apply, Res.diag] at h⟩

theorem keeps_die {R : World → World → Prop} {D : Diag → Prop} {α : Type}
    (hr : ∀ w, R w w) (d : Diag) (hd : D d) : Keeps R D (die d : FelM α) := by
  intro w
  refine ⟨hr w, fun e h => ?_⟩
  simp [die_apply, Res.diag] at h
  exact h ▸ hd

theorem keeps_bind {R : World → World → Prop} {D : Diag → Prop} {α β : Type}
    (ht : ∀ a b c, R a b → R b c → R a c) {m : FelM α} {f : α → FelM β}
    (hm : Keeps R D m) (hf : ∀ a, Keeps R D (f a)) : Keeps R D (m >>= f) := by
  intro w
  have h1 := hm w
  rw [bind_apply]
  cases hmw : m w with
  | ok a w1 =>
    rw [hmw] at h1
    have h2 := hf a w1
    exact ⟨ht _ _ _ h1.1 h2.1, h2.2⟩
  | exit d w1 =>
    rw [hmw] at h1
    exact h1

theorem libusb_bulk_transfer_spec (ep : Endpoint) (data : List Byte) (len : Nat) (w : World) :
    ∃ got w1, libusb_bulk_transfer ep data len w = .ok (0, (len : Int), got) w1 ∧ Wire w w1 := by
  cases ep <;> exact ⟨_, _, rfl, rfl, rfl, rfl, rfl, rfl, rfl⟩

theorem progress_cb_spec (t s l : Int) (w : World) :
    ∃ w1, progress_cb t s l w = .ok () w1 ∧ Wire w w1 :=
  ⟨_, rfl, rfl, rfl, rfl, rfl, rfl, rfl⟩

theorem usb_bulk_send_loop_ok (ep : Endpoint) (total : Int) (cb : Bool) :
    ∀ (fuel : Nat) (data : List Byte) (length : Int) (acc : List Byte) (w : World),
      length.toNat ≤ fuel →
      ∃ r w1, usb_bulk_send_loop ep total cb fuel data length acc w = .ok r w1 ∧ Wire w w1 := by
  intro fuel
  induction fuel with
  | zero =>
    intro data length acc w h
    have : ¬ length > 0 := by omega
    exact ⟨acc, w, by simp [usb_bulk_send_loop, this], wire_refl w⟩
  | succ n ih =>
    intro data length acc w h
    unfold usb_bulk_send_loop
    by_cases hl : length > 0
    · simp only [hl, if_true]
      rw [bind_apply]
      generalize hlen : (if length < AW_USB_MAX_BULK_SEND then length else AW_USB_MAX_BULK_SEND)
        = len
      have hlen1 : 1 ≤ len := by
        rw [← hlen]; unfold AW_USB_MAX_BULK_SEND; split <;> omega
      obtain ⟨got, w1, h1, hw1⟩ := libusb_bulk_transfer_spec ep data len.toNat w
      rw [h1]
      simp only [bne_self_eq_false, Bool.false_eq_true, if_false]
      cases cb with
      | false =>
        simp only [Bool.false_eq_true, if_false]
        rw [bind_apply, pure_apply]
        obtain ⟨r, w2, h2, hw2⟩ := ih (data.drop ((len.toNat : Int)).toNat)
          (length - (len.toNat : Int)) (acc ++ got) w1 (by omega)
        exact ⟨r, w2, h2, wire_trans hw1 hw2⟩
      | true =>
        simp only [if_true]
        rw [bind_apply]
        obtain ⟨w1b, h1b, hw1b⟩ := progress_cb_spec total
          (total - (length - (len.toNat : Int))) len w1
        rw [h1b]
        obtain ⟨r, w2, h2, hw2⟩ := ih (data.drop ((len.toNat : Int)).toNat)
          (length - (len.toNat : Int)) (acc ++ got) w1b (by omega)
        exact ⟨r, w2, h2, wire_trans (wire_trans hw1 hw1b) hw2⟩
    · exact ⟨acc, w, by simp [hl, pure_apply], wire_refl w⟩

theorem keeps_of_ok {R : World → World → Prop} {D : Diag → Prop} {α : Type} {m : FelM α}
    (h : ∀ w, ∃ a w1, m w = .ok a w1 ∧ R w w1) : Keeps R D m := by
  intro w
  obtain ⟨a, w1, h1, h2⟩ := h w
  rw [h1]
  exact ⟨h2, fun d hd => by simp [Res.diag] at hd⟩

theorem keeps_mono {R R1 : World → World → Prop} {D D1 : Diag → Prop} {α : Type}
    {m : FelM α} (h : Keeps R D m) (hR : ∀ a b, R a b → R1 a b) (hD : ∀ d, D d → D1 d) :
    Keeps R1 D1 m :=
  fun w => ⟨hR _ _ (h w).1, fun d hd => hD d ((h w).2 d hd)⟩

theorem usb_bulk_send_ok (ep : Endpoint) (data : List Byte) (length : Int) (cb : Bool)
    (w : World) : ∃ r w1, usb_bulk_send ep data length cb w = .ok r w1 ∧ Wire w w1 :=
  usb_bulk_send_loop_ok ep length cb _ data length [] w (Nat.le_refl _)

theorem usb_bulk_recv_13 (w : World) :
    usb_bulk_recv .AW_USB_FEL_BULK_EP_IN 13 w
      = .ok ((List.range 13).map (w.dev w.usb 13))
          { w with usb := w.usb ++ [⟨.AW_USB_FEL_BULK_EP_IN, (List.range 13).map (w.dev w.usb 13)⟩] } :=
  rfl

theorem aw_send_usb_request_ok (type length : Int) (w : World) :
    ∃ w1, aw_send_usb_request type length w = .ok () w1 ∧ Wire w w1 := by
  unfold aw_send_usb_request
  rw [bind_apply]
  obtain ⟨r, w1, h1, hw1⟩ := usb_bulk_send_ok .AW_USB_FEL_BULK_EP_OUT
    (aw_usb_request_bytes type length) 32 false w
  rw [h1]
  exact ⟨w1, rfl, hw1⟩

theorem aw_read_usb_response_keeps :
    Keeps Wire (fun d => d = .assert_awus) aw_read_usb_response := by
  intro w
  unfold aw_read_usb_response
  rw [bind_apply, usb_bulk_recv_13]
  simp only
  split
  · exact ⟨⟨rfl, rfl, rfl, rfl, rfl, rfl⟩, fun d hd => by simp [pure_apply, Res.diag] at hd⟩
  · exact ⟨⟨rfl, rfl, rfl, rfl, rfl, rfl⟩, fun d hd => by
      simp [die_apply, Res.diag] at hd; exact hd.symm⟩

theorem aw_read_usb_response_ok (w : World) (h : Acks w.dev) :
    ∃ w1, aw_read_usb_response w = .ok () w1 ∧ Wire w w1 := by
  unfold aw_read_usb_response
  rw [bind_apply, usb_bulk_recv_13]
  simp only [h w.usb, if_true]
  exact ⟨_, rfl, rfl, rfl, rfl, rfl, rfl, rfl⟩

theorem runs_of_ok {R : World → World → Prop} {α : Type} {m : FelM α}
    (h : ∀ w, ∃ a w1, m w = .ok a w1 ∧ R w w1) : Runs R m :=
  fun w _ => h w

theorem runs_pure {R : World → World → Prop} {α : Type} (hr : ∀ w, R w w) (a : α) :
    Runs R (pure a : FelM α) :=
  fun w _ => ⟨a, w, rfl, hr w⟩

theorem runs_bind {R : World → World → Prop} {α β : Type}
    (hdev : ∀ a b, R a b → b.dev = a.dev) (ht : ∀ a b c, R a b → R b c → R a c)
    {m : FelM α} {f : α → FelM β} (hm : Runs R m) (hf : ∀ a, Runs R (f a)) :
    Runs R (m >>= f) := by
  intro w hw
  obtain ⟨a, w1, h1, hw1⟩ := hm w hw
  obtain ⟨b, w2, h2, hw2⟩ := hf a w1 (by rw [hdev _ _ hw1]; exact hw)
  exact ⟨b, w2, by rw [bind_apply, h1]; exact h2, ht _ _ _ hw1 hw2⟩

theorem wire_dev_eq (a b : World) (h : Wire a b) : b.dev = a.dev := h.1

theorem wire_trans3 (a b c : World) (h1 : Wire a b) (h2 : Wire b c) : Wire a c :=
  wire_trans h1 h2

theorem aw_usb_write_keeps (data : List Byte) (len : Nat) (cb : Bool) :
    Keeps Wire (fun d => d = .assert_awus) (aw_usb_write data len cb) := by
  unfold aw_usb_write
  refine keeps_bind wire_trans3 (keeps_of_ok (fun w => ?_)) (fun _ => ?_)
  · obtain ⟨w1, h1, h2⟩ := aw_send_usb_request_ok AW_USB_WRITE (to_int32 len) w
    exact ⟨(), w1, h1, h2⟩
  · exact keeps_bind wire_trans3 (keeps_of_ok (usb_bulk_send_ok _ _ _ _))
      (fun _ => aw_read_usb_response_keeps)

theorem aw_usb_write_runs (data : List Byte) (len : Nat) (cb : Bool) :
    Runs Wire (aw_usb_write data len cb) := by
  unfold aw_usb_write
  refine runs_bind wire_dev_eq wire_trans3 (runs_of_ok (fun w => ?_)) (fun _ => ?_)
  · obtain ⟨w1, h1, h2⟩ := aw_send_usb_request_ok AW_USB_WRITE (to_int32 len) w
    exact ⟨(), w1, h1, h2⟩
  · refine runs_bind wire_dev_eq wire_trans3 (runs_of_ok (usb_bulk_send_ok _ _ _ _))
      (fun _ w hw => ?_)
    obtain ⟨w1, h1, h2⟩ := aw_read_usb_response_ok w hw
    exact ⟨(), w1, h1, h2⟩

theorem aw_usb_read_keeps (len : Nat) (cb : Bool) :
    Keeps Wire (fun d => d = .assert_awus) (aw_usb_read len cb) := by
  unfold aw_usb_read
  refine keeps_bind wire_trans3 (keeps_of_ok (fun w => ?_)) (fun _ => ?_)
  · obtain ⟨w1, h1, h2⟩ := aw_send_usb_request_ok AW_USB_READ (to_int32 len) w
    exact ⟨(), w1, h1, h2⟩
  · exact keeps_bind wire_trans3 (keeps_of_ok (usb_bulk_send_ok _ _ _ _))
      (fun _ => keeps_bind wire_trans3 aw_read_usb_response_keeps
        (fun _ => keeps_pure wire_refl _))

theorem aw_usb_read_runs (len : Nat) (cb : Bool) : Runs Wire (aw_usb_read len cb) := by
  unfold aw_usb_read
  refine runs_bind wire_dev_eq wire_trans3 (runs_of_ok (fun w => ?_)) (fun _ => ?_)
  · obtain ⟨w1, h1, h2⟩ := aw_send_usb_request_ok AW_USB_READ (to_int32 len) w
    exact ⟨(), w1, h1, h2⟩
  · refine runs_bind wire_dev_eq wire_trans3 (runs_of_ok (usb_bulk_send_ok _ _ _ _))
      (fun _ => runs_bind wire_dev_eq wire_trans3 (fun w hw => ?_)
        (fun _ => runs_pure wire_refl _))
    obtain ⟨w1, h1, h2⟩ := aw_read_usb_response_ok w hw
    exact ⟨(), w1, h1, h2⟩

theorem aw_send_fel_request_keeps (type : Int) (addr length : Nat) :
    Keeps Wire (fun d => d = .assert_awus) (aw_send_fel_request type addr length) :=
  aw_usb_write_keeps _ _ _

theorem aw_send_fel_request_runs (type : Int) (addr length : Nat) :
    Runs Wire (aw_send_fel_request type addr length) :=
  aw_usb_write_runs _ _ _

theorem aw_read_fel_status_keeps : Keeps Wire (fun d => d = .assert_awus) aw_read_fel_status := by
  unfold aw_read_fel_status
  exact keeps_bind wire_trans3 (aw_usb_read_keeps _ _) (fun _ => keeps_pure wire_refl _)

theorem aw_read_fel_status_runs : Runs Wire aw_read_fel_status := by
  unfold aw_read_fel_status
  exact runs_bind wire_dev_eq wire_trans3 (aw_usb_read_runs _ _) (fun _ => runs_pure wire_refl _)

theorem logs_wire {ops : List FelOp} {a b c : World} (h1 : Logs ops a b) (h2 : Wire b c) :
    Logs ops a c := by
  obtain ⟨h11, h12, h13, h14, h15, h16⟩ := h1
  obtain ⟨h21, h22, h23, h24, h25, h26⟩ := h2
  exact ⟨h21.trans h11, h22.trans h12, h23.trans h13, h24.trans h14, h25.trans h15,
    h26.trans h16⟩

/-- A FEL command body: the log entry, then wire traffic only. -/
theorem logged_keeps {α : Type} (op : FelOp) (m : FelM α)
    (hm : Keeps Wire (fun d => d = .assert_awus) m) (w : World) :
    Logs [op] w ((log_fel op >>= fun _ => m) w).world ∧
      ∀ d, ((log_fel op >>= fun _ => m) w).diag = some d → d = .assert_awus := by
  rw [bind_apply]
  show Logs [op] w (m { w with fel := w.fel ++ [op] }).world ∧ _
  have h := hm { w with fel := w.fel ++ [op] }
  exact ⟨logs_wire (show Logs [op] w { w with fel := w.fel ++ [op] } from
    ⟨rfl, rfl, rfl, rfl, rfl, rfl⟩) h.1, h.2⟩

theorem logged_runs {α : Type} (op : FelOp) (m : FelM α) (hm : Runs Wire m) (w : World)
    (hw : Acks w.dev) :
    ∃ a w1, (log_fel op >>= fun _ => m) w = .ok a w1 ∧ Logs [op] w w1 := by
  rw [bind_apply]
  show ∃ a w1, m { w with fel := w.fel ++ [op] } = .ok a w1 ∧ _
  obtain ⟨a, w1, h1, h2⟩ := hm { w with fel := w.fel ++ [op] } hw
  exact ⟨a, w1, h1, logs_wire (show Logs [op] w { w with fel := w.fel ++ [op] } from
    ⟨rfl, rfl, rfl, rfl, rfl, rfl⟩) h2⟩

theorem aw_fel_write_body_keeps (buf : List Byte) (offset len : Nat) (p : Bool) :
    Keeps Wire (fun d => d = .assert_awus)
      (aw_send_fel_request AW_FEL_1_WRITE offset len >>= fun _ =>
        aw_usb_write buf len p >>= fun _ => aw_read_fel_status) :=
  keeps_bind wire_trans3 (aw_send_fel_request_keeps _ _ _)
    (fun _ => keeps_bind wire_trans3 (aw_usb_write_keeps _ _ _) (fun _ => aw_read_fel_status_keeps))

theorem aw_fel_write_body_runs (buf : List Byte) (offset len : Nat) (p : Bool) :
    Runs Wire
      (aw_send_fel_request AW_FEL_1_WRITE offset len >>= fun _ =>
        aw_usb_write buf len p >>= fun _ => aw_read_fel_status) :=
  runs_bind wire_dev_eq wire_trans3 (aw_send_fel_request_runs _ _ _)
    (fun _ => runs_bind wire_dev_eq wire_trans3 (aw_usb_write_runs _ _ _)
      (fun _ => aw_read_fel_status_runs))

theorem aw_fel_write_refused (buf : List Byte) (offset len : Nat) (w : World)
    (h : interlock w offset len) :
    aw_fel_write buf offset len w = .exit .overwrite_uboot w := by
  unfold interlock at h
  simp [aw_fel_write, h]

theorem aw_fel_write_issued (buf : List Byte) (offset len : Nat) (w : World)
    (h : ¬ interlock w offset len) :
    Logs [.write offset (buf.take len)] w (aw_fel_write buf offset len w).world ∧
      ∀ d, (aw_fel_write buf offset len w).diag = some d → d = .assert_awus := by
  unfold interlock at h
  unfold aw_fel_write
  rw [if_neg h]
  exact logged_keeps _ _ (aw_fel_write_body_keeps buf offset len w.progress) w

theorem aw_fel_write_ok (buf : List Byte) (offset len : Nat) (w : World)
    (h : ¬ interlock w offset len) (hw : Acks w.dev) :
    ∃ w1, aw_fel_write buf offset len w = .ok () w1 ∧
      Logs [.write offset (buf.take len)] w w1 := by
  unfold interlock at h
  unfold aw_fel_write
  rw [if_neg h]
  obtain ⟨a, w1, h1, h2⟩ :=
    logged_runs (.write offset (buf.take len)) _ (aw_fel_write_body_runs buf offset len w.progress) w hw
  exact ⟨w1, h1, h2⟩

theorem mock_dev_acks : Acks mock_dev := by
  intro h
  rfl

theorem byte_at_lt (buf : List Byte) (i : Nat) : byte_at buf i < 256 := (buf.getD i 0).isLt

theorem be32_at_lt (buf : List Byte) (off : Nat) : be32_at buf off < 4294967296 := by
  have h0 := byte_at_lt buf off
  have h1 := byte_at_lt buf (off + 1)
  have h2 := byte_at_lt buf (off + 2)
  have h3 := byte_at_lt buf (off + 3)
  unfold be32_at
  omega

theorem le32_at_lt (buf : List Byte) (off : Nat) : le32_at buf off < 4294967296 := by
  have h0 := byte_at_lt buf off
  have h1 := byte_at_lt buf (off + 1)
  have h2 := byte_at_lt buf (off + 2)
  have h3 := byte_at_lt buf (off + 3)
  unfold le32_at
  omega

/-- An acceptable image reaches the FEL write of its data. -/
theorem write_uboot_image_accepted (w : World) (buf : List Byte) (len : Nat)
    (hlen : 64 < len) (hlen2 : len < 18446744073709551616)
    (hmagic : be32_at buf 0 = 0x27051956) (harch : byte_at buf 29 = 2)
    (htype : byte_at buf 30 = 5) (hsize : be32_at buf 12 = len - 64) :
    aw_fel_write_uboot_image buf len w =
      (aw_fel_write (buf.drop 64) (be32_at buf 16) (len - 64) >>= fun _ => fun w1 =>
        .ok () { w1 with uboot_entry := be32_at buf 16, uboot_size := len - 64 }) w := by
  unfold aw_fel_write_uboot_image get_image_type HEADER_SIZE HEADER_NAME_OFFSET IH_NMLEN
    IH_MAGIC IH_ARCH_ARM IH_TYPE_INVALID IH_TYPE_ARCH_MISMATCH IH_TYPE_FIRMWARE
  have h2 : ¬ len ≤ 64 := by omega
  have hs2 : be32_at buf 12 = sub64 len 64 := by
    unfold sub64; omega
  simp [h2, hmagic, harch, htype, hs2.symm, hsize]

theorem not_interlock_of_unarmed (w : World) (offset len : Nat) (h : w.uboot_size = 0) :
    ¬ interlock w offset len := by
  unfold interlock
  omega

theorem mkimage_header_length (a b : Nat) : (mkimage_header a b).length = 64 := rfl

theorem dram_image_length : dram_image.length = 0x80040 := by
  rw [dram_image, List.length_append, mkimage_header_length, List.length_replicate]

theorem huge_image_length : huge_image.length = 0x80000040 := by
  rw [huge_image, List.length_append, mkimage_header_length, List.length_replicate]

theorem sub32_int (a b : Nat) :
    ((sub32 a b : Nat) : Int) = ((a : Int) - (b : Int)) % 4294967296 := by
  unfold sub32
  omega

theorem sub32_foldl_int (f : Nat → Nat) :
    ∀ (l : List Nat) (c : Nat),
      ((l.foldl (fun c i => sub32 c (f i)) c : Nat) : Int) % 4294967296
        = ((c : Int) - (l.map (fun i => (f i : Int))).sum) % 4294967296 := by
  intro l
  induction l with
  | nil => intro c; simp
  | cons x rest ih =>
    intro c
    rw [List.foldl_cons, ih, sub32_int, List.map_cons, List.sum_cons]
    generalize (List.map (fun i => (f i : Int)) rest).sum = s
    omega

theorem sub32_lt (a b : Nat) : sub32 a b < 4294967296 := by
  unfold sub32
  omega

theorem sub32_foldl_lt (f : Nat → Nat) :
    ∀ (l : List Nat) (c : Nat), c < 4294967296 →
      l.foldl (fun c i => sub32 c (f i)) c < 4294967296 := by
  intro l
  induction l with
  | nil => intro c h; simpa using h
  | cons x rest ih =>
    intro c _
    rw [List.foldl_cons]
    exact ih _ (sub32_lt _ _)

/-- The loader's checksum variable ends at zero exactly when twice the stored
checksum minus 0x5F0A6C39 is congruent, modulo 2^32, to the sum of the little-endian
words below `len`. -/
theorem spl_checksum_eq_zero_iff (buf : List Byte) (len : Nat) :
    spl_checksum buf len = 0 ↔
      (2 * (le32_at buf 12 : Int) - 0x5F0A6C39) % 4294967296
        = ((List.range (len / 4)).map (fun i => (le32_at buf (4 * i) : Int))).sum
            % 4294967296 := by
  have hu : ((u32 (2 * le32_at buf 12) : Nat) : Int)
      = (2 * (le32_at buf 12 : Int)) % 4294967296 := by
    unfold u32; omega
  have h1 := sub32_foldl_int (fun i => le32_at buf (4 * i)) (List.range (len / 4))
    (sub32 (u32 (2 * le32_at buf 12)) 0x5F0A6C39)
  have h2 := sub32_foldl_lt (fun i => le32_at buf (4 * i)) (List.range (len / 4))
    (sub32 (u32 (2 * le32_at buf 12)) 0x5F0A6C39) (sub32_lt _ _)
  have h3 := sub32_int (u32 (2 * le32_at buf 12)) 0x5F0A6C39
  unfold spl_checksum
  rw [h3, hu] at h1
  generalize (List.map (fun i => (le32_at buf (4 * i) : Int)) (List.range (len / 4))).sum = s
    at h1 ⊢
  generalize List.foldl (fun c i => sub32 c (le32_at buf (4 * i)))
    (sub32 (u32 (2 * le32_at buf 12)) 0x5F0A6C39) (List.range (len / 4)) = r at h1 h2 ⊢
  omega


theorem res_eq_ok_of_value {α : Type} (r : Res α) (a : α) (h : r.value = some a) :
    r = .ok a r.world := by
  cases r with
  | ok b w => simp [Res.value] at h; subst h; rfl
  | exit d w => simp [Res.value] at h

theorem aw_fel_get_version_body_keeps :
    Keeps Wire (fun d => d = .assert_awus)
      (aw_send_fel_request AW_FEL_VERSION 0 0 >>= fun _ =>
        aw_usb_read 32 false >>= fun buf => aw_read_fel_status >>= fun _ =>
          (pure { signature := buf.take 8
                  soc_id := (le32_at buf 8 >>> 8) &&& 0xFFFF
                  unknown_0a := le32_at buf 12
                  protocol := le16_at buf 16
                  unknown_12 := byte_at buf 18
                  unknown_13 := byte_at buf 19
                  scratchpad := le32_at buf 20 % 65536
                  pad0 := le32_at buf 24
                  pad1 := le32_at buf 28 } : FelM aw_fel_version)) :=
  keeps_bind wire_trans3 (aw_send_fel_request_keeps _ _ _)
    (fun _ => keeps_bind wire_trans3 (aw_usb_read_keeps _ _)
      (fun _ => keeps_bind wire_trans3 aw_read_fel_status_keeps
        (fun _ => keeps_pure wire_refl _)))

theorem aw_fel_get_version_keeps (w : World) :
    Logs [.version] w (aw_fel_get_version w).world ∧
      ∀ d, (aw_fel_get_version w).diag = some d → d = .assert_awus :=
  logged_keeps _ _ aw_fel_get_version_body_keeps w

/-- What a call of `aw_fel_get_sram_info` can change: at most the lookup cache, and the
command log by one version query. -/
theorem aw_fel_get_sram_info_frame (w : World) :
    (aw_fel_get_sram_info w).world.dev = w.dev ∧
    ((aw_fel_get_sram_info w).world.fel = w.fel ∨
      (aw_fel_get_sram_info w).world.fel = w.fel ++ [.version]) ∧
    (aw_fel_get_sram_info w).world.progress = w.progress ∧
    (aw_fel_get_sram_info w).world.uboot_entry = w.uboot_entry ∧
    (aw_fel_get_sram_info w).world.uboot_size = w.uboot_size ∧
    ∀ d, (aw_fel_get_sram_info w).diag = some d → d = .assert_awus := by
  unfold aw_fel_get_sram_info
  cases hr : w.result with
  | some r =>
    simp only
    exact ⟨rfl, Or.inl rfl, rfl, rfl, rfl, fun d hd => by simp [Res.diag] at hd⟩
  | none =>
    simp only
    have h := aw_fel_get_version_keeps w
    rw [bind_apply]
    cases hv : aw_fel_get_version w with
    | ok v w1 =>
      rw [hv] at h
      obtain ⟨⟨h1, h2, h3, h4, h5, _⟩, _⟩ := h
      exact ⟨h1, Or.inr h2, h3, h4, h5, fun d hd => by simp [Res.diag] at hd⟩
    | exit d w1 =>
      rw [hv] at h
      obtain ⟨⟨h1, h2, h3, h4, h5, _⟩, h7⟩ := h
      exact ⟨h1, Or.inr h2, h3, h4, h5, h7⟩


theorem aw_fel_get_sram_info_first (w : World) (v : aw_fel_version) (w1 : World)
    (hr : w.result = none) (hv : aw_fel_get_version w = .ok v w1) :
    aw_fel_get_sram_info w =
      .ok (match sram_info_scan v.soc_id soc_sram_info_table with
            | some e => e
            | none => generic_sram_info)
          { w1 with result := some (match sram_info_scan v.soc_id soc_sram_info_table with
            | some e => e
            | none => generic_sram_info) } := by
  unfold aw_fel_get_sram_info
  simp only [hr]
  rw [bind_apply, hv]

theorem sram_info_scan_mem (id : Nat) (table : List soc_sram_info) (e : soc_sram_info)
    (h : sram_info_scan id table = some e) : e ∈ table := by
  induction table with
  | nil => simp [sram_info_scan] at h
  | cons a rest ih =>
    unfold sram_info_scan at h
    cases hs : a.swap_buffers with
    | none => simp [hs] at h
    | some s =>
      simp only [hs] at h
      by_cases hid : a.soc_id = id
      · rw [if_pos hid] at h
        cases h
        exact List.mem_cons_self _ _
      · rw [if_neg hid] at h
        exact List.mem_cons_of_mem _ (ih h)

/-- The lookup only yields descriptors of the program: when the cache is empty or holds
an entry of `soc_sram_info_table` or `generic_sram_info`, the descriptor returned is
one of these, and it is the one left in the cache. -/
theorem aw_fel_get_sram_info_mem (w w0 : World) (info : soc_sram_info)
    (hcache : ProgramCache w) (hinfo : aw_fel_get_sram_info w = .ok info w0) :
    (info ∈ soc_sram_info_table ∨ info = generic_sram_info) ∧ w0.result = some info := by
  cases hr : w.result with
  | some r =>
    unfold aw_fel_get_sram_info at hinfo
    simp only [hr] at hinfo
    cases hinfo
    exact ⟨hcache _ hr, hr⟩
  | none =>
    cases hv : aw_fel_get_version w with
    | ok v w1 =>
      rw [aw_fel_get_sram_info_first w v w1 hr hv] at hinfo
      cases hinfo
      refine ⟨?_, rfl⟩
      cases hs : sram_info_scan v.soc_id soc_sram_info_table with
      | none => exact Or.inr rfl
      | some e => exact Or.inl (sram_info_scan_mem _ _ _ hs)
    | exit d w1 =>
      unfold aw_fel_get_sram_info at hinfo
      simp only [hr] at hinfo
      rw [bind_apply, hv] at hinfo
      cases hinfo

theorem sram_info_scan_unknown (id : Nat)
    (h : id ∉ [0x1623, 0x1625, 0x1651, 0x1650, 0x1633, 0x1667, 0x1673, 0x1680]) :
    sram_info_scan id soc_sram_info_table = none := by
  simp only [List.mem_cons, List.mem_singleton, not_or, List.mem_nil_iff, or_false] at h
  obtain ⟨h1, h2, h3, h4, h5, h6, h7, h8⟩ := h
  simp [sram_info_scan, soc_sram_info_table, Ne.symm h1, Ne.symm h2, Ne.symm h3, Ne.symm h4,
    Ne.symm h5, Ne.symm h6, Ne.symm h7, Ne.symm h8]

theorem sram_info_scan_known (id : Nat)
    (h : id ∈ [0x1623, 0x1625, 0x1651, 0x1650, 0x1633, 0x1667, 0x1673, 0x1680]) :
    ∃ e, sram_info_scan id soc_sram_info_table = some e ∧ e ∈ soc_sram_info_table ∧
      e.soc_id = id ∧ e.swap_buffers ≠ none ∧
      ∀ e1 ∈ soc_sram_info_table, e1.soc_id = id → e1 = e := by
  simp only [List.mem_cons, List.mem_singleton, List.mem_nil_iff, or_false] at h
  rcases h with h | h | h | h | h | h | h | h <;> subst h <;>
    exact ⟨_, rfl, by decide, rfl, by decide, by decide⟩


theorem a20_dev_version :
    (aw_fel_get_version (session_start a20_dev)).value
      = some { signature := [0x41, 0x57, 0x55, 0x53, 0x42, 0x45, 0x58, 0x00],
               soc_id := 0x1651, unknown_0a := 0, protocol := 0, unknown_12 := 0,
               unknown_13 := 0, scratchpad := 0, pad0 := 0, pad1 := 0 } := by
  decide!


theorem ext_refl (w : World) : Ext w w := ⟨rfl, List.prefix_refl _, rfl, rfl, rfl, rfl⟩

theorem ext_trans (a b c : World) (h1 : Ext a b) (h2 : Ext b c) : Ext a c := by
  obtain ⟨h11, h12, h13, h14, h15, h16⟩ := h1
  obtain ⟨h21, h22, h23, h24, h25, h26⟩ := h2
  exact ⟨h21.trans h11, h12.trans h22, h23.trans h13, h24.trans h14, h25.trans h15,
    h26.trans h16⟩

theorem ext_of_logs {ops : List FelOp} {a b : World} (h : Logs ops a b) : Ext a b := by
  obtain ⟨h1, h2, h3, h4, h5, h6⟩ := h
  exact ⟨h1, by rw [h2]; exact List.prefix_append _ _, h3, h4, h5, h6⟩

theorem keeps_ite {R : World → World → Prop} {D : Diag → Prop} {α : Type} (c : Prop)
    [Decidable c] {m n : FelM α} (hm : Keeps R D m) (hn : Keeps R D n) :
    Keeps R D (if c then m else n) := by
  split
  · exact hm
  · exact hn

theorem keeps_logged {α : Type} {D : Diag → Prop} (hD : ∀ d, CmdDiag d → D d) (op : FelOp)
    (m : FelM α) (hm : Keeps Wire (fun d => d = .assert_awus) m) :
    Keeps Ext D (log_fel op >>= fun _ => m) := by
  intro w
  have h := logged_keeps op m hm w
  exact ⟨ext_of_logs h.1, fun d hd => hD d (Or.inl (h.2 d hd))⟩

theorem aw_fel_write_keeps {D : Diag → Prop} (hD : ∀ d, CmdDiag d → D d) (buf : List Byte)
    (offset len : Nat) : Keeps Ext D (aw_fel_write buf offset len) := by
  intro w
  by_cases h : interlock w offset len
  · rw [aw_fel_write_refused buf offset len w h]
    exact ⟨ext_refl w, fun d hd => by
      simp only [Res.diag, Option.some.injEq] at hd
      exact hD d (Or.inr hd.symm)⟩
  · have h1 := aw_fel_write_issued buf offset len w h
    exact ⟨ext_of_logs h1.1, fun d hd => hD d (Or.inl (h1.2 d hd))⟩

theorem aw_fel_execute_keeps {D : Diag → Prop} (hD : ∀ d, CmdDiag d → D d) (offset : Nat) :
    Keeps Ext D (aw_fel_execute offset) := by
  unfold aw_fel_execute
  exact keeps_logged hD _ _
    (keeps_bind wire_trans3 (aw_send_fel_request_keeps _ _ _) (fun _ => aw_read_fel_status_keeps))

theorem get_progress_keeps : Keeps Wire (fun d => d = .assert_awus) get_progress :=
  keeps_of_ok (fun w => ⟨w.progress, w, rfl, wire_refl w⟩)

theorem aw_fel_read_keeps {D : Diag → Prop} (hD : ∀ d, CmdDiag d → D d) (offset len : Nat) :
    Keeps Ext D (aw_fel_read offset len) := by
  unfold aw_fel_read
  exact keeps_logged hD _ _
    (keeps_bind wire_trans3 (aw_send_fel_request_keeps _ _ _)
      (fun _ => keeps_bind wire_trans3 get_progress_keeps
        (fun _ => keeps_bind wire_trans3 (aw_usb_read_keeps _ _)
          (fun _ => keeps_bind wire_trans3 aw_read_fel_status_keeps
            (fun _ => keeps_pure wire_refl _)))))
theorem aw_enable_l2_cache_keeps {D : Diag → Prop} (hD : ∀ d, CmdDiag d → D d)
    (info : soc_sram_info) : Keeps Ext D (aw_enable_l2_cache info) := by
  unfold aw_enable_l2_cache
  exact keeps_bind ext_trans (aw_fel_write_keeps hD _ _ _) (fun _ => aw_fel_execute_keeps hD _)

theorem aw_get_stackinfo_keeps {D : Diag → Prop} (hD : ∀ d, CmdDiag d → D d)
    (info : soc_sram_info) : Keeps Ext D (aw_get_stackinfo info) := by
  unfold aw_get_stackinfo
  exact keeps_bind ext_trans (aw_fel_write_keeps hD _ _ _)
    (fun _ => keeps_bind ext_trans (aw_fel_execute_keeps hD _)
      (fun _ => keeps_bind ext_trans (aw_fel_read_keeps hD _ _)
        (fun _ => keeps_pure ext_refl _)))

theorem aw_get_ttbr0_keeps {D : Diag → Prop} (hD : ∀ d, CmdDiag d → D d)
    (info : soc_sram_info) : Keeps Ext D (aw_get_ttbr0 info) := by
  unfold aw_get_ttbr0
  exact keeps_bind ext_trans (aw_fel_write_keeps hD _ _ _)
    (fun _ => keeps_bind ext_trans (aw_fel_execute_keeps hD _)
      (fun _ => keeps_bind ext_trans (aw_fel_read_keeps hD _ _)
        (fun _ => keeps_pure ext_refl _)))

theorem aw_get_sctlr_keeps {D : Diag → Prop} (hD : ∀ d, CmdDiag d → D d)
    (info : soc_sram_info) : Keeps Ext D (aw_get_sctlr info) := by
  unfold aw_get_sctlr
  exact keeps_bind ext_trans (aw_fel_write_keeps hD _ _ _)
    (fun _ => keeps_bind ext_trans (aw_fel_execute_keeps hD _)
      (fun _ => keeps_bind ext_trans (aw_fel_read_keeps hD _ _)
        (fun _ => keeps_pure ext_refl _)))

theorem mmu_sanity_diag :
    ∀ (tt : List Nat) (i : Nat) (d : Diag), mmu_sanity i tt = some d →
      d = .mmu_not_section ∨ d = .mmu_not_direct := by
  intro tt
  induction tt with
  | nil => intro i d h; simp [mmu_sanity] at h
  | cons e rest ih =>
    intro i d h
    unfold mmu_sanity at h
    split at h
    · exact Or.inl (Option.some.inj h).symm
    · split at h
      · exact Or.inr (Option.some.inj h).symm
      · exact ih _ _ h

theorem aw_backup_and_disable_mmu_keeps {D : Diag → Prop} (hD : ∀ d, CmdDiag d → D d)
    (h1 : D .tex_remap_enabled) (h2 : D .unexpected_ttbr0) (h3 : D .mmu_not_section)
    (h4 : D .mmu_not_direct) (info : soc_sram_info) :
    Keeps Ext D (aw_backup_and_disable_mmu info) := by
  unfold aw_backup_and_disable_mmu
  refine keeps_bind ext_trans (aw_get_ttbr0_keeps hD _) (fun ttbr0 => ?_)
  refine keeps_bind ext_trans (aw_get_sctlr_keeps hD _) (fun sctlr => ?_)
  refine keeps_ite _ (keeps_pure ext_refl _) ?_
  refine keeps_ite _ (keeps_die ext_refl _ h1) ?_
  refine keeps_ite _ (keeps_die ext_refl _ h2) ?_
  refine keeps_bind ext_trans (aw_fel_read_keeps hD _ _) (fun raw => ?_)
  simp only
  split
  · rename_i d hd
    rcases mmu_sanity_diag _ _ _ hd with h | h
    · exact keeps_die ext_refl _ (h ▸ h3)
    · exact keeps_die ext_refl _ (h ▸ h4)
  · exact keeps_bind ext_trans (aw_fel_write_keeps hD _ _ _)
      (fun _ => keeps_bind ext_trans (aw_fel_execute_keeps hD _)
        (fun _ => keeps_pure ext_refl _))

theorem aw_restore_and_enable_mmu_keeps {D : Diag → Prop} (hD : ∀ d, CmdDiag d → D d)
    (info : soc_sram_info) (tt : List Nat) :
    Keeps Ext D (aw_restore_and_enable_mmu info tt) := by
  unfold aw_restore_and_enable_mmu
  exact keeps_bind ext_trans (aw_get_ttbr0_keeps hD _)
    (fun _ => keeps_bind ext_trans (aw_fel_write_keeps hD _ _ _)
      (fun _ => keeps_bind ext_trans (aw_fel_write_keeps hD _ _ _)
        (fun _ => aw_fel_execute_keeps hD _)))

theorem spl_stage_below_keeps {D : Diag → Prop} (hD : ∀ d, CmdDiag d → D d)
    (sb : sram_swap_buffers) (st : Staging) : Keeps Ext D (spl_stage_below sb st) := by
  unfold spl_stage_below
  exact keeps_ite _
    (keeps_bind ext_trans (aw_fel_write_keeps hD _ _ _) (fun _ => keeps_pure ext_refl _))
    (keeps_pure ext_refl _)

theorem spl_stage_swap_keeps {D : Diag → Prop} (hD : ∀ d, CmdDiag d → D d)
    (sb : sram_swap_buffers) (st : Staging) : Keeps Ext D (spl_stage_swap sb st) := by
  unfold spl_stage_swap
  exact keeps_ite _
    (keeps_bind ext_trans (aw_fel_write_keeps hD _ _ _) (fun _ => keeps_pure ext_refl _))
    (keeps_pure ext_refl _)

theorem spl_stage_loop_keeps {D : Diag → Prop} (hD : ∀ d, CmdDiag d → D d) (spl_addr : Nat) :
    ∀ (sbs : List sram_swap_buffers) (st : Staging),
      Keeps Ext D (spl_stage_loop spl_addr sbs st) := by
  intro sbs
  induction sbs with
  | nil => intro st; unfold spl_stage_loop; exact keeps_pure ext_refl _
  | cons sb rest ih =>
    intro st
    unfold spl_stage_loop
    refine keeps_ite _ (keeps_pure ext_refl _) ?_
    exact keeps_bind ext_trans (spl_stage_below_keeps hD _ _)
      (fun _ => keeps_bind ext_trans (spl_stage_swap_keeps hD _ _) (fun _ => ih _))

theorem bind_assoc_fel {α β γ : Type} (m : FelM α) (f : α → FelM β) (g : β → FelM γ) :
    (m >>= f) >>= g = m >>= fun a => f a >>= g := by
  funext w
  rw [bind_apply, bind_apply, bind_apply]
  cases m w with
  | ok a w1 => rfl
  | exit d w1 => rfl

theorem pure_bind_fel {α β : Type} (a : α) (f : α → FelM β) : (pure a >>= f : FelM β) = f a :=
  rfl

theorem keeps_bind_het {S T R : World → World → Prop} {D : Diag → Prop} {α β : Type}
    (hc : ∀ a b c, S a b → T b c → R a c) (hexit : ∀ a b, S a b → R a b)
    {m : FelM α} {f : α → FelM β}
    (hm : Keeps S D m) (hf : ∀ a, Keeps T D (f a)) : Keeps R D (m >>= f) := by
  intro w
  have h1 := hm w
  rw [bind_apply]
  cases hmw : m w with
  | ok a w1 =>
    rw [hmw] at h1
    have h2 := hf a w1
    exact ⟨hc _ _ _ h1.1 h2.1, h2.2⟩
  | exit d w1 =>
    rw [hmw] at h1
    exact ⟨hexit _ _ h1.1, h1.2⟩

theorem spl_stage_and_run_keeps_het {S R : World → World → Prop} {D : Diag → Prop}
    (hc : ∀ a b c, S a b → Ext b c → R a c) (hexit : ∀ a b, S a b → R a b)
    (hD : ∀ d, CmdDiag d → D d)
    (h1 : D .tex_remap_enabled) (h2 : D .unexpected_ttbr0) (h3 : D .mmu_not_section)
    (h4 : D .mmu_not_direct) (h5 : D .spl_too_large) (h6 : D .spl_bad_thunk_size)
    (h7 : ∀ sig, D (.spl_failure_code sig))
    (thunk : List Nat) (info : soc_sram_info) (sbs : List sram_swap_buffers)
    (buf : List Byte) (spl_len : Nat)
    (hpre : Keeps S D
      ((if info.needs_l2en ≠ 0 then aw_enable_l2_cache info else pure ()) >>= fun _ =>
        aw_get_stackinfo info)) :
    Keeps R D (spl_stage_and_run thunk info sbs buf spl_len) := by
  unfold spl_stage_and_run
  rw [← bind_assoc_fel]
  refine keeps_bind_het hc hexit hpre (fun _ => ?_)
  refine keeps_bind ext_trans (aw_backup_and_disable_mmu_keeps hD h1 h2 h3 h4 _) (fun tt => ?_)
  refine keeps_bind ext_trans (spl_stage_loop_keeps hD _ _ _) (fun st => ?_)
  refine keeps_ite _ (keeps_die ext_refl _ h5) ?_
  refine keeps_bind ext_trans ?_ (fun _ => ?_)
  · exact keeps_ite _ (aw_fel_write_keeps hD _ _ _) (keeps_pure ext_refl _)
  refine keeps_ite _ (keeps_die ext_refl _ h6) ?_
  refine keeps_bind ext_trans (aw_fel_write_keeps hD _ _ _) (fun _ => ?_)
  refine keeps_bind ext_trans (aw_fel_execute_keeps hD _) (fun _ => ?_)
  refine keeps_bind ext_trans (aw_fel_read_keeps hD _ _) (fun sig => ?_)
  simp only
  refine keeps_ite _ (keeps_die ext_refl _ (h7 _)) ?_
  cases tt with
  | none => exact keeps_pure ext_refl _
  | some t => exact aw_restore_and_enable_mmu_keeps hD _ _

/-- The staging part of the loader only extends the FEL command log, leaves the
device, the lookup cache and the U-Boot globals alone, and ends, if at all, with one
of its own diagnostics. -/
theorem spl_stage_and_run_keeps {D : Diag → Prop} (hD : ∀ d, CmdDiag d → D d)
    (h1 : D .tex_remap_enabled) (h2 : D .unexpected_ttbr0) (h3 : D .mmu_not_section)
    (h4 : D .mmu_not_direct) (h5 : D .spl_too_large) (h6 : D .spl_bad_thunk_size)
    (h7 : ∀ sig, D (.spl_failure_code sig))
    (thunk : List Nat) (info : soc_sram_info) (sbs : List sram_swap_buffers)
    (buf : List Byte) (spl_len : Nat) :
    Keeps Ext D (spl_stage_and_run thunk info sbs buf spl_len) := by
  refine spl_stage_and_run_keeps_het ext_trans (fun _ _ h => h) hD h1 h2 h3 h4 h5 h6 h7
    thunk info sbs buf spl_len ?_
  refine keeps_bind ext_trans ?_ (fun _ => aw_get_stackinfo_keeps hD _)
  exact keeps_ite _ (aw_enable_l2_cache_keeps hD _) (keeps_pure ext_refl _)

theorem stackinfo_stub_take : stackinfo_stub.take 36 = stackinfo_stub := by decide!

/-- The first command of `aw_get_stackinfo`: in a session with no armed footprint the
command log continues with the upload of the stack probe to the scratch area. -/
theorem aw_get_stackinfo_starts {D : Diag → Prop} (hD : ∀ d, CmdDiag d → D d)
    (info : soc_sram_info) :
    Keeps (fun a b => Ext a b ∧
        (a.uboot_size = 0 → (a.fel ++ [.write info.scratch_addr stackinfo_stub]) <+: b.fel))
      D (aw_get_stackinfo info) := by
  unfold aw_get_stackinfo
  refine keeps_bind_het (S := fun a b => Ext a b ∧
      (a.uboot_size = 0 → (a.fel ++ [.write info.scratch_addr stackinfo_stub]) <+: b.fel))
    (T := Ext) ?_ (fun _ _ h => h) ?_ ?_
  · intro a b c h1 h2
    exact ⟨ext_trans _ _ _ h1.1 h2, fun h => (h1.2 h).trans h2.2.1⟩
  · intro w
    by_cases h : interlock w info.scratch_addr 36
    · rw [aw_fel_write_refused _ _ _ w h]
      refine ⟨⟨ext_refl w, fun h0 => ?_⟩, fun d hd => ?_⟩
      · unfold interlock at h
        exact absurd h0 (by show ¬ (Res.exit Diag.overwrite_uboot w : Res Unit).world.uboot_size = 0
                            exact Nat.pos_iff_ne_zero.mp h.1)
      · simp only [Res.diag, Option.some.injEq] at hd
        exact hD d (Or.inr hd.symm)
    · have h1 := aw_fel_write_issued
        (words_le [0xe10f0000, 0xe3c0101f, 0xe3811012, 0xe121f001, 0xe1a0100d,
          0xe121f000, 0xe58f1004, 0xe58fd004, 0xe12fff1e]) info.scratch_addr 36 w h
      refine ⟨⟨ext_of_logs h1.1, fun _ => ?_⟩, fun d hd => hD d (Or.inl (h1.2 d hd))⟩
      have h2 := h1.1.2.1
      rw [h2]
      have h3 := stackinfo_stub_take
      unfold stackinfo_stub at h3 ⊢
      rw [h3]
  · intro _
    exact keeps_bind ext_trans (aw_fel_execute_keeps hD _)
      (fun _ => keeps_bind ext_trans (aw_fel_read_keeps hD _ _)
        (fun _ => keeps_pure ext_refl _))

theorem list_of_length_32 (p : List Byte) (h : p.length = 32) :
    ∃ b0 b1 b2 b3 b4 b5 b6 b7 b8 b9 b10 b11 b12 b13 b14 b15 b16 b17 b18 b19 b20 b21 b22 b23 b24 b25 b26 b27 b28 b29 b30 b31 : Byte,
      p = [b0, b1, b2, b3, b4, b5, b6, b7, b8, b9, b10, b11, b12, b13, b14, b15, b16, b17, b18, b19, b20, b21, b22, b23, b24, b25, b26, b27, b28, b29, b30, b31] := by
  rcases p with _ | ⟨b0, _ | ⟨b1, _ | ⟨b2, _ | ⟨b3, _ | ⟨b4, _ | ⟨b5, _ | ⟨b6, _ | ⟨b7, _ | ⟨b8, _ | ⟨b9, _ | ⟨b10, _ | ⟨b11, _ | ⟨b12, _ | ⟨b13, _ | ⟨b14, _ | ⟨b15, _ | ⟨b16, _ | ⟨b17, _ | ⟨b18, _ | ⟨b19, _ | ⟨b20, _ | ⟨b21, _ | ⟨b22, _ | ⟨b23, _ | ⟨b24, _ | ⟨b25, _ | ⟨b26, _ | ⟨b27, _ | ⟨b28, _ | ⟨b29, _ | ⟨b30, _ | ⟨b31, _ | ⟨_, _⟩⟩⟩⟩⟩⟩⟩⟩⟩⟩⟩⟩⟩⟩⟩⟩⟩⟩⟩⟩⟩⟩⟩⟩⟩⟩⟩⟩⟩⟩⟩⟩⟩
  all_goals first
    | (simp only [List.length_cons, List.length_nil] at h; omega)
    | exact ⟨_, _, _, _, _, _, _, _, _, _, _, _, _, _, _, _, _, _, _, _, _, _, _, _, _, _, _, _, _, _, _, _, rfl⟩

theorem spl_check_header_rejects (buf : List Byte) (len : Nat)
    (h : len < 32 ∨ (buf.drop 4).take 8 ≠ str_eGON_BT0 ∨ le32_at buf 16 > len
      ∨ le32_at buf 16 % 4 ≠ 0 ∨ spl_checksum buf (le32_at buf 16) ≠ 0) :
    ∃ d, spl_check_header buf len = .error d ∧
      (d = .spl_no_egon_header ∨ d = .spl_bad_length ∨ d = .spl_checksum) := by
  unfold spl_check_header
  by_cases h1 : len < 32 ∨ (buf.drop 4).take 8 ≠ str_eGON_BT0
  · exact ⟨_, by rw [if_pos h1], Or.inl rfl⟩
  · by_cases h2 : le32_at buf 16 > len ∨ le32_at buf 16 % 4 ≠ 0
    · exact ⟨_, by rw [if_neg h1]; simp only; rw [if_pos h2], Or.inr (Or.inl rfl)⟩
    · have h3 : spl_checksum buf (le32_at buf 16) ≠ 0 := by
        rcases h with h | h | h | h | h
        · exact absurd (Or.inl h) h1
        · exact absurd (Or.inr h) h1
        · exact absurd (Or.inl h) h2
        · exact absurd (Or.inr h) h2
        · exact h
      exact ⟨_, by rw [if_neg h1]; simp only; rw [if_neg h2, if_pos h3], Or.inr (Or.inr rfl)⟩

theorem spl_check_header_ok (buf : List Byte) (len n : Nat)
    (h : spl_check_header buf len = .ok n) :
    32 ≤ len ∧ (buf.drop 4).take 8 = str_eGON_BT0 ∧ le32_at buf 16 = n ∧ n ≤ len ∧
      n % 4 = 0 ∧ spl_checksum buf n = 0 := by
  unfold spl_check_header at h
  split at h
  · simp at h
  · rename_i h1
    simp only at h
    split at h
    · simp at h
    · rename_i h2
      split at h
      · simp at h
      · rename_i h3
        rw [Except.ok.injEq] at h
        rw [h] at h2 h3
        refine ⟨by omega, ?_, h, by omega, by omega, by omega⟩
        by_contra hc
        exact h1 (Or.inr hc)

theorem word_sum_0 (buf : List Byte) :
    ((List.range (0 / 4)).map (fun i => (le32_at buf (4 * i) : Int))).sum = 0 := rfl

theorem word_sum_32 (buf : List Byte) :
    ((List.range (32 / 4)).map (fun i => (le32_at buf (4 * i) : Int))).sum
      = (le32_at buf 0 : Int) + ((le32_at buf 4 : Int) + ((le32_at buf 8 : Int)
        + ((le32_at buf 12 : Int) + ((le32_at buf 16 : Int) + ((le32_at buf 20 : Int)
        + ((le32_at buf 24 : Int) + ((le32_at buf 28 : Int) + 0))))))) := rfl



theorem a80_dev_version :
    (aw_fel_get_version (session_start a80_dev)).value
      = some { signature := [0x41, 0x57, 0x55, 0x53, 0x42, 0x45, 0x58, 0x00],
               soc_id := 0x1639, unknown_0a := 0, protocol := 0, unknown_12 := 0,
               unknown_13 := 0, scratchpad := 0, pad0 := 0, pad1 := 0 } := by
  decide!

/-- For a stored length of 32 the checksum variable is non-zero as soon as the
congruence between `2 * stored - 0x5F0A6C39` and the sum of the eight words fails. -/
theorem spl_checksum_32_ne_zero (q : List Byte) (hq16 : le32_at q 16 = 32)
    (hne : (2 * (le32_at q 12 : Int) - 0x5F0A6C39) % 4294967296 ≠
      ((le32_at q 0 : Int) + ((le32_at q 4 : Int) + ((le32_at q 8 : Int)
        + ((le32_at q 12 : Int) + ((le32_at q 16 : Int) + ((le32_at q 20 : Int)
        + ((le32_at q 24 : Int) + ((le32_at q 28 : Int) + 0)))))))) % 4294967296) :
    spl_checksum q (le32_at q 16) ≠ 0 := by
  intro hq
  rw [hq16] at hq
  have hq2 := (spl_checksum_eq_zero_iff _ _).mp hq
  rw [word_sum_32] at hq2
  exact hne hq2

set_option maxHeartbeats 8000000 in
/-- The tamper check on a payload given byte by byte. -/
theorem spl_tamper_detection_bytes
    (b0 b1 b2 b3 b4 b5 b6 b7 b8 b9 b10 b11 b12 b13 b14 b15 b16 b17 b18 b19 b20 b21 b22 b23 b24 b25 b26 b27 b28 b29 b30 b31 : Byte)
    (hpass : spl_check_header
      [b0, b1, b2, b3, b4, b5, b6, b7, b8, b9, b10, b11, b12, b13, b14, b15, b16, b17, b18, b19, b20, b21, b22, b23, b24, b25, b26, b27, b28, b29, b30, b31] 32 = .ok 32)
    (i : Nat) (hi : i < 32) (hw3 : i / 4 ≠ 3) (v : Byte)
    (hv : v ≠ List.getD
      [b0, b1, b2, b3, b4, b5, b6, b7, b8, b9, b10, b11, b12, b13, b14, b15, b16, b17, b18, b19, b20, b21, b22, b23, b24, b25, b26, b27, b28, b29, b30, b31] i 0)
    (hexc : ¬ (i = 16 ∧ v.val % 4 = 0 ∧ 0 < v.val ∧ v.val < 32)) :
    ∃ d, spl_check_header (List.set
      [b0, b1, b2, b3, b4, b5, b6, b7, b8, b9, b10, b11, b12, b13, b14, b15, b16, b17, b18, b19, b20, b21, b22, b23, b24, b25, b26, b27, b28, b29, b30, b31] i v) 32 = .error d := by
  obtain ⟨_, hsig, h16, _, _, hck⟩ := spl_check_header_ok _ _ _ hpass
  have hck2 := (spl_checksum_eq_zero_iff _ _).mp hck
  rw [word_sum_32] at hck2
  simp only [le32_at, byte_at, List.getD_cons_zero, List.getD_cons_succ] at hck2 h16
  have hval : ∀ a b : Byte, a ≠ b → a.val ≠ b.val := fun a b h hab => h (Fin.ext hab)
  refine (spl_check_header_rejects _ 32 ?_).imp (fun d h => h.1)
  by_cases hsigr : 4 ≤ i ∧ i < 12
  · -- a signature byte
    obtain ⟨hlo, hhi⟩ := hsigr
    right; left
    intro hq
    have := hq.trans hsig.symm
    interval_cases i <;>
      simp only [List.set, List.getD_cons_zero, List.getD_cons_succ, List.drop_succ_cons,
        List.drop_zero, List.take_succ_cons, List.take_zero, List.cons.injEq, true_and,
        and_true] at hv this <;>
      exact hv this
  by_cases hlenr : 17 ≤ i ∧ i < 20
  · -- a high byte of the stored length: the length exceeds 32
    obtain ⟨hlo, hhi⟩ := hlenr
    right; right; left
    interval_cases i <;>
      simp only [List.set, List.getD_cons_zero, List.getD_cons_succ, le32_at, byte_at]
        at hv ⊢ <;>
      have hv2 := hval _ _ hv <;>
      omega
  by_cases h16i : i = 16
  · -- byte 16: the new stored length is above 32, or not a multiple of 4, or zero
    subst h16i
    simp only [List.set, List.getD_cons_zero, List.getD_cons_succ] at hv ⊢
    have hv2 := hval _ _ hv
    by_cases hgt : v.val > 32
    · right; right; left
      simp only [le32_at, byte_at, List.getD_cons_zero, List.getD_cons_succ]
      omega
    · by_cases hmod : v.val % 4 ≠ 0
      · right; right; right; left
        simp only [le32_at, byte_at, List.getD_cons_zero, List.getD_cons_succ]
        omega
      · right; right; right; right
        simp only [le32_at, byte_at, List.getD_cons_zero, List.getD_cons_succ]
        have hz : v.val + 256 * b17.val + 65536 * b18.val + 16777216 * b19.val = 0 := by
          omega
        rw [hz]
        intro hq
        have hq2 := (spl_checksum_eq_zero_iff _ _).mp hq
        rw [word_sum_0] at hq2
        omega
  -- a byte of a word covered by the checksum only
  have hrest : i < 4 ∨ (20 ≤ i ∧ i < 32) := by omega
  right; right; right; right
  clear hck hpass hsig hexc hw3 hsigr hlenr h16i
  rcases hrest with hlo | ⟨hlo, hhi⟩
  · interval_cases i
    all_goals
      simp only [List.set, List.getD_cons_zero, List.getD_cons_succ] at hv ⊢
      have hv2 := hval _ _ hv
      apply spl_checksum_32_ne_zero
      · simp only [le32_at, byte_at, List.getD_cons_zero, List.getD_cons_succ]
        exact h16
      · simp only [le32_at, byte_at, List.getD_cons_zero, List.getD_cons_succ]
        omega
  · interval_cases i
    all_goals
      simp only [List.set, List.getD_cons_zero, List.getD_cons_succ] at hv ⊢
      have hv2 := hval _ _ hv
      apply spl_checksum_32_ne_zero
      · simp only [le32_at, byte_at, List.getD_cons_zero, List.getD_cons_succ]
        exact h16
      · simp only [le32_at, byte_at, List.getD_cons_zero, List.getD_cons_succ]
        omega
theorem spl_thunk_eq (thunk : List Nat) (info : soc_sram_info) (sbs : List sram_swap_buffers)
    (tt : Option (List Nat)) (i : Nat) :
    spl_thunk thunk info sbs tt i =
      (if 4 * thunk.length + 4 + (i + 1) * 12 > info.thunk_size then die .spl_bad_thunk_size
       else
        aw_fel_write (words_le (thunk_words thunk info.spl_addr sbs i)) info.thunk_addr
            (4 * thunk.length + 4 + (i + 1) * 12) >>= fun _ =>
          aw_fel_execute info.thunk_addr >>= fun _ => spl_verify info tt) := rfl

/-- The loader block is the composition of its segments. -/
theorem spl_stage_and_run_eq (thunk : List Nat) (info : soc_sram_info)
    (sbs : List sram_swap_buffers) (buf : List Byte) (spl_len : Nat) :
    spl_stage_and_run thunk info sbs buf spl_len =
      spl_prepare info >>= fun tt =>
        spl_stage_loop info.spl_addr sbs
          { i := 0, spl_len_limit := SPL_LEN_LIMIT, cur_addr := info.spl_addr,
            buf := buf, len := spl_len } >>= fun st =>
        spl_finish thunk info sbs spl_len tt st := by
  unfold spl_prepare
  rw [bind_assoc_fel]
  simp only [bind_assoc_fel]
  rfl
/-- One iteration of the loop of `usb_bulk_send` on the OUT endpoint. -/
theorem usb_bulk_send_loop_step_out (total : Int) (cb : Bool) (fuel : Nat) (data : List Byte)
    (n : Nat) (acc : List Byte) (w : World) (hn : 0 < n) :
    ∃ w1, Wire w w1 ∧
      w1.usb = w.usb ++ [⟨.AW_USB_FEL_BULK_EP_OUT, data.take (min n 4194304)⟩] ∧
      usb_bulk_send_loop .AW_USB_FEL_BULK_EP_OUT total cb (fuel + 1) data (n : Int) acc w =
        usb_bulk_send_loop .AW_USB_FEL_BULK_EP_OUT total cb fuel (data.drop (min n 4194304))
          ((n - min n 4194304 : Nat) : Int) acc w1 := by
  have hl : (n : Int) > 0 := by omega
  have hk : (if (n : Int) < AW_USB_MAX_BULK_SEND then (n : Int) else AW_USB_MAX_BULK_SEND)
      = ((min n 4194304 : Nat) : Int) := by
    unfold AW_USB_MAX_BULK_SEND; split <;> omega
  rw [usb_bulk_send_loop]
  simp only [hl, if_true]
  rw [hk, bind_apply]
  have h1 : libusb_bulk_transfer .AW_USB_FEL_BULK_EP_OUT data
      ((min n 4194304 : Nat) : Int).toNat w
      = .ok (0, ((min n 4194304 : Nat) : Int), [])
          { w with usb := w.usb ++ [⟨.AW_USB_FEL_BULK_EP_OUT, data.take (min n 4194304)⟩] } := rfl
  rw [h1]
  simp only [bne_self_eq_false, Bool.false_eq_true, if_false]
  have h2 : (n : Int) - ((min n 4194304 : Nat) : Int) = ((n - min n 4194304 : Nat) : Int) := by
    omega
  rw [h2, List.append_nil, Int.toNat_ofNat]
  cases cb with
  | false =>
    simp only [Bool.false_eq_true, if_false]
    rw [bind_apply, pure_apply]
    refine ⟨_, ?_, ?_, rfl⟩
    · exact ⟨rfl, rfl, rfl, rfl, rfl, rfl⟩
    · rfl
  | true =>
    simp only [if_true]
    rw [bind_apply]
    refine ⟨_, ?_, ?_, rfl⟩
    · exact ⟨rfl, rfl, rfl, rfl, rfl, rfl⟩
    · rfl

/-- One iteration of the loop of `usb_bulk_send` on the IN endpoint. -/
theorem usb_bulk_send_loop_step_in (total : Int) (cb : Bool) (fuel : Nat) (data : List Byte)
    (n : Nat) (acc : List Byte) (w : World) (hn : 0 < n) :
    ∃ w1 got, Wire w w1 ∧ got.length = min n 4194304 ∧
      w1.usb = w.usb ++ [⟨.AW_USB_FEL_BULK_EP_IN, got⟩] ∧
      usb_bulk_send_loop .AW_USB_FEL_BULK_EP_IN total cb (fuel + 1) data (n : Int) acc w =
        usb_bulk_send_loop .AW_USB_FEL_BULK_EP_IN total cb fuel (data.drop (min n 4194304))
          ((n - min n 4194304 : Nat) : Int) (acc ++ got) w1 := by
  have hl : (n : Int) > 0 := by omega
  have hk : (if (n : Int) < AW_USB_MAX_BULK_SEND then (n : Int) else AW_USB_MAX_BULK_SEND)
      = ((min n 4194304 : Nat) : Int) := by
    unfold AW_USB_MAX_BULK_SEND; split <;> omega
  rw [usb_bulk_send_loop]
  simp only [hl, if_true]
  rw [hk, bind_apply]
  have h1 : libusb_bulk_transfer .AW_USB_FEL_BULK_EP_IN data
      ((min n 4194304 : Nat) : Int).toNat w
      = .ok (0, ((min n 4194304 : Nat) : Int),
              (List.range (min n 4194304)).map (w.dev w.usb (min n 4194304)))
          { w with usb := w.usb ++ [⟨.AW_USB_FEL_BULK_EP_IN,
              (List.range (min n 4194304)).map (w.dev w.usb (min n 4194304))⟩] } := rfl
  rw [h1]
  simp only [bne_self_eq_false, Bool.false_eq_true, if_false]
  have h2 : (n : Int) - ((min n 4194304 : Nat) : Int) = ((n - min n 4194304 : Nat) : Int) := by
    omega
  rw [h2, Int.toNat_ofNat]
  cases cb with
  | false =>
    simp only [Bool.false_eq_true, if_false]
    rw [bind_apply, pure_apply]
    refine ⟨_, _, ?_, ?_, ?_, rfl⟩
    · exact ⟨rfl, rfl, rfl, rfl, rfl, rfl⟩
    · simp
    · rfl
  | true =>
    simp only [if_true]
    rw [bind_apply]
    refine ⟨_, _, ?_, ?_, ?_, rfl⟩
    · exact ⟨rfl, rfl, rfl, rfl, rfl, rfl⟩
    · simp
    · rfl
theorem usb_bulk_send_loop_done (ep : Endpoint) (total : Int) (cb : Bool) (fuel : Nat)
    (data acc : List Byte) (w : World) :
    usb_bulk_send_loop ep total cb fuel data ((0 : Nat) : Int) acc w = .ok acc w := by
  cases fuel <;> simp [usb_bulk_send_loop, pure_apply]

theorem usb_bulk_send_loop_out (total : Int) (cb : Bool) :
    ∀ (fuel n : Nat) (data acc : List Byte) (w : World), n ≤ fuel → n ≤ data.length →
      ∃ w1 t, usb_bulk_send_loop .AW_USB_FEL_BULK_EP_OUT total cb fuel data (n : Int) acc w
          = .ok acc w1 ∧ Wire w w1 ∧ w1.usb = w.usb ++ t ∧
        Chunked .AW_USB_FEL_BULK_EP_OUT (data.take n) t := by
  intro fuel
  induction fuel with
  | zero =>
    intro n data acc w h _
    obtain rfl : n = 0 := by omega
    exact ⟨w, [], usb_bulk_send_loop_done _ _ _ _ _ _ _, wire_refl w, by simp,
      by simp [Chunked]⟩
  | succ f ih =>
    intro n data acc w h hd
    rcases Nat.eq_zero_or_pos n with rfl | hn
    · exact ⟨w, [], usb_bulk_send_loop_done _ _ _ _ _ _ _, wire_refl w, by simp,
        by simp [Chunked]⟩
    · obtain ⟨w1, hw1, hu1, hstep⟩ := usb_bulk_send_loop_step_out total cb f data n acc w hn
      obtain ⟨w2, t, h2, hw2, hu2, hc⟩ := ih (n - min n 4194304) (data.drop (min n 4194304))
        acc w1 (by omega) (by rw [List.length_drop]; omega)
      refine ⟨w2, ⟨.AW_USB_FEL_BULK_EP_OUT, data.take (min n 4194304)⟩ :: t,
        by rw [hstep, h2], wire_trans hw1 hw2, by rw [hu2, hu1]; simp, ?_, ?_⟩
      · have hsplit : n = min n 4194304 + (n - min n 4194304) := by omega
        simp only [List.map_cons, List.flatten_cons]
        rw [hc.1]
        conv_rhs => rw [hsplit, List.take_add]
      · intro x hx
        rcases List.mem_cons.mp hx with rfl | hx
        · refine ⟨rfl, ?_, ?_⟩ <;> simp only [List.length_take] <;> omega
        · exact hc.2 x hx

theorem usb_bulk_send_loop_in (total : Int) (cb : Bool) :
    ∀ (fuel n : Nat) (data acc : List Byte) (w : World), n ≤ fuel →
      ∃ w1 t got, usb_bulk_send_loop .AW_USB_FEL_BULK_EP_IN total cb fuel data (n : Int) acc w
          = .ok (acc ++ got) w1 ∧ Wire w w1 ∧ w1.usb = w.usb ++ t ∧
        Chunked .AW_USB_FEL_BULK_EP_IN got t ∧ got.length = n := by
  intro fuel
  induction fuel with
  | zero =>
    intro n data acc w h
    obtain rfl : n = 0 := by omega
    exact ⟨w, [], [], by rw [List.append_nil]; exact usb_bulk_send_loop_done _ _ _ _ _ _ _,
      wire_refl w, by simp, by simp [Chunked], rfl⟩
  | succ f ih =>
    intro n data acc w h
    rcases Nat.eq_zero_or_pos n with rfl | hn
    · exact ⟨w, [], [], by rw [List.append_nil]; exact usb_bulk_send_loop_done _ _ _ _ _ _ _,
        wire_refl w, by simp, by simp [Chunked], rfl⟩
    · obtain ⟨w1, got1, hw1, hg1, hu1, hstep⟩ :=
        usb_bulk_send_loop_step_in total cb f data n acc w hn
      obtain ⟨w2, t, got2, h2, hw2, hu2, hc, hg2⟩ := ih (n - min n 4194304)
        (data.drop (min n 4194304)) (acc ++ got1) w1 (by omega)
      refine ⟨w2, ⟨.AW_USB_FEL_BULK_EP_IN, got1⟩ :: t, got1 ++ got2,
        by rw [hstep, h2, List.append_assoc], wire_trans hw1 hw2, by rw [hu2, hu1]; simp,
        ⟨?_, ?_⟩, by rw [List.length_append, hg1, hg2]; omega⟩
      · simp only [List.map_cons, List.flatten_cons]
        rw [hc.1]
      · intro x hx
        rcases List.mem_cons.mp hx with rfl | hx
        · refine ⟨rfl, ?_, ?_⟩ <;> simp only [hg1] <;> omega
        · exact hc.2 x hx
theorem to_int32_small (n : Nat) (h : n < 2147483648) : to_int32 n = (n : Int) := by
  unfold to_int32
  have h1 : n % 4294967296 = n := Nat.mod_eq_of_lt (by omega)
  rw [h1, if_pos h]

theorem usb_bulk_send_out (data : List Byte) (n : Nat) (cb : Bool) (w : World)
    (hd : n ≤ data.length) :
    ∃ w1 t, usb_bulk_send .AW_USB_FEL_BULK_EP_OUT data (n : Int) cb w = .ok [] w1 ∧
      Wire w w1 ∧ w1.usb = w.usb ++ t ∧ Chunked .AW_USB_FEL_BULK_EP_OUT (data.take n) t := by
  unfold usb_bulk_send
  rw [Int.toNat_ofNat]
  exact usb_bulk_send_loop_out (n : Int) cb n n data [] w (Nat.le_refl _) hd

theorem usb_bulk_send_in (data : List Byte) (n : Nat) (cb : Bool) (w : World) :
    ∃ w1 t got, usb_bulk_send .AW_USB_FEL_BULK_EP_IN data (n : Int) cb w = .ok got w1 ∧
      Wire w w1 ∧ w1.usb = w.usb ++ t ∧ Chunked .AW_USB_FEL_BULK_EP_IN got t ∧
      got.length = n := by
  unfold usb_bulk_send
  rw [Int.toNat_ofNat]
  obtain ⟨w1, t, got, h, rest⟩ :=
    usb_bulk_send_loop_in (n : Int) cb n n data [] w (Nat.le_refl _)
  exact ⟨w1, t, got, by rw [h, List.nil_append], rest⟩

theorem aw_usb_request_bytes_length (type length : Int) :
    (aw_usb_request_bytes type length).length = 32 := rfl

/-- The request of the AW-USB layer is one 32-byte transfer on the OUT endpoint. -/
theorem aw_send_usb_request_trace (type length : Int) (w : World) :
    aw_send_usb_request type length w
      = .ok () { w with usb := w.usb ++
          [⟨.AW_USB_FEL_BULK_EP_OUT, aw_usb_request_bytes type length⟩] } := by
  unfold aw_send_usb_request
  rw [bind_apply]
  have h0 : usb_bulk_send .AW_USB_FEL_BULK_EP_OUT (aw_usb_request_bytes type length) 32 false w
      = .ok [] { w with usb := w.usb ++
          [⟨.AW_USB_FEL_BULK_EP_OUT, aw_usb_request_bytes type length⟩] } := rfl
  rw [h0]
  rfl

/-- The acknowledgement of the AW-USB layer is one 13-byte transfer from the IN
endpoint; the run goes on exactly when the block, read as a C string, is "AWUS". -/
theorem aw_read_usb_response_trace (w : World) :
    ∃ w1 ack, Wire w w1 ∧ w1.usb = w.usb ++ [⟨.AW_USB_FEL_BULK_EP_IN, ack⟩] ∧
      ack.length = 13 ∧ ack = (List.range 13).map (w.dev w.usb 13) ∧
      aw_read_usb_response w
        = (if c_str ack = str_AWUS then .ok () w1 else .exit .assert_awus w1) := by
  refine ⟨{ w with usb := w.usb ++
      [⟨.AW_USB_FEL_BULK_EP_IN, (List.range 13).map (w.dev w.usb 13)⟩] }, _,
    ⟨rfl, rfl, rfl, rfl, rfl, rfl⟩, rfl, by simp, rfl, ?_⟩
  unfold aw_read_usb_response
  rw [bind_apply, usb_bulk_recv_13]
  simp only
  split <;> rfl
/-- The wire trace of `aw_usb_write`, whatever the device answers. -/
theorem aw_usb_write_trace (p : List Byte) (len : Nat) (cb : Bool) (w : World)
    (hlen : len < 2147483648) (hp : len ≤ p.length) :
    ∃ w1 t, Wire w w1 ∧ w1.usb = w.usb ++ t ∧ AwWrite (p.take len) t ∧
      (aw_usb_write p len cb w = .ok () w1 ∨
        aw_usb_write p len cb w = .exit .assert_awus w1) ∧
      (Acks w.dev → aw_usb_write p len cb w = .ok () w1) := by
  unfold aw_usb_write
  rw [to_int32_small len hlen, bind_apply, aw_send_usb_request_trace]
  simp only
  rw [bind_apply]
  obtain ⟨w2, tc, h2, hw2, hu2, hc⟩ := usb_bulk_send_out p len cb
    { w with usb := w.usb ++
      [⟨.AW_USB_FEL_BULK_EP_OUT, aw_usb_request_bytes AW_USB_WRITE (len : Int)⟩] } hp
  rw [h2]
  simp only
  obtain ⟨w3, ack, hw3, hu3, hal, hack, h3⟩ := aw_read_usb_response_trace w2
  have hw13 : Wire w w3 := wire_trans (wire_trans ⟨rfl, rfl, rfl, rfl, rfl, rfl⟩ hw2) hw3
  refine ⟨w3, ⟨.AW_USB_FEL_BULK_EP_OUT, aw_usb_request_bytes AW_USB_WRITE (len : Int)⟩ :: tc
      ++ [⟨.AW_USB_FEL_BULK_EP_IN, ack⟩], hw13, ?_, ⟨tc, ack, ?_, hc, hal⟩, ?_, ?_⟩
  · rw [hu3, hu2]; simp
  · rw [List.length_take, Nat.min_eq_left hp]
  · rw [h3]; split
    · exact Or.inl rfl
    · exact Or.inr rfl
  · intro ha
    have hd : w2.dev = w.dev := hw2.1
    rw [h3, hack, hd, ha w2.usb, if_pos rfl]

/-- The wire trace of `aw_usb_read`, whatever the device answers. -/
theorem aw_usb_read_trace (len : Nat) (cb : Bool) (w : World) (hlen : len < 2147483648) :
    ∃ w1 t got, Wire w w1 ∧ w1.usb = w.usb ++ t ∧ AwRead len got t ∧
      (aw_usb_read len cb w = .ok got w1 ∨ aw_usb_read len cb w = .exit .assert_awus w1) ∧
      (Acks w.dev → aw_usb_read len cb w = .ok got w1) := by
  unfold aw_usb_read
  rw [to_int32_small len hlen, bind_apply, aw_send_usb_request_trace]
  simp only
  rw [bind_apply]
  obtain ⟨w2, tc, got, h2, hw2, hu2, hc, hg⟩ := usb_bulk_send_in [] len cb
    { w with usb := w.usb ++
      [⟨.AW_USB_FEL_BULK_EP_OUT, aw_usb_request_bytes AW_USB_READ (len : Int)⟩] }
  rw [h2]
  simp only
  rw [bind_apply]
  obtain ⟨w3, ack, hw3, hu3, hal, hack, h3⟩ := aw_read_usb_response_trace w2
  have hw13 : Wire w w3 := wire_trans (wire_trans ⟨rfl, rfl, rfl, rfl, rfl, rfl⟩ hw2) hw3
  refine ⟨w3, ⟨.AW_USB_FEL_BULK_EP_OUT, aw_usb_request_bytes AW_USB_READ (len : Int)⟩ :: tc
      ++ [⟨.AW_USB_FEL_BULK_EP_IN, ack⟩], got, hw13, ?_, ⟨tc, ack, rfl, hc, hg, hal⟩, ?_, ?_⟩
  · rw [hu3, hu2]; simp
  · rw [h3]
    by_cases hk : c_str ack = str_AWUS
    · rw [if_pos hk]; exact Or.inl rfl
    · rw [if_neg hk]; exact Or.inr rfl
  · intro ha
    have hd : w2.dev = w.dev := hw2.1
    rw [h3, hack, hd, ha w2.usb, if_pos rfl]
    rfl
theorem emits_bind {α β : Type} {P : α → List Xfer → Prop} {Q : α → β → List Xfer → Prop}
    {m : FelM α} {f : α → FelM β} (hm : Emits P m) (hf : ∀ a, Emits (Q a) (f a)) :
    Emits (fun b t => ∃ a t1 t2, t = t1 ++ t2 ∧ P a t1 ∧ Q a b t2) (m >>= f) := by
  intro w hw
  obtain ⟨a, w1, t1, h1, hw1, hu1, hp⟩ := hm w hw
  obtain ⟨b, w2, t2, h2, hw2, hu2, hq⟩ := hf a w1 (by rw [hw1.1]; exact hw)
  exact ⟨b, w2, t1 ++ t2, by rw [bind_apply, h1]; exact h2, wire_trans hw1 hw2,
    by rw [hu2, hu1, List.append_assoc], a, t1, t2, rfl, hp, hq⟩

theorem emits_pure {α : Type} (a : α) : Emits (fun b t => b = a ∧ t = []) (pure a : FelM α) :=
  fun w _ => ⟨a, w, [], rfl, wire_refl w, by simp, rfl, rfl⟩

theorem emits_mono {α : Type} {P Q : α → List Xfer → Prop} {m : FelM α} (hm : Emits P m)
    (h : ∀ a t, P a t → Q a t) : Emits Q m := by
  intro w hw
  obtain ⟨a, w1, t, h1, hw1, hu1, hp⟩ := hm w hw
  exact ⟨a, w1, t, h1, hw1, hu1, h a t hp⟩

theorem aw_usb_write_emits (p : List Byte) (len : Nat) (cb : Bool)
    (hlen : len < 2147483648) (hp : len ≤ p.length) :
    Emits (fun _ t => AwWrite (p.take len) t) (aw_usb_write p len cb) := by
  intro w hw
  obtain ⟨w1, t, hw1, hu, ht, _, hok⟩ := aw_usb_write_trace p len cb w hlen hp
  exact ⟨(), w1, t, hok hw, hw1, hu, ht⟩

theorem aw_usb_read_emits (len : Nat) (cb : Bool) (hlen : len < 2147483648) :
    Emits (fun got t => AwRead len got t) (aw_usb_read len cb) := by
  intro w hw
  obtain ⟨w1, t, got, hw1, hu, ht, _, hok⟩ := aw_usb_read_trace len cb w hlen
  exact ⟨got, w1, t, hok hw, hw1, hu, ht⟩

theorem aw_send_fel_request_emits (type : Int) (addr length : Nat) :
    Emits (fun _ t => AwWrite (aw_fel_request_bytes type addr length) t)
      (aw_send_fel_request type addr length) :=
  aw_usb_write_emits (aw_fel_request_bytes type addr length) 16 false (by omega)
    (Nat.le_of_eq rfl)

theorem aw_read_fel_status_emits :
    Emits (fun _ t => ∃ status, AwRead 8 status t) aw_read_fel_status := by
  unfold aw_read_fel_status
  refine emits_mono (emits_bind (aw_usb_read_emits 8 false (by omega))
    (fun _ => emits_pure ())) ?_
  rintro _ t ⟨status, t1, t2, rfl, h1, -, rfl⟩
  exact ⟨status, by rw [List.append_nil]; exact h1⟩
theorem get_progress_emits : Emits (fun _ t => t = []) get_progress :=
  fun w _ => ⟨w.progress, w, [], rfl, wire_refl w, by simp, rfl⟩

theorem logs_one (op : FelOp) (w w1 : World)
    (h : Wire { w with fel := w.fel ++ [op] } w1) : Logs [op] w w1 :=
  logs_wire (show Logs [op] w { w with fel := w.fel ++ [op] } from
    ⟨rfl, rfl, rfl, rfl, rfl, rfl⟩) h

/-- The wire trace of the FEL command "version". -/
theorem aw_fel_get_version_emits (w : World) (hw : Acks w.dev) :
    ∃ v w1 t1 t2 t3 reply status, aw_fel_get_version w = .ok v w1 ∧ Logs [.version] w w1 ∧
      w1.usb = w.usb ++ (t1 ++ (t2 ++ t3)) ∧
      AwWrite (aw_fel_request_bytes AW_FEL_VERSION 0 0) t1 ∧
      AwRead 32 reply t2 ∧ AwRead 8 status t3 ∧
      v.soc_id = (le32_at reply 8 >>> 8) &&& 0xFFFF := by
  unfold aw_fel_get_version
  rw [bind_apply]
  obtain ⟨v, w1, t, h, hw1, hu, _, t1, t', rfl, h1, reply, t2, t'', rfl, h2, _, t3, t4,
      rfl, ⟨status, h3⟩, rfl, rfl⟩ :=
    emits_bind (aw_send_fel_request_emits AW_FEL_VERSION 0 0)
      (fun _ => emits_bind (aw_usb_read_emits 32 false (by omega))
        (fun buf => emits_bind aw_read_fel_status_emits
          (fun _ => emits_pure (α := aw_fel_version) _)))
      { w with fel := w.fel ++ [.version] } hw
  exact ⟨_, w1, t1, t2, t3, reply, status, h, logs_one _ _ _ hw1,
    by rw [hu, List.append_nil], h1, h2, h3, rfl⟩

/-- The wire trace of the FEL command "read". -/
theorem aw_fel_read_emits (offset len : Nat) (hlen : len < 2147483648) (w : World)
    (hw : Acks w.dev) :
    ∃ got w1 t1 t2 t3 status, aw_fel_read offset len w = .ok got w1 ∧
      Logs [.read offset len] w w1 ∧ w1.usb = w.usb ++ (t1 ++ (t2 ++ t3)) ∧
      AwWrite (aw_fel_request_bytes AW_FEL_1_READ offset len) t1 ∧
      AwRead len got t2 ∧ AwRead 8 status t3 := by
  unfold aw_fel_read
  rw [bind_apply]
  obtain ⟨v, w1, t, h, hw1, hu, _, t1, t', rfl, h1, p, t0, t'', rfl, rfl, got, t2, t''', rfl,
      h2, _, t3, t4, rfl, ⟨status, h3⟩, rfl, rfl⟩ :=
    emits_bind (aw_send_fel_request_emits AW_FEL_1_READ offset len)
      (fun _ => emits_bind get_progress_emits
        (fun p => emits_bind (aw_usb_read_emits len p hlen)
          (fun buf => emits_bind aw_read_fel_status_emits
            (fun _ => emits_pure buf))))
      { w with fel := w.fel ++ [.read offset len] } hw
  exact ⟨_, w1, t1, t2, t3, status, h, logs_one _ _ _ hw1,
    by rw [hu, List.append_nil, List.nil_append], h1, h2, h3⟩

/-- The wire trace of the FEL command "write". -/
theorem aw_fel_write_emits (buf : List Byte) (offset len : Nat) (hlen : len < 2147483648)
    (hbuf : len ≤ buf.length) (w : World) (hni : ¬ interlock w offset len)
    (hw : Acks w.dev) :
    ∃ w1 t1 t2 t3 status, aw_fel_write buf offset len w = .ok () w1 ∧
      Logs [.write offset (buf.take len)] w w1 ∧ w1.usb = w.usb ++ (t1 ++ (t2 ++ t3)) ∧
      AwWrite (aw_fel_request_bytes AW_FEL_1_WRITE offset len) t1 ∧
      AwWrite (buf.take len) t2 ∧ AwRead 8 status t3 := by
  unfold interlock at hni
  unfold aw_fel_write
  rw [if_neg hni, bind_apply]
  obtain ⟨v, w1, t, h, hw1, hu, _, t1, t', rfl, h1, _, t2, t'', rfl, h2, status, h3⟩ :=
    emits_bind (aw_send_fel_request_emits AW_FEL_1_WRITE offset len)
      (fun _ => emits_bind (aw_usb_write_emits buf len w.progress hlen hbuf)
        (fun _ => aw_read_fel_status_emits))
      { w with fel := w.fel ++ [.write offset (buf.take len)] } hw
  exact ⟨w1, t1, t2, t'', status, h, logs_one _ _ _ hw1, hu, h1, h2, h3⟩

/-- The wire trace of the FEL command "execute". -/
theorem aw_fel_execute_emits (offset : Nat) (w : World) (hw : Acks w.dev) :
    ∃ w1 t1 t3 status, aw_fel_execute offset w = .ok () w1 ∧
      Logs [.exec offset] w w1 ∧ w1.usb = w.usb ++ (t1 ++ t3) ∧
      AwWrite (aw_fel_request_bytes AW_FEL_1_EXEC offset 0) t1 ∧ AwRead 8 status t3 := by
  unfold aw_fel_execute
  rw [bind_apply]
  obtain ⟨v, w1, t, h, hw1, hu, _, t1, t3, rfl, h1, status, h3⟩ :=
    emits_bind (aw_send_fel_request_emits AW_FEL_1_EXEC offset 0)
      (fun _ => aw_read_fel_status_emits)
      { w with fel := w.fel ++ [.exec offset] } hw
  exact ⟨w1, t1, t3, status, h, logs_one _ _ _ hw1, hu, h1, h3⟩
theorem a20_dev_acks : Acks a20_dev := by
  intro h
  rfl
/-- A `char` array holds the C string `s` (which has no NUL) exactly when it starts
with the bytes of `s` and the next byte is NUL. -/
theorem c_str_eq_iff : ∀ (s buf : List Byte), (∀ b ∈ s, b ≠ 0) →
    (c_str buf = s ↔ buf.take s.length = s ∧ buf.getD s.length 0 = 0) := by
  intro s
  induction s with
  | nil =>
    intro buf _
    cases buf with
    | nil => simp [c_str]
    | cons b r =>
      by_cases hb : b = 0 <;> simp [c_str, List.takeWhile_cons, hb]
  | cons a s ih =>
    intro buf hs
    have ha : a ≠ 0 := hs a (List.mem_cons_self _ _)
    have hs1 : ∀ b ∈ s, b ≠ 0 := fun b hb => hs b (List.mem_cons_of_mem _ hb)
    cases buf with
    | nil => simp [c_str]
    | cons b r =>
      have ih1 := ih r hs1
      unfold c_str at ih1 ⊢
      rw [List.takeWhile_cons]
      by_cases hb : b = 0
      · subst hb
        simp
        intro h
        exact absurd h.symm ha
      · have hb1 : (b != 0) = true := by simp [hb]
        rw [hb1, if_pos rfl]
        simp only [List.cons.injEq, List.length_cons, List.take_succ_cons, List.getD_cons_succ]
        rw [ih1]
        tauto
theorem logs_trans {xs ys : List FelOp} {a b c : World} (h1 : Logs xs a b)
    (h2 : Logs ys b c) : Logs (xs ++ ys) a c := by
  obtain ⟨h11, h12, h13, h14, h15, h16⟩ := h1
  obtain ⟨h21, h22, h23, h24, h25, h26⟩ := h2
  exact ⟨h21.trans h11, by rw [h22, h12, List.append_assoc], h23.trans h13, h24.trans h14,
    h25.trans h15, h26.trans h16⟩

theorem logs_nil (w : World) : Logs [] w w := ⟨rfl, by simp, rfl, rfl, rfl, rfl⟩

theorem performs_bind {α β : Type} {P : α → List FelOp → Prop}
    {Q : α → β → List FelOp → Prop} {m : FelM α} {f : α → FelM β}
    (hm : Performs P m) (hf : ∀ a, Performs (Q a) (f a)) :
    Performs (fun b ops => ∃ a o1 o2, ops = o1 ++ o2 ∧ P a o1 ∧ Q a b o2) (m >>= f) := by
  intro w hw hun
  obtain ⟨a, w1, o1, h1, hl1, hp⟩ := hm w hw hun
  obtain ⟨b, w2, o2, h2, hl2, hq⟩ := hf a w1 (by rw [hl1.1]; exact hw)
    (by rw [hl1.2.2.2.2.1]; exact hun)
  exact ⟨b, w2, o1 ++ o2, by rw [bind_apply, h1]; exact h2, logs_trans hl1 hl2,
    a, o1, o2, rfl, hp, hq⟩

theorem performs_pure {α : Type} (a : α) :
    Performs (fun b ops => b = a ∧ ops = []) (pure a : FelM α) :=
  fun w _ _ => ⟨a, w, [], rfl, logs_nil w, rfl, rfl⟩

theorem performs_mono {α : Type} {P Q : α → List FelOp → Prop} {m : FelM α}
    (hm : Performs P m) (h : ∀ a ops, P a ops → Q a ops) : Performs Q m := by
  intro w hw hun
  obtain ⟨a, w1, ops, h1, hl, hp⟩ := hm w hw hun
  exact ⟨a, w1, ops, h1, hl, h a ops hp⟩

theorem aw_fel_write_performs (buf : List Byte) (offset len : Nat) :
    Performs (fun _ ops => ops = [.write offset (buf.take len)])
      (aw_fel_write buf offset len) := by
  intro w hw hun
  obtain ⟨w1, h1, hl⟩ := aw_fel_write_ok buf offset len w
    (not_interlock_of_unarmed w offset len hun) hw
  exact ⟨(), w1, _, h1, hl, rfl⟩

theorem aw_fel_execute_performs (offset : Nat) :
    Performs (fun _ ops => ops = [.exec offset]) (aw_fel_execute offset) := by
  intro w hw _
  obtain ⟨w1, _, _, _, h, hl, _⟩ := aw_fel_execute_emits offset w hw
  exact ⟨(), w1, _, h, hl, rfl⟩

theorem aw_fel_read_performs (offset len : Nat) (hlen : len < 2147483648) :
    Performs (fun got ops => ops = [.read offset len] ∧ got.length = len)
      (aw_fel_read offset len) := by
  intro w hw _
  obtain ⟨got, w1, _, _, _, _, h, hl, _, _, ⟨_, _, _, _, hg, _⟩, _⟩ :=
    aw_fel_read_emits offset len hlen w hw
  exact ⟨got, w1, _, h, hl, rfl, hg⟩

theorem aw_get_ttbr0_performs (info : soc_sram_info) :
    Performs (fun _ ops => ops =
        [.write info.scratch_addr (words_le [0xee122f10, 0xe58f2008, 0xe12fff1e]),
         .exec info.scratch_addr, .read (u32 (info.scratch_addr + 0x14)) 4])
      (aw_get_ttbr0 info) := by
  unfold aw_get_ttbr0
  refine performs_mono (performs_bind (aw_fel_write_performs _ _ _)
    (fun _ => performs_bind (aw_fel_execute_performs _)
      (fun _ => performs_bind (aw_fel_read_performs _ 4 (by omega))
        (fun r => performs_pure (le32_at r 0))))) ?_
  rintro v ops ⟨_, o1, _, rfl, rfl, _, o2, _, rfl, rfl, r, o3, _, rfl, ⟨rfl, _⟩, _, rfl⟩
  rfl

theorem aw_get_sctlr_performs (info : soc_sram_info) :
    Performs (fun _ ops => ops =
        [.write info.scratch_addr (words_le [0xee112f10, 0xe58f2008, 0xe12fff1e]),
         .exec info.scratch_addr, .read (u32 (info.scratch_addr + 0x14)) 4])
      (aw_get_sctlr info) := by
  unfold aw_get_sctlr
  refine performs_mono (performs_bind (aw_fel_write_performs _ _ _)
    (fun _ => performs_bind (aw_fel_execute_performs _)
      (fun _ => performs_bind (aw_fel_read_performs _ 4 (by omega))
        (fun r => performs_pure (le32_at r 0))))) ?_
  rintro v ops ⟨_, o1, _, rfl, rfl, _, o2, _, rfl, rfl, r, o3, _, rfl, ⟨rfl, _⟩, _, rfl⟩
  rfl
theorem tt_rewrite_getD (tt : List Nat) (i : Nat) (hi : i < tt.length) (h : i ≠ 0xFFF) :
    (tt_rewrite tt).getD i 0 = tt_dram_entry i (tt.getD i 0) := by
  unfold tt_rewrite
  simp only [List.getD_eq_getElem?_getD]
  rw [List.getElem?_set_ne (Ne.symm h)]
  simp [List.getElem?_enum, hi, List.getElem?_eq_getElem]

theorem tt_rewrite_length (tt : List Nat) : (tt_rewrite tt).length = tt.length := by
  simp [tt_rewrite]

theorem texcb_testBit (e b : Nat) :
    ((e &&& 0xFFFF8FF3) ||| 0x1000).testBit b =
      if b = 12 then true
      else if b = 13 ∨ b = 14 ∨ b = 3 ∨ b = 2 ∨ 32 ≤ b then false
      else e.testBit b := by
  rw [Nat.testBit_or, Nat.testBit_and]
  by_cases hb : b < 32
  · have hc : ∀ b < 32, (0xFFFF8FF3 : Nat).testBit b =
        decide (¬ (b = 2 ∨ b = 3 ∨ b = 12 ∨ b = 13 ∨ b = 14)) := by decide
    have hs : ∀ b < 32, (0x1000 : Nat).testBit b = decide (b = 12) := by decide
    rw [hc b hb, hs b hb]
    by_cases h12 : b = 12
    · simp [h12]
    · rw [decide_eq_false h12, if_neg h12, Bool.or_false]
      by_cases hx : b = 13 ∨ b = 14 ∨ b = 3 ∨ b = 2 ∨ 32 ≤ b
      · have hy : ¬ ¬ (b = 2 ∨ b = 3 ∨ b = 12 ∨ b = 13 ∨ b = 14) := by omega
        rw [decide_eq_false hy, if_pos hx, Bool.and_false]
      · have hy : ¬ (b = 2 ∨ b = 3 ∨ b = 12 ∨ b = 13 ∨ b = 14) := by omega
        rw [decide_eq_true hy, if_neg hx, Bool.and_true]
  · have h1 : (0xFFFF8FF3 : Nat).testBit b = false :=
      Nat.testBit_lt_two_pow (lt_of_lt_of_le (by norm_num) (Nat.pow_le_pow_right (by norm_num) (by omega : 32 ≤ b)))
    have h2 : (0x1000 : Nat).testBit b = false :=
      Nat.testBit_lt_two_pow (lt_of_lt_of_le (by norm_num) (Nat.pow_le_pow_right (by norm_num) (by omega : 32 ≤ b)))
    rw [h1, h2]
    have h12 : ¬ b = 12 := by omega
    have hx : b = 13 ∨ b = 14 ∨ b = 3 ∨ b = 2 ∨ 32 ≤ b := by omega
    simp [h12, hx]
theorem words_le_length (ws : List Nat) : (words_le ws).length = 4 * ws.length := by
  unfold words_le
  induction ws with
  | nil => rfl
  | cons a r ih =>
    rw [List.map_cons, List.flatten_cons, List.length_append, ih, List.length_cons]
    simp only [htole32, List.length_cons, List.length_nil]
    omega

theorem aw_restore_and_enable_mmu_performs (info : soc_sram_info) (tt : List Nat) :
    Performs (fun _ ops => ∃ ttbr0, ops =
        [.write info.scratch_addr (words_le [0xee122f10, 0xe58f2008, 0xe12fff1e]),
         .exec info.scratch_addr, .read (u32 (info.scratch_addr + 0x14)) 4,
         .write ttbr0 ((words_le (tt_rewrite tt)).take (16 * 1024)),
         .write info.scratch_addr
           (words_le [0xe3a00000, 0xee080f17, 0xee070f15, 0xee070fd5, 0xf57ff04f,
             0xf57ff06f, 0xee110f10, 0xe3800001, 0xe3800a01, 0xe3800b02, 0xee010f10,
             0xe12fff1e]),
         .exec info.scratch_addr])
      (aw_restore_and_enable_mmu info tt) := by
  unfold aw_restore_and_enable_mmu
  refine performs_mono (performs_bind (aw_get_ttbr0_performs info)
    (fun ttbr0 => performs_bind (aw_fel_write_performs _ ttbr0 _)
      (fun _ => performs_bind (aw_fel_write_performs _ _ _)
        (fun _ => aw_fel_execute_performs _)))) ?_
  rintro v ops ⟨ttbr0, o1, _, rfl, rfl, _, o2, _, rfl, rfl, _, o3, _, rfl, rfl, rfl⟩
  exact ⟨ttbr0, rfl⟩

theorem shift_and_one (x k : Nat) : ((x >>> k) &&& 1) = if x.testBit k then 1 else 0 := by
  rw [Nat.and_one_is_mod, Nat.shiftRight_eq_div_pow, Nat.testBit_to_div_mod]
  by_cases h : x / 2 ^ k % 2 = 1
  · simp [h]
  · have h0 : x / 2 ^ k % 2 = 0 := by omega
    simp [h0]

/-- The sanity loop passes exactly when every entry is a section descriptor (bit 1 set,
bit 18 clear) that maps its own index. -/
theorem mmu_sanity_none_iff : ∀ (l : List Nat) (k : Nat),
    mmu_sanity k l = none ↔
      ∀ j, j < l.length →
        (l.getD j 0).testBit 1 = true ∧ (l.getD j 0).testBit 18 = false ∧
          (l.getD j 0) >>> 20 = k + j := by
  intro l
  induction l with
  | nil => intro k; simp [mmu_sanity]
  | cons e rest ih =>
    intro k
    unfold mmu_sanity
    rw [shift_and_one, shift_and_one]
    constructor
    · intro h
      by_cases h1 : e.testBit 1 = true
      · by_cases h18 : e.testBit 18 = true
        · simp [h1, h18] at h
        · by_cases h20 : e >>> 20 = k
          · simp only [h1, h18, h20, if_true, ne_eq, not_true_eq_false, if_false,
              Bool.false_eq_true, or_self] at h
            intro j hj
            cases j with
            | zero => exact ⟨h1, by simpa using h18, by simpa using h20⟩
            | succ j =>
              have := (ih (k + 1)).mp h j (by simpa using hj)
              simp only [List.getD_cons_succ]
              refine ⟨this.1, this.2.1, ?_⟩
              rw [this.2.2]; omega
          · simp [h1, h18, h20] at h
      · simp [h1] at h
    · intro h
      have h0 := h 0 (by simp)
      simp only [List.getD_cons_zero, Nat.add_zero] at h0
      obtain ⟨h1, h18, h20⟩ := h0
      simp only [h1, h18, h20, if_true, ne_eq, not_true_eq_false, if_false,
        Bool.false_eq_true, or_self]
      rw [ih (k + 1)]
      intro j hj
      have := h (j + 1) (by simpa using hj)
      simp only [List.getD_cons_succ] at this
      refine ⟨this.1, this.2.1, ?_⟩
      rw [this.2.2]; omega
theorem bind_ok {α β : Type} {m : FelM α} {f : α → FelM β} {w w1 : World} {a : α}
    (h : m w = .ok a w1) : (m >>= f) w = f a w1 := by
  rw [bind_apply, h]

theorem bind_exit {α β : Type} {m : FelM α} {f : α → FelM β} {w w1 : World} {d : Diag}
    (h : m w = .exit d w1) : (m >>= f) w = .exit d w1 := by
  rw [bind_apply, h]

theorem keeps_ok {R : World → World → Prop} {D : Diag → Prop} {α : Type} {m : FelM α}
    (hm : Keeps R D m) {w w1 : World} {a : α} (h : m w = .ok a w1) : R w w1 := by
  have := (hm w).1
  rw [h] at this
  exact this

theorem cmd_diag_true : ∀ d, CmdDiag d → (fun _ : Diag => True) d := fun _ _ => trivial
/-- The control flow of `aw_backup_and_disable_mmu` after its two probes. -/
theorem aw_backup_and_disable_mmu_after_probes (info : soc_sram_info) (w w1 w2 : World)
    (ttbr0 sctlr : Nat)
    (h1 : aw_get_ttbr0 info w = .ok ttbr0 w1) (h2 : aw_get_sctlr info w1 = .ok sctlr w2) :
    ((sctlr &&& 1) = 0 → aw_backup_and_disable_mmu info w = .ok none w2) ∧
    ((sctlr &&& 1) ≠ 0 → ((sctlr >>> 28) &&& 1) ≠ 0 →
      aw_backup_and_disable_mmu info w = .exit .tex_remap_enabled w2) ∧
    ((sctlr &&& 1) ≠ 0 → ((sctlr >>> 28) &&& 1) = 0 → (ttbr0 &&& 0x3FFF) ≠ 0 →
      aw_backup_and_disable_mmu info w = .exit .unexpected_ttbr0 w2) ∧
    ((sctlr &&& 1) ≠ 0 → ((sctlr >>> 28) &&& 1) = 0 → (ttbr0 &&& 0x3FFF) = 0 →
      ∀ raw w3, aw_fel_read ttbr0 (16 * 1024) w2 = .ok raw w3 →
        (∀ d, mmu_sanity 0 ((List.range 4096).map (fun i => le32_at raw (4 * i))) = some d →
          aw_backup_and_disable_mmu info w = .exit d w3) ∧
        (mmu_sanity 0 ((List.range 4096).map (fun i => le32_at raw (4 * i))) = none →
          aw_backup_and_disable_mmu info w =
            (aw_fel_write (words_le [0xee110f10, 0xe3c00001, 0xe3c00a01, 0xe3c00b02,
                0xee010f10, 0xe12fff1e]) info.scratch_addr 24 >>= fun _ =>
              aw_fel_execute info.scratch_addr >>= fun _ =>
                pure (some ((List.range 4096).map (fun i => le32_at raw (4 * i))))) w3)) := by
  unfold aw_backup_and_disable_mmu
  rw [bind_ok h1, bind_ok h2]
  refine ⟨?_, ?_, ?_, ?_⟩
  · intro c0
    rw [if_pos c0]; rfl
  · intro c0 c28
    rw [if_neg c0, if_pos c28]; rfl
  · intro c0 c28 cl
    rw [if_neg c0, if_neg (not_not.mpr c28), if_pos cl]; rfl
  · intro c0 c28 cl raw w3 hread
    rw [if_neg c0, if_neg (not_not.mpr c28), if_neg (not_not.mpr cl), bind_ok hread]
    generalize List.map (fun i => le32_at raw (4 * i)) (List.range 4096) = T
    constructor
    · intro d hs
      simp only [hs]
      rfl
    · intro hs
      simp only [hs]
theorem leads_bind {α β : Type} {D : Diag → Prop} {P : α → World → Prop}
    {k : α → FelM Unit} {m : FelM β} {f : β → FelM Unit}
    (hm : Keeps Ext D m) (hf : ∀ b, Leads D P k (f b)) : Leads D P k (m >>= f) := by
  intro w
  have h := hm w
  cases hmw : m w with
  | ok b w1 =>
    rw [hmw] at h
    have he : Ext w w1 := h.1
    rw [bind_ok hmw]
    rcases hf b w1 with ⟨d, w2, h2, hd⟩ | ⟨a, w2, h2, hdev, hsz, hp⟩
    · exact Or.inl ⟨d, w2, h2, hd⟩
    · exact Or.inr ⟨a, w2, h2, hdev.trans he.1, hsz.trans he.2.2.2.2.1, hp⟩
  | exit d w1 =>
    rw [hmw] at h
    exact Or.inl ⟨d, w1, bind_exit hmw, h.2 d rfl⟩

theorem leads_die {α : Type} {D : Diag → Prop} {P : α → World → Prop} {k : α → FelM Unit}
    (d : Diag) (hd : D d) : Leads D P k (die d) :=
  fun w => Or.inl ⟨d, w, rfl, hd⟩

theorem leads_ite {α : Type} {D : Diag → Prop} {P : α → World → Prop} {k : α → FelM Unit}
    (c : Prop) [Decidable c] {m n : FelM Unit} (hm : Leads D P k m) (hn : Leads D P k n) :
    Leads D P k (if c then m else n) := by
  split
  · exact hm
  · exact hn

/-- The thunk segment of the loader either ends early or hands over to `spl_verify`
right after the thunk was executed. -/
theorem spl_thunk_leads {D : Diag → Prop} (hD : ∀ d, CmdDiag d → D d)
    (h6 : D .spl_bad_thunk_size) (thunk : List Nat) (info : soc_sram_info)
    (sbs : List sram_swap_buffers) (tt : Option (List Nat)) (i : Nat) :
    Leads D (fun (p : soc_sram_info × Option (List Nat)) w2 =>
        p.1 = info ∧ w2.fel.getLast? = some (.exec info.thunk_addr))
      (fun p => spl_verify p.1 p.2) (spl_thunk thunk info sbs tt i) := by
  rw [spl_thunk_eq]
  refine leads_ite _ (leads_die _ h6) ?_
  refine leads_bind (aw_fel_write_keeps hD _ _ _) (fun _ => ?_)
  intro w
  have h := logged_keeps (.exec info.thunk_addr)
    (aw_send_fel_request AW_FEL_1_EXEC info.thunk_addr 0 >>= fun _ => aw_read_fel_status)
    (keeps_bind wire_trans3 (aw_send_fel_request_keeps _ _ _)
      (fun _ => aw_read_fel_status_keeps)) w
  have hx : aw_fel_execute info.thunk_addr w =
      (log_fel (.exec info.thunk_addr) >>= fun _ =>
        aw_send_fel_request AW_FEL_1_EXEC info.thunk_addr 0 >>= fun _ =>
          aw_read_fel_status) w := rfl
  rw [← hx] at h
  cases hmw : aw_fel_execute info.thunk_addr w with
  | ok b w1 =>
    rw [hmw] at h
    have hl : Logs [.exec info.thunk_addr] w w1 := h.1
    refine Or.inr ⟨(info, tt), w1, bind_ok hmw, hl.1, hl.2.2.2.2.1, rfl, ?_⟩
    rw [hl.2.1]
    simp
  | exit d w1 =>
    rw [hmw] at h
    exact Or.inl ⟨d, w1, bind_exit hmw, hD d (Or.inl (h.2 d rfl))⟩
theorem spl_finish_eq (thunk : List Nat) (info : soc_sram_info) (sbs : List sram_swap_buffers)
    (spl_len : Nat) (tt : Option (List Nat)) (st : Staging) :
    spl_finish thunk info sbs spl_len tt st =
      (if spl_len > (if info.thunk_addr < st.spl_len_limit then info.thunk_addr
          else st.spl_len_limit) then die .spl_too_large
       else
        (if st.len > 0 then aw_fel_write st.buf st.cur_addr st.len else pure ()) >>= fun _ =>
          spl_thunk thunk info sbs tt st.i) := rfl

theorem spl_finish_leads {D : Diag → Prop} (hD : ∀ d, CmdDiag d → D d)
    (h5 : D .spl_too_large) (h6 : D .spl_bad_thunk_size) (thunk : List Nat)
    (info : soc_sram_info) (sbs : List sram_swap_buffers) (spl_len : Nat)
    (tt : Option (List Nat)) (st : Staging) :
    Leads D (fun (p : soc_sram_info × Option (List Nat)) w2 =>
        p.1 = info ∧ w2.fel.getLast? = some (.exec info.thunk_addr))
      (fun p => spl_verify p.1 p.2) (spl_finish thunk info sbs spl_len tt st) := by
  rw [spl_finish_eq]
  refine leads_ite _ (leads_die _ h5) ?_
  refine leads_bind ?_ (fun _ => spl_thunk_leads hD h6 thunk info sbs tt st.i)
  exact keeps_ite _ (aw_fel_write_keeps hD _ _ _) (keeps_pure ext_refl _)

theorem spl_prepare_keeps {D : Diag → Prop} (hD : ∀ d, CmdDiag d → D d)
    (h1 : D .tex_remap_enabled) (h2 : D .unexpected_ttbr0) (h3 : D .mmu_not_section)
    (h4 : D .mmu_not_direct) (info : soc_sram_info) : Keeps Ext D (spl_prepare info) := by
  unfold spl_prepare
  refine keeps_bind ext_trans ?_ (fun _ => ?_)
  · exact keeps_ite _ (aw_enable_l2_cache_keeps hD _) (keeps_pure ext_refl _)
  · exact keeps_bind ext_trans (aw_get_stackinfo_keeps hD _)
      (fun _ => aw_backup_and_disable_mmu_keeps hD h1 h2 h3 h4 _)

theorem spl_stage_and_run_leads {D : Diag → Prop} (hD : ∀ d, CmdDiag d → D d)
    (h1 : D .tex_remap_enabled) (h2 : D .unexpected_ttbr0) (h3 : D .mmu_not_section)
    (h4 : D .mmu_not_direct) (h5 : D .spl_too_large) (h6 : D .spl_bad_thunk_size)
    (thunk : List Nat) (info : soc_sram_info) (sbs : List sram_swap_buffers)
    (buf : List Byte) (spl_len : Nat) :
    Leads D (fun (p : soc_sram_info × Option (List Nat)) w2 =>
        p.1 = info ∧ w2.fel.getLast? = some (.exec info.thunk_addr))
      (fun p => spl_verify p.1 p.2) (spl_stage_and_run thunk info sbs buf spl_len) := by
  rw [spl_stage_and_run_eq]
  exact leads_bind (spl_prepare_keeps hD h1 h2 h3 h4 info)
    (fun tt => leads_bind (spl_stage_loop_keeps hD _ _ _)
      (fun st => spl_finish_leads hD h5 h6 thunk info sbs spl_len tt st))

/-- After a successful lookup and header check the loader is `spl_stage_and_run`. -/
theorem aw_fel_write_and_execute_spl_eq (thunk : List Nat) (buf : List Byte) (len : Nat)
    (w w0 : World) (info : soc_sram_info) (sbs : List sram_swap_buffers) (n : Nat)
    (hinfo : aw_fel_get_sram_info w = .ok info w0) (hsb : info.swap_buffers = some sbs)
    (hv : spl_check_header buf len = .ok n) :
    aw_fel_write_and_execute_spl thunk buf len w
      = spl_stage_and_run thunk info sbs buf n w0 := by
  unfold aw_fel_write_and_execute_spl
  rw [bind_ok hinfo]
  simp only [hsb, hv]

/-- The loader either ends with a diagnostic other than a failure code of the SPL, or
hands over to `spl_verify`, for the descriptor `info` that the lookup returned, right
after the thunk was executed. -/
theorem aw_fel_write_and_execute_spl_leads (thunk : List Nat) (buf : List Byte) (len : Nat)
    (w : World) :
    (∃ d w1, aw_fel_write_and_execute_spl thunk buf len w = .exit d w1 ∧
      ∀ s, d ≠ .spl_failure_code s) ∨
    (∃ info tt w0 w2, aw_fel_get_sram_info w = .ok info w0 ∧
      aw_fel_write_and_execute_spl thunk buf len w = spl_verify info tt w2 ∧
      w2.dev = w.dev ∧ w2.uboot_size = w.uboot_size ∧
      w2.fel.getLast? = some (.exec info.thunk_addr)) := by
  have hf := aw_fel_get_sram_info_frame w
  cases hi : aw_fel_get_sram_info w with
  | exit d w0 =>
    rw [hi] at hf
    refine Or.inl ⟨d, w0, ?_, ?_⟩
    · unfold aw_fel_write_and_execute_spl
      exact bind_exit hi
    · intro s hs
      have := hf.2.2.2.2.2 d rfl
      rw [this] at hs
      cases hs
  | ok info w0 =>
    rw [hi] at hf
    have hdev : w0.dev = w.dev := hf.1
    have hsz : w0.uboot_size = w.uboot_size := hf.2.2.2.2.1
    cases hsb : info.swap_buffers with
    | none =>
      refine Or.inl ⟨.spl_unsupported_soc, w0, ?_, fun s hs => by cases hs⟩
      unfold aw_fel_write_and_execute_spl
      rw [bind_ok hi]
      simp only [hsb]
      rfl
    | some sbs =>
      cases hv : spl_check_header buf len with
      | error d =>
        refine Or.inl ⟨d, w0, ?_, ?_⟩
        · unfold aw_fel_write_and_execute_spl
          rw [bind_ok hi]
          simp only [hsb, hv]
          rfl
        · intro s hs
          subst hs
          unfold spl_check_header at hv
          split at hv
          · cases hv
          · simp only at hv
            split at hv
            · cases hv
            · split at hv <;> cases hv
      | ok n =>
        rw [aw_fel_write_and_execute_spl_eq thunk buf len w w0 info sbs n hi hsb hv]
        rcases spl_stage_and_run_leads (D := fun d => ∀ s, d ≠ .spl_failure_code s)
            (fun d hd s hs => by subst hs; rcases hd with h | h <;> cases h)
            (fun s hs => by cases hs) (fun s hs => by cases hs) (fun s hs => by cases hs)
            (fun s hs => by cases hs) (fun s hs => by cases hs) (fun s hs => by cases hs)
            thunk info sbs buf n w0 with
          ⟨d, w1, h1, hd⟩ | ⟨⟨info1, tt⟩, w2, h2, hdev2, hsz2, hinfo1, hp⟩
        · exact Or.inl ⟨d, w1, h1, hd⟩
        · simp only at hinfo1
          subst hinfo1
          exact Or.inr ⟨info1, tt, w0, w2, rfl, h2, hdev2.trans hdev, hsz2.trans hsz, hp⟩

theorem egon_fel_c_str (sig : List Byte) (h : sig.length = 8) :
    c_str (sig ++ [0]) = str_eGON_FEL ↔ sig = str_eGON_FEL := by
  rw [c_str_eq_iff str_eGON_FEL (sig ++ [0]) (by decide!)]
  have h8 : str_eGON_FEL.length = 8 := rfl
  rw [h8, List.take_append_of_le_length (Nat.le_of_eq h.symm), List.take_of_length_le
    (Nat.le_of_eq h), List.getD_eq_getElem?_getD,
    List.getElem?_append_right (Nat.le_of_eq h), h]
  simp

/-- The outcome of `spl_verify`, given the 8 bytes read back. -/
theorem spl_verify_gate (info : soc_sram_info) (tt : Option (List Nat)) (w w1 : World)
    (sig : List Byte) (hread : aw_fel_read (u32 (info.spl_addr + 4)) 8 w = .ok sig w1)
    (hlen : sig.length = 8) :
    (sig ≠ str_eGON_FEL →
      spl_verify info tt w = .exit (.spl_failure_code (c_str (sig ++ [0]))) w1) ∧
    (sig = str_eGON_FEL → Acks w1.dev → w1.uboot_size = 0 →
      ∃ w2, spl_verify info tt w = .ok () w2 ∧ Ext w1 w2) := by
  unfold spl_verify
  rw [bind_ok hread]
  constructor
  · intro hne
    have : c_str (sig ++ [0]) ≠ str_eGON_FEL := fun h => hne ((egon_fel_c_str sig hlen).mp h)
    simp only [this, ne_eq, not_false_eq_true, if_true]
    rfl
  · intro heq hacks hun
    have : c_str (sig ++ [0]) = str_eGON_FEL := (egon_fel_c_str sig hlen).mpr heq
    simp only [this, ne_eq, not_true_eq_false, if_false]
    cases tt with
    | none => exact ⟨w1, rfl, ext_refl w1⟩
    | some t =>
      obtain ⟨_, w2, ops, h2, hl, _⟩ := aw_restore_and_enable_mmu_performs info t w1 hacks hun
      exact ⟨w2, h2, ext_of_logs hl⟩
theorem spl_stage_loop_stop (spl_addr : Nat) (sb : sram_swap_buffers)
    (rest : List sram_swap_buffers) (st : Staging) (hs : sb.size = 0) :
    spl_stage_loop spl_addr (sb :: rest) st = pure st := by
  rw [spl_stage_loop, if_pos hs]

theorem spl_stage_loop_cons (spl_addr : Nat) (sb : sram_swap_buffers)
    (rest : List sram_swap_buffers) (i limit cur : Nat) (buf : List Byte) (len limit1 : Nat)
    (hs : sb.size ≠ 0)
    (hl : limit1 = if sb.buf2 ≥ spl_addr ∧ sb.buf2 < u32 (spl_addr + limit) then
      sub32 sb.buf2 spl_addr else limit) :
    spl_stage_loop spl_addr (sb :: rest) ⟨i, limit, cur, buf, len⟩ =
      spl_stage_below sb ⟨i, limit1, cur, buf, len⟩ >>= fun st2 =>
        spl_stage_swap sb st2 >>= fun st3 =>
          spl_stage_loop spl_addr rest { st3 with i := st3.i + 1 } := by
  rw [spl_stage_loop, if_neg hs]
  subst hl
  by_cases hc : sb.buf2 ≥ spl_addr ∧ sb.buf2 < u32 (spl_addr + limit)
  · simp only [hc, and_self, if_true]
  · simp only [hc, if_false]

theorem spl_stage_below_write (sb : sram_swap_buffers) (i limit cur : Nat) (buf : List Byte)
    (len tmp cur1 len1 : Nat) (h : len > 0 ∧ cur < sb.buf1)
    (ht : tmp = if sub32 sb.buf1 cur > len then u32 len else sub32 sb.buf1 cur)
    (hc : cur1 = u32 (cur + tmp)) (hl : len1 = sub64 len tmp) :
    spl_stage_below sb ⟨i, limit, cur, buf, len⟩ =
      aw_fel_write buf cur tmp >>= fun _ => pure ⟨i, limit, cur1, buf.drop tmp, len1⟩ := by
  subst ht hc hl
  unfold spl_stage_below
  rw [if_pos h]

theorem spl_stage_below_skip (sb : sram_swap_buffers) (st : Staging)
    (h : ¬ (st.len > 0 ∧ st.cur_addr < sb.buf1)) : spl_stage_below sb st = pure st := by
  unfold spl_stage_below
  rw [if_neg h]

theorem spl_stage_swap_write (sb : sram_swap_buffers) (i limit cur : Nat) (buf : List Byte)
    (len tmp cur1 len1 : Nat) (h : len > 0 ∧ cur = sb.buf1)
    (ht : tmp = if sb.size > len then u32 len else sb.size)
    (hc : cur1 = u32 (cur + tmp)) (hl : len1 = sub64 len tmp) :
    spl_stage_swap sb ⟨i, limit, cur, buf, len⟩ =
      aw_fel_write buf sb.buf2 tmp >>= fun _ => pure ⟨i, limit, cur1, buf.drop tmp, len1⟩ := by
  subst ht hc hl
  unfold spl_stage_swap
  rw [if_pos h]

theorem spl_stage_swap_skip (sb : sram_swap_buffers) (st : Staging)
    (h : ¬ (st.len > 0 ∧ st.cur_addr = sb.buf1)) : spl_stage_swap sb st = pure st := by
  unfold spl_stage_swap
  rw [if_neg h]

/-- One iteration of the swap-buffer loop in which both conditional writes happen. -/
theorem spl_stage_loop_both (spl_addr : Nat) (sb : sram_swap_buffers)
    (rest : List sram_swap_buffers) (i limit cur : Nat) (buf : List Byte)
    (len limit1 tmp1 cur1 len1 tmp2 cur2 len2 : Nat)
    (hs : sb.size ≠ 0)
    (hl : limit1 = if sb.buf2 ≥ spl_addr ∧ sb.buf2 < u32 (spl_addr + limit) then
      sub32 sb.buf2 spl_addr else limit)
    (h1 : len > 0 ∧ cur < sb.buf1)
    (ht1 : tmp1 = if sub32 sb.buf1 cur > len then u32 len else sub32 sb.buf1 cur)
    (hc1 : cur1 = u32 (cur + tmp1)) (hl1 : len1 = sub64 len tmp1)
    (h2 : len1 > 0 ∧ cur1 = sb.buf1)
    (ht2 : tmp2 = if sb.size > len1 then u32 len1 else sb.size)
    (hc2 : cur2 = u32 (cur1 + tmp2)) (hl2 : len2 = sub64 len1 tmp2) :
    spl_stage_loop spl_addr (sb :: rest) ⟨i, limit, cur, buf, len⟩ =
      aw_fel_write buf cur tmp1 >>= fun _ =>
        aw_fel_write (buf.drop tmp1) sb.buf2 tmp2 >>= fun _ =>
          spl_stage_loop spl_addr rest ⟨i + 1, limit1, cur2, (buf.drop tmp1).drop tmp2, len2⟩ := by
  rw [spl_stage_loop_cons spl_addr sb rest i limit cur buf len limit1 hs hl,
    spl_stage_below_write sb i limit1 cur buf len tmp1 cur1 len1 h1 ht1 hc1 hl1,
    bind_assoc_fel]
  simp only [pure_bind_fel]
  rw [spl_stage_swap_write sb i limit1 cur1 (buf.drop tmp1) len1 tmp2 cur2 len2 h2 ht2 hc2 hl2,
    bind_assoc_fel]
  simp only [pure_bind_fel]

/-- The swap-buffer loop on the A10/A13/A20 buffers for an SPL of `0x6000` bytes loaded
at address 0: four writes, whatever the device does. -/
theorem spl_stage_loop_24k (buf : List Byte) :
    spl_stage_loop 0 [⟨0x1800, 0x8000, 0x800⟩, ⟨0x5C00, 0x8800, 0x2400⟩, ⟨0, 0, 0⟩]
        { i := 0, spl_len_limit := SPL_LEN_LIMIT, cur_addr := 0, buf := buf, len := 0x6000 }
      = (aw_fel_write buf 0 0x1800 >>= fun _ =>
          aw_fel_write (buf.drop 0x1800) 0x8000 0x800 >>= fun _ =>
          aw_fel_write ((buf.drop 0x1800).drop 0x800) 0x2000 0x3C00 >>= fun _ =>
          aw_fel_write (((buf.drop 0x1800).drop 0x800).drop 0x3C00) 0x8800 0x400 >>= fun _ =>
          pure { i := 2, spl_len_limit := 0x8000, cur_addr := 0x6000,
                 buf := (((buf.drop 0x1800).drop 0x800).drop 0x3C00).drop 0x400,
                 len := 0 }) := by
  rw [spl_stage_loop_both 0 ⟨0x1800, 0x8000, 0x800⟩ _ 0 SPL_LEN_LIMIT 0 buf 0x6000
      0x8000 0x1800 0x1800 0x4800 0x800 0x2000 0x4000
      (by decide) (by decide) (by decide) (by decide) (by decide) (by decide) (by decide)
      (by decide) (by decide) (by decide)]
  rw [spl_stage_loop_both 0 ⟨0x5C00, 0x8800, 0x2400⟩ _ (0 + 1) 0x8000 0x2000 _ 0x4000
      0x8000 0x3C00 0x5C00 0x400 0x400 0x6000 0
      (by decide) (by decide) (by decide) (by decide) (by decide) (by decide) (by decide)
      (by decide) (by decide) (by decide)]
  rw [spl_stage_loop_stop 0 ⟨0, 0, 0⟩ [] _ rfl]
theorem aw_fel_get_sram_info_same (w w0 : World) (info : soc_sram_info)
    (hinfo : aw_fel_get_sram_info w = .ok info w0) :
    w0.dev = w.dev ∧ w0.uboot_size = w.uboot_size := by
  have hf := aw_fel_get_sram_info_frame w
  rw [hinfo] at hf
  exact ⟨hf.1, hf.2.2.2.2.1⟩

/-- The staging of a 24 KiB SPL around the A10/A13/A20 swap buffers: after the
preparation the loader issues four writes and goes on with the size check and the
thunk. -/
theorem spl_staging_walk (thunk : List Nat) (buf : List Byte) (len : Nat)
    (w w0 w1 : World) (info : soc_sram_info) (tt : Option (List Nat))
    (hinfo : aw_fel_get_sram_info w = .ok info w0)
    (hsb : info.swap_buffers
      = some [⟨0x1800, 0x8000, 0x800⟩, ⟨0x5C00, 0x8800, 0x2400⟩, ⟨0, 0, 0⟩])
    (haddr : info.spl_addr = 0)
    (hvalid : spl_check_header buf len = .ok 0x6000)
    (hprep : spl_prepare info w0 = .ok tt w1)
    (hacks : Acks w.dev) (hun : w.uboot_size = 0) :
    ∃ w2, Logs [.write 0 (buf.take 0x1800), .write 0x8000 ((buf.drop 0x1800).take 0x800),
          .write 0x2000 ((buf.drop 0x2000).take 0x3C00),
          .write 0x8800 ((buf.drop 0x5C00).take 0x400)] w1 w2 ∧
      w2.dev = w.dev ∧ w2.uboot_size = 0 ∧
      aw_fel_write_and_execute_spl thunk buf len w =
        (if 0x6000 > (if info.thunk_addr < 0x8000 then info.thunk_addr else 0x8000) then
          die .spl_too_large
         else spl_thunk thunk info
          [⟨0x1800, 0x8000, 0x800⟩, ⟨0x5C00, 0x8800, 0x2400⟩, ⟨0, 0, 0⟩] tt 2) w2 := by
  obtain ⟨hdev0, hsz0⟩ := aw_fel_get_sram_info_same w w0 info hinfo
  have he1 : Ext w0 w1 := keeps_ok (spl_prepare_keeps (D := fun _ => True)
    (fun _ _ => trivial) trivial trivial trivial trivial info) hprep
  have hacks1 : Acks w1.dev := by rw [he1.1, hdev0]; exact hacks
  have hun1 : w1.uboot_size = 0 := by rw [he1.2.2.2.2.1, hsz0]; exact hun
  rw [aw_fel_write_and_execute_spl_eq thunk buf len w w0 info _ 0x6000 hinfo hsb hvalid,
    spl_stage_and_run_eq, bind_ok hprep, haddr, spl_stage_loop_24k]
  obtain ⟨st, w2, ops, h2, hl2, _, o1, _, rfl, rfl, _, o2, _, rfl, rfl, _, o3, _, rfl, rfl,
      _, o4, _, rfl, rfl, rfl, rfl⟩ :=
    performs_bind (aw_fel_write_performs buf 0 0x1800)
      (fun _ => performs_bind (aw_fel_write_performs (buf.drop 0x1800) 0x8000 0x800)
        (fun _ => performs_bind
          (aw_fel_write_performs ((buf.drop 0x1800).drop 0x800) 0x2000 0x3C00)
          (fun _ => performs_bind
            (aw_fel_write_performs (((buf.drop 0x1800).drop 0x800).drop 0x3C00) 0x8800 0x400)
            (fun _ => performs_pure (α := Staging)
              { i := 2, spl_len_limit := 0x8000, cur_addr := 0x6000,
                buf := (((buf.drop 0x1800).drop 0x800).drop 0x3C00).drop 0x400,
                len := 0 })))) w1 hacks1 hun1
  refine ⟨w2, ?_, by rw [hl2.1, he1.1, hdev0], by rw [hl2.2.2.2.2.1]; exact hun1, ?_⟩
  · have e1 : (buf.drop 0x1800).drop 0x800 = buf.drop 0x2000 := by rw [List.drop_drop]
    have e2 : (buf.drop 0x2000).drop 0x3C00 = buf.drop 0x5C00 := by rw [List.drop_drop]
    rw [e1, e2] at hl2
    exact hl2
  · rw [bind_ok h2, spl_finish_eq]
    rfl
theorem getD_replicate_zero (m k : Nat) : (List.replicate m (0 : Byte)).getD k 0 = 0 := by
  rw [List.getD_eq_getElem?_getD, List.getElem?_replicate]
  split <;> rfl

theorem byte_at_padded (hdr : List Byte) (m j : Nat) :
    byte_at (hdr ++ List.replicate m 0) j = if j < hdr.length then byte_at hdr j else 0 := by
  unfold byte_at
  by_cases h : j < hdr.length
  · rw [if_pos h, List.getD_append _ _ _ _ h]
  · rw [if_neg h, List.getD_append_right _ _ _ _ (by omega), getD_replicate_zero]
    rfl

theorem le32_at_padded_low (hdr : List Byte) (m off : Nat) (h : off + 3 < hdr.length) :
    le32_at (hdr ++ List.replicate m 0) off = le32_at hdr off := by
  unfold le32_at
  rw [byte_at_padded, byte_at_padded, byte_at_padded, byte_at_padded,
    if_pos (by omega), if_pos (by omega), if_pos (by omega), if_pos h]

theorem le32_at_padded_high (hdr : List Byte) (m off : Nat) (h : hdr.length ≤ off) :
    le32_at (hdr ++ List.replicate m 0) off = 0 := by
  unfold le32_at
  rw [byte_at_padded, byte_at_padded, byte_at_padded, byte_at_padded,
    if_neg (by omega), if_neg (by omega), if_neg (by omega), if_neg (by omega)]

/-- Zero padding after a 32-byte header adds nothing to the word sum. -/
theorem word_sum_padded (hdr : List Byte) (m : Nat) (hh : hdr.length = 32) :
    ∀ k, ((List.range (8 + k)).map
        (fun i => (le32_at (hdr ++ List.replicate m 0) (4 * i) : Int))).sum
      = ((List.range 8).map (fun i => (le32_at hdr (4 * i) : Int))).sum := by
  intro k
  induction k with
  | zero =>
    have : ∀ i ∈ List.range 8, (le32_at (hdr ++ List.replicate m 0) (4 * i) : Int)
        = (le32_at hdr (4 * i) : Int) := by
      intro i hi
      rw [le32_at_padded_low hdr m (4 * i) (by rw [hh]; have := List.mem_range.mp hi; omega)]
    rw [Nat.add_zero, List.map_congr_left this]
  | succ k ih =>
    rw [← Nat.add_assoc, List.range_succ, List.map_append, List.sum_append, ih,
      List.map_singleton, List.sum_singleton,
      le32_at_padded_high hdr m (4 * (8 + k)) (by rw [hh]; omega)]
    simp

theorem spl_24k_valid : spl_check_header spl_24k 0x6000 = .ok 0x6000 := by
  have h1 : (spl_24k.drop 4).take 8 = str_eGON_BT0 := by decide!
  have h2 : le32_at spl_24k 16 = 0x6000 := by decide!
  have h3 : le32_at spl_24k 12 = 0xC7AE55E2 := by decide!
  have h4 : spl_checksum spl_24k 0x6000 = 0 := by
    rw [spl_checksum_eq_zero_iff, h3]
    have hs := word_sum_padded spl_24k_header (0x6000 - 32) rfl (0x6000 / 4 - 8)
    have e : 8 + (0x6000 / 4 - 8) = 0x6000 / 4 := by decide
    rw [e] at hs
    unfold spl_24k
    rw [hs]
    decide!
  unfold spl_check_header
  rw [if_neg (by rw [h1]; decide)]
  simp only [h2]
  rw [if_neg (by decide), if_neg (by rw [h4]; decide)]

theorem spl_24k_length : spl_24k.length = 0x6000 := by
  unfold spl_24k
  rw [List.length_append, List.length_replicate]
  rfl
/-- The FEL commands of the thunk segment when no translation table was saved. -/
theorem spl_thunk_log_none (thunk : List Nat) (info : soc_sram_info)
    (sbs : List sram_swap_buffers) (i : Nat) (w : World)
    (hsize : ¬ 4 * thunk.length + 4 + (i + 1) * 12 > info.thunk_size)
    (hacks : Acks w.dev) (hun : w.uboot_size = 0) :
    (spl_thunk thunk info sbs none i w).world.fel = w.fel ++
      [.write info.thunk_addr ((words_le (thunk_words thunk info.spl_addr sbs i)).take
          (4 * thunk.length + 4 + (i + 1) * 12)),
        .exec info.thunk_addr, .read (u32 (info.spl_addr + 4)) 8] := by
  rw [spl_thunk_eq, if_neg hsize]
  obtain ⟨_, w1, o1, h1, hl1, rfl⟩ := aw_fel_write_performs
    (words_le (thunk_words thunk info.spl_addr sbs i)) info.thunk_addr
    (4 * thunk.length + 4 + (i + 1) * 12) w hacks hun
  obtain ⟨_, w2, o2, h2, hl2, rfl⟩ := aw_fel_execute_performs info.thunk_addr w1
    (by rw [hl1.1]; exact hacks) (by rw [hl1.2.2.2.2.1]; exact hun)
  obtain ⟨sig, w3, o3, h3, hl3, rfl, _⟩ := aw_fel_read_performs (u32 (info.spl_addr + 4)) 8
    (by omega) w2 (by rw [hl2.1, hl1.1]; exact hacks)
    (by rw [hl2.2.2.2.2.1, hl1.2.2.2.2.1]; exact hun)
  rw [bind_ok h1, bind_ok h2]
  have hw3 : (spl_verify info none w2).world = w3 := by
    unfold spl_verify
    rw [bind_ok h3]
    by_cases hc : c_str (sig ++ [0]) ≠ str_eGON_FEL
    · rw [if_pos hc]; rfl
    · rw [if_neg hc]; rfl
  rw [hw3, hl3.2.1, hl2.2.1, hl1.2.1]
  simp only [List.append_assoc, List.cons_append, List.nil_append]
theorem spl_verify_keeps {D : Diag → Prop} (hD : ∀ d, CmdDiag d → D d)
    (h7 : ∀ sig, D (.spl_failure_code sig)) (info : soc_sram_info) (tt : Option (List Nat)) :
    Keeps Ext D (spl_verify info tt) := by
  unfold spl_verify
  refine keeps_bind ext_trans (aw_fel_read_keeps hD _ _) (fun sig => ?_)
  refine keeps_ite _ (keeps_die ext_refl _ (h7 _)) ?_
  cases tt with
  | none => exact keeps_pure ext_refl _
  | some t => exact aw_restore_and_enable_mmu_keeps hD info t

theorem res_world_of (α : Type) (r : Res α) (a : α) (d : Diag) (w1 : World)
    (h : r = .ok a w1 ∨ r = .exit d w1) : r.world = w1 := by
  rcases h with h | h <;> rw [h] <;> rfl

theorem u32_of_int_small (n : Nat) (h : n < 4294967296) : u32_of_int (n : Int) = n := by
  unfold u32_of_int
  omega

/-- The sum of the first `m` words, `m >= 4`, is word 3 plus the sum of the others. -/
theorem word_sum_split (f : Nat → Nat) (m : Nat) (hm : 4 ≤ m) :
    ((List.range m).map (fun i => (f i : Int))).sum
      = (f 3 : Int)
        + (((((List.range m).filter (fun i => decide (i ≠ 3))).map f).sum : Nat) : Int) := by
  induction m, hm using Nat.le_induction with
  | base =>
    simp [List.range_succ, List.filter]
    ring
  | succ k hk ih =>
    have hne : decide (k ≠ 3) = true := by
      rw [decide_eq_true_eq]; omega
    have hf : List.filter (fun i => decide (i ≠ 3)) [k] = [k] :=
      List.filter_cons_of_pos hne
    rw [List.range_succ, List.map_append, List.sum_append, ih, List.filter_append, hf,
      List.map_append, List.sum_append]
    simp only [List.map_cons, List.map_nil, List.sum_cons, List.sum_nil]
    push_cast
    ring

theorem bind_ok_inv {α β : Type} {m : FelM α} {f : α → FelM β} {w w2 : World} {b : β}
    (h : (m >>= f) w = .ok b w2) : ∃ a w1, m w = .ok a w1 ∧ f a w1 = .ok b w2 := by
  cases hm : m w with
  | ok a w1 =>
    rw [bind_ok hm] at h
    exact ⟨a, w1, rfl, h⟩
  | exit d w1 =>
    rw [bind_exit hm] at h
    cases h

theorem pure_ok_inv {α : Type} {a b : α} {w w1 : World}
    (h : (pure a : FelM α) w = .ok b w1) : b = a ∧ w1 = w := by
  cases h
  exact ⟨rfl, rfl⟩

theorem spl_stage_below_ok_inv (sb : sram_swap_buffers) (st st1 : Staging) (w w1 : World)
    (h : spl_stage_below sb st w = .ok st1 w1) :
    st1.spl_len_limit = st.spl_len_limit ∧ st1.i = st.i := by
  unfold spl_stage_below at h
  split at h
  · obtain ⟨_, w2, _, h2⟩ := bind_ok_inv h
    obtain ⟨rfl, _⟩ := pure_ok_inv h2
    exact ⟨rfl, rfl⟩
  · obtain ⟨rfl, _⟩ := pure_ok_inv h
    exact ⟨rfl, rfl⟩

theorem spl_stage_swap_ok_inv (sb : sram_swap_buffers) (st st1 : Staging) (w w1 : World)
    (h : spl_stage_swap sb st w = .ok st1 w1) :
    st1.spl_len_limit = st.spl_len_limit ∧ st1.i = st.i := by
  unfold spl_stage_swap at h
  split at h
  · obtain ⟨_, w2, _, h2⟩ := bind_ok_inv h
    obtain ⟨rfl, _⟩ := pure_ok_inv h2
    exact ⟨rfl, rfl⟩
  · obtain ⟨rfl, _⟩ := pure_ok_inv h
    exact ⟨rfl, rfl⟩

/-- Whatever the device does, a swap-buffer loop that returns leaves the limit computed
by `spl_len_limit_walk` and has counted the entries before the first one of size 0. -/
theorem spl_stage_loop_ok_inv (spl_addr : Nat) :
    ∀ (sbs : List sram_swap_buffers) (st st1 : Staging) (w w1 : World),
      spl_stage_loop spl_addr sbs st w = .ok st1 w1 →
      st1.spl_len_limit = spl_len_limit_walk spl_addr sbs st.spl_len_limit ∧
      st1.i = st.i + (sbs.takeWhile (fun e => decide (e.size ≠ 0))).length := by
  intro sbs
  induction sbs with
  | nil =>
    intro st st1 w w1 h
    obtain ⟨rfl, _⟩ := pure_ok_inv h
    exact ⟨rfl, rfl⟩
  | cons sb rest ih =>
    intro st st1 w w1 h
    by_cases hs : sb.size = 0
    · rw [spl_stage_loop_stop spl_addr sb rest st hs] at h
      obtain ⟨rfl, _⟩ := pure_ok_inv h
      rw [spl_len_limit_walk, if_pos hs, List.takeWhile_cons_of_neg (by simp [hs])]
      exact ⟨rfl, rfl⟩
    · obtain ⟨i, limit, cur, buf, len⟩ := st
      rw [spl_stage_loop_cons spl_addr sb rest i limit cur buf len _ hs rfl] at h
      obtain ⟨st2, w2, h2, h⟩ := bind_ok_inv h
      obtain ⟨st3, w3, h3, h⟩ := bind_ok_inv h
      obtain ⟨e2, i2⟩ := spl_stage_below_ok_inv _ _ _ _ _ h2
      obtain ⟨e3, i3⟩ := spl_stage_swap_ok_inv _ _ _ _ _ h3
      obtain ⟨e4, i4⟩ := ih _ _ _ _ h
      rw [spl_len_limit_walk, if_neg hs, List.takeWhile_cons_of_pos (by simp [hs])]
      constructor
      · rw [e4]
        show spl_len_limit_walk spl_addr rest st3.spl_len_limit = _
        rw [e3, e2]
      · rw [i4]
        show st3.i + 1 + _ = _
        rw [i3, i2, List.length_cons]
        show i + 1 + _ = i + (_ + 1)
        omega

/-- The descriptors of the program that have swap buffers all pass the table of
expected limits. -/
theorem enforced_limit_table :
    ∀ info ∈ soc_sram_info_table, ∀ sbs, info.swap_buffers = some sbs →
      enforced_spl_len_limit info sbs = 0x8000 := by
  intro info hmem sbs hsb
  simp only [soc_sram_info_table, List.mem_cons, List.mem_singleton, List.mem_nil_iff,
    or_false] at hmem
  rcases hmem with h | h | h | h | h | h | h | h | h <;> subst h <;> cases hsb <;> rfl

theorem apart_of_le (a n b m : Nat) (h : a + n ≤ b ∨ b + m ≤ a) : Apart a n b m := by
  intro x hx
  omega

theorem layout_check_sound (info : soc_sram_info) (sbs : List sram_swap_buffers)
    (h : layout_check info sbs = true) :
    Apart info.spl_addr (enforced_spl_len_limit info sbs) info.thunk_addr info.thunk_size ∧
    (∀ e ∈ sbs.takeWhile (fun e => decide (e.size ≠ 0)),
      Apart info.spl_addr (enforced_spl_len_limit info sbs) e.buf2 e.size ∧
      Apart e.buf2 e.size info.thunk_addr info.thunk_size ∧
      ∀ e1 ∈ sbs.takeWhile (fun e => decide (e.size ≠ 0)),
        Apart e.buf2 e.size e1.buf1 e1.size) := by
  unfold layout_check at h
  simp only [Bool.and_eq_true, Bool.or_eq_true, decide_eq_true_eq, List.all_eq_true] at h
  obtain ⟨h1, h2⟩ := h
  refine ⟨apart_of_le _ _ _ _ h1, ?_⟩
  intro e he
  obtain ⟨⟨h3, h4⟩, h5⟩ := h2 e he
  exact ⟨apart_of_le _ _ _ _ h3, apart_of_le _ _ _ _ h4,
    fun e1 he1 => apart_of_le _ _ _ _ (h5 e1 he1)⟩

theorem layout_check_table :
    ∀ info ∈ soc_sram_info_table, ∀ sbs, info.swap_buffers = some sbs →
      layout_check info sbs = true := by
  intro info hmem sbs hsb
  simp only [soc_sram_info_table, List.mem_cons, List.mem_singleton, List.mem_nil_iff,
    or_false] at hmem
  rcases hmem with h | h | h | h | h | h | h | h | h <;> subst h <;> cases hsb <;> decide

/-- The stash regions of the descriptors of the table follow one another. -/
theorem stash_pairwise_table :
    ∀ info ∈ soc_sram_info_table, ∀ sbs, info.swap_buffers = some sbs →
      List.Pairwise (fun e e1 => e.buf2 + e.size ≤ e1.buf2 ∨ e1.buf2 + e1.size ≤ e.buf2)
        (sbs.takeWhile (fun e => decide (e.size ≠ 0))) := by
  intro info hmem sbs hsb
  simp only [soc_sram_info_table, List.mem_cons, List.mem_singleton, List.mem_nil_iff,
    or_false] at hmem
  rcases hmem with h | h | h | h | h | h | h | h | h <;> subst h <;> cases hsb <;> decide

theorem texcb_brom_testBit (e b : Nat) (hb : b < 32) :
    ((e &&& 0xFFFF8FF3) ||| 0x100C).testBit b =
      if b = 12 ∨ b = 3 ∨ b = 2 then true
      else if b = 13 ∨ b = 14 then false
      else e.testBit b := by
  rw [Nat.testBit_or, Nat.testBit_and]
  have hc : ∀ b < 32, (0xFFFF8FF3 : Nat).testBit b =
      decide (¬ (b = 2 ∨ b = 3 ∨ b = 12 ∨ b = 13 ∨ b = 14)) := by decide
  have hs : ∀ b < 32, (0x100C : Nat).testBit b = decide (b = 12 ∨ b = 3 ∨ b = 2) := by decide
  rw [hc b hb, hs b hb]
  by_cases h1 : b = 12 ∨ b = 3 ∨ b = 2
  · rw [decide_eq_true h1, if_pos h1, Bool.or_true]
  · rw [decide_eq_false h1, if_neg h1, Bool.or_false]
    by_cases h2 : b = 13 ∨ b = 14
    · have hy : ¬ ¬ (b = 2 ∨ b = 3 ∨ b = 12 ∨ b = 13 ∨ b = 14) := by omega
      rw [decide_eq_false hy, if_pos h2, Bool.and_false]
    · have hy : ¬ (b = 2 ∨ b = 3 ∨ b = 12 ∨ b = 13 ∨ b = 14) := by omega
      rw [decide_eq_true hy, if_neg h2, Bool.and_true]

theorem tt_rewrite_brom (tt : List Nat) (hlen : 0xFFF < tt.length) :
    (tt_rewrite tt).getD 0xFFF 0 = (tt.getD 0xFFF 0 &&& 0xFFFF8FF3) ||| 0x100C := by
  unfold tt_rewrite
  simp only [List.getD_eq_getElem?_getD]
  rw [List.getElem?_set_self (by simp; exact hlen)]
  simp [List.getElem?_enum, hlen, List.getElem?_eq_getElem, tt_dram_entry]
  rfl

/-- The bytes `4 * i .. 4 * i + 3` of an array of little-endian words are word `i`. -/
theorem words_le_at : ∀ (ws : List Nat) (i : Nat), i < ws.length →
    ((words_le ws).drop (4 * i)).take 4 = htole32 (ws.getD i 0) := by
  intro ws
  induction ws with
  | nil => intro i hi; simp at hi
  | cons a r ih =>
    intro i hi
    have hcons : words_le (a :: r) = htole32 a ++ words_le r := rfl
    have h4 : (htole32 a).length = 4 := rfl
    cases i with
    | zero =>
      rw [hcons, Nat.mul_zero, List.drop_zero, List.take_append_of_le_length (by rw [h4]),
        List.take_of_length_le (by rw [h4])]
      rfl
    | succ j =>
      have hj : j < r.length := by simpa using hi
      have e : 4 * (j + 1) - (htole32 a).length = 4 * j := by rw [h4]; omega
      rw [hcons, List.drop_append_eq_append_drop,
        List.drop_of_length_le (by rw [h4]; omega), List.nil_append, e, ih j hj]
      simp [List.getD_cons_succ]

theorem foot_refl (w : World) : Foot w w := ⟨rfl, rfl⟩

theorem foot_trans (a b c : World) (h1 : Foot a b) (h2 : Foot b c) : Foot a c :=
  ⟨h2.1.trans h1.1, h2.2.trans h1.2⟩

theorem foot_of_ext (a b : World) (h : Ext a b) : Foot a b := ⟨h.2.2.2.1, h.2.2.2.2.1⟩

/-- An SPL load leaves the recorded footprint alone, however it ends. -/
theorem aw_fel_write_and_execute_spl_foot (thunk : List Nat) (buf : List Byte) (len : Nat) :
    Keeps Foot (fun _ => True) (aw_fel_write_and_execute_spl thunk buf len) := by
  intro w
  refine ⟨?_, fun _ _ => trivial⟩
  have hf := aw_fel_get_sram_info_frame w
  unfold aw_fel_write_and_execute_spl
  cases hi : aw_fel_get_sram_info w with
  | exit d w0 =>
    rw [hi] at hf
    rw [bind_exit hi]
    exact ⟨hf.2.2.2.1, hf.2.2.2.2.1⟩
  | ok info w0 =>
    rw [hi] at hf
    have h0 : Foot w w0 := ⟨hf.2.2.2.1, hf.2.2.2.2.1⟩
    rw [bind_ok hi]
    cases hsb : info.swap_buffers with
    | none => exact h0
    | some sbs =>
      simp only
      cases hv : spl_check_header buf len with
      | error d => exact h0
      | ok n =>
        simp only
        have hk := (spl_stage_and_run_keeps (D := fun _ => True) (fun _ _ => trivial)
          trivial trivial trivial trivial trivial trivial (fun _ => trivial)
          thunk info sbs buf n w0).1
        exact foot_trans _ _ _ h0 (foot_of_ext _ _ hk)

/-- A session operation other than `aw_fel_write_uboot_image` leaves the recorded
footprint alone, however it ends. -/
theorem session_op_foot (thunk : List Nat) (op : SessionOp)
    (hop : ∀ buf len, op ≠ .uboot_image buf len) :
    Keeps Foot (fun _ => True) (op.call thunk) := by
  cases op with
  | write buf offset len =>
    exact keeps_mono (aw_fel_write_keeps (D := fun _ => True) (fun _ _ => trivial) _ _ _)
      foot_of_ext (fun _ h => h)
  | read offset len =>
    exact keeps_bind foot_trans
      (keeps_mono (aw_fel_read_keeps (D := fun _ => True) (fun _ _ => trivial) _ _)
        foot_of_ext (fun _ h => h)) (fun _ => keeps_pure foot_refl _)
  | exec offset =>
    exact keeps_mono (aw_fel_execute_keeps (D := fun _ => True) (fun _ _ => trivial) _)
      foot_of_ext (fun _ h => h)
  | spl buf len => exact aw_fel_write_and_execute_spl_foot thunk buf len
  | uboot_image buf len => exact absurd rfl (hop buf len)

theorem session_foot (thunk : List Nat) :
    ∀ ops : List SessionOp, (∀ op ∈ ops, ∀ buf len, op ≠ .uboot_image buf len) →
      Keeps Foot (fun _ => True) (session thunk ops) := by
  intro ops
  induction ops with
  | nil => intro _; exact keeps_pure foot_refl _
  | cons op rest ih =>
    intro h
    exact keeps_bind foot_trans (session_op_foot thunk op (h op (List.mem_cons_self _ _)))
      (fun _ => ih (fun o ho => h o (List.mem_cons_of_mem _ ho)))

/-- The three ways a call of `aw_fel_write_uboot_image` can go. -/
theorem aw_fel_write_uboot_image_cases (buf : List Byte) (len : Nat) (w : World) :
    (len ≤ HEADER_SIZE ∧ aw_fel_write_uboot_image buf len w = .ok () w) ∨
    (HEADER_SIZE < len ∧ ∃ d w1, aw_fel_write_uboot_image buf len w = .exit d w1 ∧
      Foot w w1) ∨
    (HEADER_SIZE < len ∧ ∃ w1, aw_fel_write_uboot_image buf len w = .ok () w1 ∧
      w1.uboot_entry = be32_at buf 16 ∧ w1.uboot_size = be32_at buf 12 ∧
      be32_at buf 12 = sub64 len HEADER_SIZE) := by
  have hw := fun (o l : Nat) => (aw_fel_write_keeps (D := fun _ => True) (fun _ _ => trivial)
    (buf.drop HEADER_SIZE) o l w).1
  unfold aw_fel_write_uboot_image
  by_cases h0 : len ≤ HEADER_SIZE
  · rw [if_pos h0]
    exact Or.inl ⟨h0, rfl⟩
  · rw [if_neg h0]
    simp only
    have hlt : HEADER_SIZE < len := by omega
    by_cases h1 : get_image_type buf len ≤ IH_TYPE_INVALID
    · rw [if_pos h1]
      refine Or.inr (Or.inl ⟨hlt, ?_⟩)
      split
      · exact ⟨_, w, rfl, foot_refl w⟩
      · split
        · exact ⟨_, w, rfl, foot_refl w⟩
        · exact ⟨_, w, rfl, foot_refl w⟩
    · rw [if_neg h1]
      by_cases h2 : get_image_type buf len ≠ IH_TYPE_FIRMWARE
      · rw [if_pos h2]
        exact Or.inr (Or.inl ⟨hlt, _, w, rfl, foot_refl w⟩)
      · rw [if_neg h2]
        by_cases h3 : be32_at buf 12 ≠ sub64 len HEADER_SIZE
        · rw [if_pos h3]
          exact Or.inr (Or.inl ⟨hlt, _, w, rfl, foot_refl w⟩)
        · rw [if_neg h3]
          have hk := hw (be32_at buf 16) (be32_at buf 12)
          cases hr : aw_fel_write (buf.drop HEADER_SIZE) (be32_at buf 16) (be32_at buf 12) w with
          | exit d w2 =>
            rw [hr] at hk
            rw [bind_exit hr]
            exact Or.inr (Or.inl ⟨hlt, d, w2, rfl, foot_of_ext _ _ hk⟩)
          | ok u w2 =>
            rw [bind_ok hr]
            exact Or.inr (Or.inr ⟨hlt, _, rfl, rfl, rfl, not_not.mp h3⟩)

/-- What `aw_fel_write_uboot_image` does to the recorded footprint. -/
theorem aw_fel_write_uboot_image_foot (buf : List Byte) (len : Nat) (w : World) :
    (∀ d w1, aw_fel_write_uboot_image buf len w = .exit d w1 → Foot w w1) ∧
    (∀ w1, aw_fel_write_uboot_image buf len w = .ok () w1 → len ≤ 64 → Foot w w1) ∧
    (∀ w1, aw_fel_write_uboot_image buf len w = .ok () w1 → 64 < len →
      w1.uboot_entry = be32_at buf 16 ∧ w1.uboot_size = be32_at buf 12 ∧
      be32_at buf 12 = sub64 len 64) := by
  have h64 : HEADER_SIZE = 64 := rfl
  rcases aw_fel_write_uboot_image_cases buf len w with ⟨hl, h⟩ | ⟨hl, d, w2, h, hf⟩ |
    ⟨hl, w2, h, hf⟩
  · rw [h]
    refine ⟨?_, ?_, ?_⟩
    · intro d w1 he; cases he
    · intro w1 he _; cases he; exact foot_refl w
    · intro w1 _ hc; rw [h64] at hl; omega
  · rw [h]
    refine ⟨?_, ?_, ?_⟩
    · intro d w1 he; cases he; exact hf
    · intro w1 he _; cases he
    · intro w1 he _; cases he
  · rw [h]
    refine ⟨?_, ?_, ?_⟩
    · intro d w1 he; cases he
    · intro w1 _ hc; rw [h64] at hl; omega
    · intro w1 he _; cases he; rw [← h64]; exact hf

theorem take_while_size (entries rest : List sram_swap_buffers) (z : sram_swap_buffers)
    (hne : ∀ e ∈ entries, e.size ≠ 0) (hz : z.size = 0) :
    (entries ++ z :: rest).takeWhile (fun e => decide (e.size ≠ 0)) = entries := by
  induction entries with
  | nil => exact List.takeWhile_cons_of_neg (by simp [hz])
  | cons e r ih =>
    rw [List.cons_append, List.takeWhile_cons_of_pos (by simp [hne e (List.mem_cons_self _ _)]),
      ih (fun x hx => hne x (List.mem_cons_of_mem _ hx))]

theorem triples_length (entries : List sram_swap_buffers) :
    (List.map (List.length ∘ fun e : sram_swap_buffers => [e.buf1, e.buf2, e.size])
      entries).sum = 3 * entries.length := by
  induction entries with
  | nil => rfl
  | cons e r ih =>
    rw [List.map_cons, List.sum_cons, ih]
    simp only [Function.comp, List.length_cons, List.length_nil]
    omega

/-- One iteration of the loop of `usb_bulk_send` on the OUT endpoint, with the call of
the progress callback. -/
theorem usb_bulk_send_loop_step_sink (total : Int) (cb : Bool) (fuel : Nat) (data : List Byte)
    (n : Nat) (acc : List Byte) (w : World) (hn : 0 < n) :
    ∃ w1, Wire w w1 ∧
      w1.usb = w.usb ++ [⟨.AW_USB_FEL_BULK_EP_OUT, data.take (min n 4194304)⟩] ∧
      w1.sink = w.sink ++
        (if cb then [(total, total - ((n - min n 4194304 : Nat) : Int),
          ((min n 4194304 : Nat) : Int))] else []) ∧
      usb_bulk_send_loop .AW_USB_FEL_BULK_EP_OUT total cb (fuel + 1) data (n : Int) acc w =
        usb_bulk_send_loop .AW_USB_FEL_BULK_EP_OUT total cb fuel (data.drop (min n 4194304))
          ((n - min n 4194304 : Nat) : Int) acc w1 := by
  have hl : (n : Int) > 0 := by omega
  have hk : (if (n : Int) < AW_USB_MAX_BULK_SEND then (n : Int) else AW_USB_MAX_BULK_SEND)
      = ((min n 4194304 : Nat) : Int) := by
    unfold AW_USB_MAX_BULK_SEND; split <;> omega
  rw [usb_bulk_send_loop]
  simp only [hl, if_true]
  rw [hk, bind_apply]
  have h1 : libusb_bulk_transfer .AW_USB_FEL_BULK_EP_OUT data
      ((min n 4194304 : Nat) : Int).toNat w
      = .ok (0, ((min n 4194304 : Nat) : Int), [])
          { w with usb := w.usb ++ [⟨.AW_USB_FEL_BULK_EP_OUT, data.take (min n 4194304)⟩] } := rfl
  rw [h1]
  simp only [bne_self_eq_false, Bool.false_eq_true, if_false]
  have h2 : (n : Int) - ((min n 4194304 : Nat) : Int) = ((n - min n 4194304 : Nat) : Int) := by
    omega
  rw [h2, List.append_nil, Int.toNat_ofNat]
  cases cb with
  | false =>
    simp only [Bool.false_eq_true, if_false]
    rw [bind_apply, pure_apply]
    refine ⟨_, ?_, ?_, ?_, rfl⟩
    · exact ⟨rfl, rfl, rfl, rfl, rfl, rfl⟩
    · rfl
    · simp
  | true =>
    simp only [if_true]
    rw [bind_apply]
    refine ⟨_, ?_, ?_, ?_, rfl⟩
    · exact ⟨rfl, rfl, rfl, rfl, rfl, rfl⟩
    · rfl
    · rfl

/-- The calls of the progress callback that go with the transfers `t` of a send of which
`n` bytes were still to go: after transfer `j` the callback gets `total`, the bytes
completed so far and the length of that transfer. -/
theorem usb_bulk_send_loop_sink (total : Int) (cb : Bool) :
    ∀ (fuel n : Nat) (data acc : List Byte) (w : World), n ≤ fuel → n ≤ data.length →
      ∃ w1 t, usb_bulk_send_loop .AW_USB_FEL_BULK_EP_OUT total cb fuel data (n : Int) acc w
          = .ok acc w1 ∧ Wire w w1 ∧ w1.usb = w.usb ++ t ∧
        Chunked .AW_USB_FEL_BULK_EP_OUT (data.take n) t ∧
        t.length = (n + 4194303) / 4194304 ∧
        w1.sink = w.sink ++
          (if cb then (List.range t.length).map (fun j =>
            (total,
             total - ((n : Int) - ((((t.take (j + 1)).map (fun x => x.data.length)).sum : Nat) : Int)),
             (((t.getD j ⟨.AW_USB_FEL_BULK_EP_OUT, []⟩).data.length : Nat) : Int)))
           else []) := by
  intro fuel
  induction fuel with
  | zero =>
    intro n data acc w h _
    obtain rfl : n = 0 := by omega
    exact ⟨w, [], usb_bulk_send_loop_done _ _ _ _ _ _ _, wire_refl w, by simp,
      by simp [Chunked], rfl, by simp⟩
  | succ f ih =>
    intro n data acc w h hd
    rcases Nat.eq_zero_or_pos n with rfl | hn
    · exact ⟨w, [], usb_bulk_send_loop_done _ _ _ _ _ _ _, wire_refl w, by simp,
        by simp [Chunked], rfl, by simp⟩
    · obtain ⟨w1, hw1, hu1, hs1, hstep⟩ :=
        usb_bulk_send_loop_step_sink total cb f data n acc w hn
      obtain ⟨w2, t, h2, hw2, hu2, hc, hcount, hs2⟩ := ih (n - min n 4194304)
        (data.drop (min n 4194304)) acc w1 (by omega) (by rw [List.length_drop]; omega)
      have hx : (data.take (min n 4194304)).length = min n 4194304 := by
        rw [List.length_take]; omega
      refine ⟨w2, ⟨.AW_USB_FEL_BULK_EP_OUT, data.take (min n 4194304)⟩ :: t,
        by rw [hstep, h2], wire_trans hw1 hw2, by rw [hu2, hu1]; simp, ⟨?_, ?_⟩, ?_, ?_⟩
      · have hsplit : n = min n 4194304 + (n - min n 4194304) := by omega
        simp only [List.map_cons, List.flatten_cons]
        rw [hc.1]
        conv_rhs => rw [hsplit, List.take_add]
      · intro x hx
        rcases List.mem_cons.mp hx with rfl | hx
        · refine ⟨rfl, ?_, ?_⟩ <;> simp only [List.length_take] <;> omega
        · exact hc.2 x hx
      · rw [List.length_cons, hcount]
        omega
      · rw [hs2, hs1]
        cases cb with
        | false => simp
        | true =>
          simp only [if_true, List.length_cons, List.append_assoc, List.singleton_append]
          rw [List.range_succ_eq_map, List.map_cons, List.map_map]
          congr 2
          · simp only [List.take_succ_cons, List.take_zero, List.map_cons, List.map_nil,
              List.sum_cons, List.sum_nil, hx, List.getD_cons_zero]
            congr 2
            omega
          · apply List.map_congr_left
            intro j _
            simp only [Function.comp, List.take_succ_cons, List.map_cons, List.sum_cons, hx,
              List.getD_cons_succ]
            congr 2
            push_cast
            omega

/-- One iteration of the loop of `usb_bulk_send` on the IN endpoint, with the call of
the progress callback. -/
theorem usb_bulk_send_loop_step_in_sink (total : Int) (cb : Bool) (fuel : Nat)
    (data : List Byte) (n : Nat) (acc : List Byte) (w : World) (hn : 0 < n) :
    ∃ w1 got, Wire w w1 ∧ got.length = min n 4194304 ∧
      w1.usb = w.usb ++ [⟨.AW_USB_FEL_BULK_EP_IN, got⟩] ∧
      w1.sink = w.sink ++
        (if cb then [(total, total - ((n - min n 4194304 : Nat) : Int),
          ((min n 4194304 : Nat) : Int))] else []) ∧
      usb_bulk_send_loop .AW_USB_FEL_BULK_EP_IN total cb (fuel + 1) data (n : Int) acc w =
        usb_bulk_send_loop .AW_USB_FEL_BULK_EP_IN total cb fuel (data.drop (min n 4194304))
          ((n - min n 4194304 : Nat) : Int) (acc ++ got) w1 := by
  have hl : (n : Int) > 0 := by omega
  have hk : (if (n : Int) < AW_USB_MAX_BULK_SEND then (n : Int) else AW_USB_MAX_BULK_SEND)
      = ((min n 4194304 : Nat) : Int) := by
    unfold AW_USB_MAX_BULK_SEND; split <;> omega
  rw [usb_bulk_send_loop]
  simp only [hl, if_true]
  rw [hk, bind_apply]
  have h1 : libusb_bulk_transfer .AW_USB_FEL_BULK_EP_IN data
      ((min n 4194304 : Nat) : Int).toNat w
      = .ok (0, ((min n 4194304 : Nat) : Int),
              (List.range (min n 4194304)).map (w.dev w.usb (min n 4194304)))
          { w with usb := w.usb ++ [⟨.AW_USB_FEL_BULK_EP_IN,
              (List.range (min n 4194304)).map (w.dev w.usb (min n 4194304))⟩] } := rfl
  rw [h1]
  simp only [bne_self_eq_false, Bool.false_eq_true, if_false]
  have h2 : (n : Int) - ((min n 4194304 : Nat) : Int) = ((n - min n 4194304 : Nat) : Int) := by
    omega
  rw [h2, Int.toNat_ofNat]
  cases cb with
  | false =>
    simp only [Bool.false_eq_true, if_false]
    rw [bind_apply, pure_apply]
    refine ⟨_, _, ?_, ?_, ?_, ?_, rfl⟩
    · exact ⟨rfl, rfl, rfl, rfl, rfl, rfl⟩
    · simp
    · rfl
    · simp
  | true =>
    simp only [if_true]
    rw [bind_apply]
    refine ⟨_, _, ?_, ?_, ?_, ?_, rfl⟩
    · exact ⟨rfl, rfl, rfl, rfl, rfl, rfl⟩
    · simp
    · rfl
    · rfl

/-- The transfers and the calls of the progress callback of a receive through
`usb_bulk_send` of which `n` bytes were still to come. -/
theorem usb_bulk_send_loop_in_sink (total : Int) (cb : Bool) :
    ∀ (fuel n : Nat) (data acc : List Byte) (w : World), n ≤ fuel →
      ∃ w1 t got, usb_bulk_send_loop .AW_USB_FEL_BULK_EP_IN total cb fuel data (n : Int) acc w
          = .ok (acc ++ got) w1 ∧ Wire w w1 ∧ w1.usb = w.usb ++ t ∧
        Chunked .AW_USB_FEL_BULK_EP_IN got t ∧ got.length = n ∧
        t.length = (n + 4194303) / 4194304 ∧
        w1.sink = w.sink ++
          (if cb then (List.range t.length).map (fun j =>
            (total,
             total - ((n : Int) - ((((t.take (j + 1)).map (fun x => x.data.length)).sum : Nat) : Int)),
             (((t.getD j ⟨.AW_USB_FEL_BULK_EP_IN, []⟩).data.length : Nat) : Int)))
           else []) := by
  intro fuel
  induction fuel with
  | zero =>
    intro n data acc w h
    obtain rfl : n = 0 := by omega
    exact ⟨w, [], [], by rw [List.append_nil]; exact usb_bulk_send_loop_done _ _ _ _ _ _ _,
      wire_refl w, by simp, by simp [Chunked], rfl, rfl, by simp⟩
  | succ f ih =>
    intro n data acc w h
    rcases Nat.eq_zero_or_pos n with rfl | hn
    · exact ⟨w, [], [], by rw [List.append_nil]; exact usb_bulk_send_loop_done _ _ _ _ _ _ _,
        wire_refl w, by simp, by simp [Chunked], rfl, rfl, by simp⟩
    · obtain ⟨w1, got1, hw1, hg1, hu1, hs1, hstep⟩ :=
        usb_bulk_send_loop_step_in_sink total cb f data n acc w hn
      obtain ⟨w2, t, got2, h2, hw2, hu2, hc, hg2, hcount, hs2⟩ := ih (n - min n 4194304)
        (data.drop (min n 4194304)) (acc ++ got1) w1 (by omega)
      refine ⟨w2, ⟨.AW_USB_FEL_BULK_EP_IN, got1⟩ :: t, got1 ++ got2,
        by rw [hstep, h2, List.append_assoc], wire_trans hw1 hw2, by rw [hu2, hu1]; simp,
        ⟨?_, ?_⟩, by rw [List.length_append, hg1, hg2]; omega, ?_, ?_⟩
      · simp only [List.map_cons, List.flatten_cons]
        rw [hc.1]
      · intro x hx
        rcases List.mem_cons.mp hx with rfl | hx
        · refine ⟨rfl, ?_, ?_⟩ <;> simp only [hg1] <;> omega
        · exact hc.2 x hx
      · rw [List.length_cons, hcount]
        omega
      · rw [hs2, hs1]
        cases cb with
        | false => simp
        | true =>
          simp only [if_true, List.length_cons, List.append_assoc, List.singleton_append]
          rw [List.range_succ_eq_map, List.map_cons, List.map_map]
          congr 2
          · simp only [List.take_succ_cons, List.take_zero, List.map_cons, List.map_nil,
              List.sum_cons, List.sum_nil, hg1, List.getD_cons_zero]
            congr 2
            omega
          · apply List.map_congr_left
            intro j _
            simp only [Function.comp, List.take_succ_cons, List.map_cons, List.sum_cons, hg1,
              List.getD_cons_succ]
            congr 2
            push_cast
            omega

theorem placed_append (a b : List (Nat × List Byte)) : placed (a ++ b) = placed a ++ placed b := by
  unfold placed
  rw [List.map_append, List.flatten_append]

theorem getD_take_lt (buf : List Byte) (t j : Nat) (hj : j < t) :
    (buf.take t).getD j 0 = buf.getD j 0 := by
  rw [List.getD_eq_getElem?_getD, List.getD_eq_getElem?_getD, List.getElem?_take_of_lt hj]

theorem placed_take (a : Nat) (buf : List Byte) (t : Nat) (ht : t ≤ buf.length) :
    placed [(a, buf.take t)] = (List.range t).map (fun j => (a + j, buf.getD j 0)) := by
  unfold placed
  simp only [List.map_cons, List.map_nil, List.flatten_cons, List.flatten_nil, List.append_nil]
  rw [List.length_take, Nat.min_eq_left ht]
  apply List.map_congr_left
  intro j hj
  rw [getD_take_lt buf t j (List.mem_range.mp hj)]

/-- The bytes placed by an optional write of the first `t` bytes of `buf` at `a`. -/
theorem placed_opt (a : Nat) (buf : List Byte) (t : Nat) (ht : t ≤ buf.length) :
    placed (if t = 0 then [] else [(a, buf.take t)])
      = (List.range t).map (fun j => (a + j, buf.getD j 0)) := by
  by_cases h : t = 0
  · rw [if_pos h, h]
    rfl
  · rw [if_neg h, placed_take a buf t ht]

theorem getD_drop_add (buf : List Byte) (a j : Nat) :
    (buf.drop a).getD j 0 = buf.getD (a + j) 0 := by
  rw [List.getD_eq_getElem?_getD, List.getD_eq_getElem?_getD, List.getElem?_drop]

theorem spec_spl_placement_split (es : List sram_swap_buffers) (addr : Nat) (buf : List Byte)
    (a b : Nat) :
    spec_spl_placement es addr buf (a + b)
      = spec_spl_placement es addr buf a ++ spec_spl_placement es (addr + a) (buf.drop a) b := by
  unfold spec_spl_placement
  rw [List.range_add, List.map_append, List.map_map]
  congr 1
  apply List.map_congr_left
  intro j _
  simp only [Function.comp, getD_drop_add, Nat.add_assoc]

theorem sorted_from_mono : ∀ (es : List sram_swap_buffers) (lo lo1 : Nat), lo1 ≤ lo →
    SortedFrom lo es → SortedFrom lo1 es := by
  intro es
  cases es with
  | nil => intro _ _ _ _; trivial
  | cons e r =>
    intro lo lo1 h hs
    exact ⟨le_trans h hs.1, hs.2⟩

theorem spec_spl_target_skip (e : sram_swap_buffers) (es : List sram_swap_buffers) (a : Nat)
    (h : ¬ (e.buf1 ≤ a ∧ a < e.buf1 + e.size)) :
    spec_spl_target (e :: es) a = spec_spl_target es a := by
  unfold spec_spl_target
  rw [List.find?_cons_of_neg _ (by simpa using h)]

theorem spec_spl_target_in (e : sram_swap_buffers) (es : List sram_swap_buffers) (a : Nat)
    (h : e.buf1 ≤ a ∧ a < e.buf1 + e.size) :
    spec_spl_target (e :: es) a = e.buf2 + (a - e.buf1) := by
  unfold spec_spl_target
  rw [List.find?_cons_of_pos _ (by simpa using h)]

theorem spec_spl_target_below : ∀ (es : List sram_swap_buffers) (lo a : Nat),
    SortedFrom lo es → a < lo → spec_spl_target es a = a := by
  intro es
  induction es with
  | nil => intro _ _ _ _; rfl
  | cons e r ih =>
    intro lo a hs ha
    rw [spec_spl_target_skip e r a (by have := hs.1; omega)]
    exact ih (e.buf1 + e.size) a hs.2 (by have := hs.1; omega)

theorem spec_spl_target_above : ∀ (es : List sram_swap_buffers) (a : Nat),
    (∀ e ∈ es, e.buf1 + e.size ≤ a) → spec_spl_target es a = a := by
  intro es
  induction es with
  | nil => intro _ _; rfl
  | cons e r ih =>
    intro a h
    rw [spec_spl_target_skip e r a (by have := h e (List.mem_cons_self _ _); omega)]
    exact ih a (fun x hx => h x (List.mem_cons_of_mem _ hx))

theorem interlock_of_logs {ops : List FelOp} {w w1 : World} (h : Logs ops w w1) (a l : Nat) :
    interlock w1 a l ↔ interlock w a l := by
  unfold interlock
  rw [h.2.2.2.1, h.2.2.2.2.1]

/-- The first conditional write of the loop body, for an entry at or above the
cursor. -/
theorem spl_stage_below_placement (sb : sram_swap_buffers) (i limit cur : Nat)
    (buf : List Byte) (len : Nat) (w : World)
    (h32 : sb.buf1 < 4294967296) (hcur : cur ≤ sb.buf1) (hov : cur + len < 4294967296)
    (hacks : Acks w.dev)
    (hfree : ∀ a l, cur ≤ a → a + l ≤ cur + len → ¬ interlock w a l) :
    ∃ w1, spl_stage_below sb ⟨i, limit, cur, buf, len⟩ w
        = .ok ⟨i, limit, cur + min (sb.buf1 - cur) len, buf.drop (min (sb.buf1 - cur) len),
            len - min (sb.buf1 - cur) len⟩ w1 ∧
      Logs ((if min (sb.buf1 - cur) len = 0 then []
          else [(cur, buf.take (min (sb.buf1 - cur) len))]).map
        (fun p => FelOp.write p.1 p.2)) w w1 := by
  by_cases h : len > 0 ∧ cur < sb.buf1
  · have ht : min (sb.buf1 - cur) len
        = if sub32 sb.buf1 cur > len then u32 len else sub32 sb.buf1 cur := by
      unfold sub32 u32
      split <;> omega
    rw [spl_stage_below_write sb i limit cur buf len (min (sb.buf1 - cur) len)
      (cur + min (sb.buf1 - cur) len) (len - min (sb.buf1 - cur) len) h ht
      (by unfold u32; omega) (by unfold sub64; omega)]
    obtain ⟨w1, h1, hl1⟩ := aw_fel_write_ok buf cur (min (sb.buf1 - cur) len) w
      (hfree _ _ (Nat.le_refl _) (by omega)) hacks
    refine ⟨w1, by rw [bind_ok h1]; rfl, ?_⟩
    rw [if_neg (by omega)]
    exact hl1
  · rw [spl_stage_below_skip sb _ h]
    have h0 : min (sb.buf1 - cur) len = 0 := by omega
    refine ⟨w, ?_, ?_⟩
    · rw [h0]
      rfl
    · rw [if_pos h0]
      exact logs_nil w

/-- The second conditional write of the loop body, when the cursor is at `buf1` unless
nothing is left. -/
theorem spl_stage_swap_placement (sb : sram_swap_buffers) (i limit cur : Nat)
    (buf : List Byte) (len : Nat) (w : World)
    (hs : sb.size ≠ 0) (hcur : len > 0 → cur = sb.buf1) (hov : cur + len < 4294967296)
    (hacks : Acks w.dev)
    (hfree : ∀ l, l ≤ sb.size → ¬ interlock w sb.buf2 l) :
    ∃ w1, spl_stage_swap sb ⟨i, limit, cur, buf, len⟩ w
        = .ok ⟨i, limit, cur + min sb.size len, buf.drop (min sb.size len),
            len - min sb.size len⟩ w1 ∧
      Logs ((if min sb.size len = 0 then []
          else [(sb.buf2, buf.take (min sb.size len))]).map
        (fun p => FelOp.write p.1 p.2)) w w1 := by
  by_cases h : len > 0 ∧ cur = sb.buf1
  · have ht : min sb.size len = if sb.size > len then u32 len else sb.size := by
      unfold u32
      split <;> omega
    rw [spl_stage_swap_write sb i limit cur buf len (min sb.size len)
      (cur + min sb.size len) (len - min sb.size len) h ht
      (by unfold u32; omega) (by unfold sub64; omega)]
    obtain ⟨w1, h1, hl1⟩ := aw_fel_write_ok buf sb.buf2 (min sb.size len) w
      (hfree _ (by omega)) hacks
    refine ⟨w1, by rw [bind_ok h1]; rfl, ?_⟩
    rw [if_neg (by omega)]
    exact hl1
  · rw [spl_stage_swap_skip sb _ h]
    have h0 : len = 0 := by
      by_contra hc
      exact h ⟨by omega, hcur (by omega)⟩
    have h1 : min sb.size len = 0 := by omega
    refine ⟨w, ?_, ?_⟩
    · rw [h1]
      rfl
    · rw [if_pos h1]
      exact logs_nil w

/-- The swap-buffer loop places the bytes it consumes as the specification expects. -/
theorem spl_stage_loop_placement (spl_addr : Nat) :
    ∀ (sbs : List sram_swap_buffers) (i limit cur : Nat) (buf : List Byte) (len : Nat)
      (w : World),
      cur + len < 4294967296 → len ≤ buf.length →
      SortedFrom cur (sbs.takeWhile (fun e => decide (e.size ≠ 0))) →
      (∀ e ∈ sbs.takeWhile (fun e => decide (e.size ≠ 0)), e.buf1 < 4294967296) →
      Acks w.dev →
      (∀ a l, cur ≤ a → a + l ≤ cur + len → ¬ interlock w a l) →
      (∀ e ∈ sbs.takeWhile (fun e => decide (e.size ≠ 0)), ∀ l, l ≤ e.size →
        ¬ interlock w e.buf2 l) →
      ∃ st1 w1 ws, spl_stage_loop spl_addr sbs ⟨i, limit, cur, buf, len⟩ w = .ok st1 w1 ∧
        Logs (ws.map (fun p => FelOp.write p.1 p.2)) w w1 ∧
        st1.len ≤ len ∧ st1.cur_addr = cur + (len - st1.len) ∧
        st1.buf = buf.drop (len - st1.len) ∧
        placed ws = spec_spl_placement (sbs.takeWhile (fun e => decide (e.size ≠ 0))) cur buf
          (len - st1.len) ∧
        (0 < st1.len → ∀ e ∈ sbs.takeWhile (fun e => decide (e.size ≠ 0)),
          e.buf1 + e.size ≤ st1.cur_addr) := by
  intro sbs
  induction sbs with
  | nil =>
    intro i limit cur buf len w _ _ _ _ _ _ _
    refine ⟨_, w, [], rfl, logs_nil w, Nat.le_refl _, ?_, ?_, ?_, ?_⟩
    · simp
    · simp
    · simp [spec_spl_placement, placed]
    · intro _ e he
      simp at he
  | cons sb rest ih =>
    intro i limit cur buf len w hov hbuf hsorted h32 hacks hfree1 hfree2
    by_cases hs : sb.size = 0
    · rw [spl_stage_loop_stop spl_addr sb rest _ hs,
        List.takeWhile_cons_of_neg (by simp [hs])]
      refine ⟨_, w, [], rfl, logs_nil w, Nat.le_refl _, ?_, ?_, ?_, ?_⟩
      · simp
      · simp
      · simp [spec_spl_placement, placed]
      · intro _ e he
        simp at he
    · have htw : (sb :: rest).takeWhile (fun e => decide (e.size ≠ 0))
          = sb :: rest.takeWhile (fun e => decide (e.size ≠ 0)) :=
        List.takeWhile_cons_of_pos (by simp [hs])
      rw [htw] at hsorted h32 hfree2 ⊢
      obtain ⟨hcur, hsorted2⟩ := hsorted
      have hb32 := h32 sb (List.mem_cons_self _ _)
      rw [spl_stage_loop_cons spl_addr sb rest i limit cur buf len _ hs rfl]
      generalize (if sb.buf2 ≥ spl_addr ∧ sb.buf2 < u32 (spl_addr + limit) then
        sub32 sb.buf2 spl_addr else limit) = limit1
      obtain ⟨w1, h1, hl1⟩ := spl_stage_below_placement sb i limit1 cur buf len w hb32 hcur
        hov hacks hfree1
      generalize ht1 : min (sb.buf1 - cur) len = t1 at h1 hl1
      have hacks1 : Acks w1.dev := by rw [hl1.1]; exact hacks
      obtain ⟨w2, h2, hl2⟩ := spl_stage_swap_placement sb i limit1 (cur + t1) (buf.drop t1)
        (len - t1) w1 hs (by omega) (by omega) hacks1
        (fun l hl => by rw [interlock_of_logs hl1]; exact hfree2 sb (List.mem_cons_self _ _) l hl)
      generalize ht2 : min sb.size (len - t1) = t2 at h2 hl2
      have hl12 := logs_trans hl1 hl2
      have hacks2 : Acks w2.dev := by rw [hl2.1]; exact hacks1
      obtain ⟨st1, w3, ws, h3, hl3, hle, hc3, hb3, hp3, hend⟩ :=
        ih (i + 1) limit1 (cur + t1 + t2) ((buf.drop t1).drop t2) (len - t1 - t2) w2
          (by omega) (by rw [List.length_drop, List.length_drop]; omega)
          (sorted_from_mono _ _ _ (by omega) hsorted2)
          (fun e he => h32 e (List.mem_cons_of_mem _ he)) hacks2
          (fun a l ha hal => by
            rw [interlock_of_logs hl12]
            exact hfree1 a l (by omega) (by omega))
          (fun e he l hl => by
            rw [interlock_of_logs hl12]
            exact hfree2 e (List.mem_cons_of_mem _ he) l hl)
      have hsum : len - st1.len = t1 + (t2 + (len - t1 - t2 - st1.len)) := by omega
      refine ⟨st1, w3,
        (if t1 = 0 then [] else [(cur, buf.take t1)])
          ++ ((if t2 = 0 then [] else [(sb.buf2, (buf.drop t1).take t2)]) ++ ws),
        ?_, ?_, by omega, by rw [hc3]; omega, ?_, ?_, ?_⟩
      · rw [bind_ok h1, bind_ok h2]
        exact h3
      · rw [List.map_append, List.map_append]
        have := logs_trans hl12 hl3
        rw [List.append_assoc] at this
        exact this
      · rw [hb3, List.drop_drop, List.drop_drop]
        congr 1
        omega
      · rw [placed_append, placed_append, placed_opt cur buf t1 (by omega),
          placed_opt sb.buf2 (buf.drop t1) t2 (by rw [List.length_drop]; omega), hp3, hsum,
          spec_spl_placement_split, spec_spl_placement_split]
        congr 1
        · unfold spec_spl_placement
          apply List.map_congr_left
          intro j hj
          have hj := List.mem_range.mp hj
          rw [spec_spl_target_below (sb :: rest.takeWhile (fun e => decide (e.size ≠ 0)))
            sb.buf1 (cur + j) ⟨Nat.le_refl _, hsorted2⟩ (by omega)]
        · congr 1
          · unfold spec_spl_placement
            apply List.map_congr_left
            intro j hj
            have hj := List.mem_range.mp hj
            rw [spec_spl_target_in sb _ (cur + t1 + j) (by omega)]
            congr 1
            omega
          · unfold spec_spl_placement
            apply List.map_congr_left
            intro j hj
            have hj := List.mem_range.mp hj
            rw [spec_spl_target_skip sb _ (cur + t1 + t2 + j) (by omega)]
      · intro hpos e he
        rcases List.mem_cons.mp he with rfl | he
        · rw [hc3]
          omega
        · exact hend hpos e he

theorem cache_kept_refl (w : World) : CacheKept w w := fun h => h

theorem cache_kept_trans (a b c : World) (h1 : CacheKept a b) (h2 : CacheKept b c) :
    CacheKept a c := fun h => h2 (h1 h)

theorem cache_kept_of_ext (a b : World) (h : Ext a b) : CacheKept a b := by
  intro hc r hr
  rw [h.2.2.2.2.2] at hr
  exact hc r hr

/-- The lookup stores nothing but descriptors of the program, however it ends. -/
theorem aw_fel_get_sram_info_cache (w : World) :
    CacheKept w (aw_fel_get_sram_info w).world := by
  intro hc
  cases hi : aw_fel_get_sram_info w with
  | ok info w0 =>
    obtain ⟨hm, hr⟩ := aw_fel_get_sram_info_mem w w0 info hc hi
    intro r h
    have e : w0.result = some r := h
    rw [hr] at e
    cases e
    exact hm
  | exit d w0 =>
    cases hr : w.result with
    | some r =>
      unfold aw_fel_get_sram_info at hi
      simp only [hr] at hi
      cases hi
    | none =>
      have hv := (aw_fel_get_version_keeps w).1
      unfold aw_fel_get_sram_info at hi
      simp only [hr] at hi
      rw [bind_apply] at hi
      cases hg : aw_fel_get_version w with
      | ok v w1 =>
        rw [hg] at hi
        cases hi
      | exit d1 w1 =>
        rw [hg] at hi hv
        cases hi
        intro r h
        have e : w0.result = some r := h
        have hres : w0.result = w.result := hv.2.2.2.2.2
        rw [hres, hr] at e
        cases e

/-- An SPL load stores nothing but descriptors of the program in the lookup cache. -/
theorem aw_fel_write_and_execute_spl_cache (thunk : List Nat) (buf : List Byte) (len : Nat) :
    Keeps CacheKept (fun _ => True) (aw_fel_write_and_execute_spl thunk buf len) := by
  intro w
  refine ⟨?_, fun _ _ => trivial⟩
  have h0 := aw_fel_get_sram_info_cache w
  unfold aw_fel_write_and_execute_spl
  cases hi : aw_fel_get_sram_info w with
  | exit d w0 =>
    rw [hi] at h0
    rw [bind_exit hi]
    exact h0
  | ok info w0 =>
    rw [hi] at h0
    rw [bind_ok hi]
    cases hsb : info.swap_buffers with
    | none => exact h0
    | some sbs =>
      simp only
      cases hv : spl_check_header buf len with
      | error d => exact h0
      | ok n =>
        simp only
        have hk := (spl_stage_and_run_keeps (D := fun _ => True) (fun _ _ => trivial)
          trivial trivial trivial trivial trivial trivial (fun _ => trivial)
          thunk info sbs buf n w0).1
        exact cache_kept_trans _ _ _ h0 (cache_kept_of_ext _ _ hk)

/-- A call of `aw_fel_write_uboot_image` leaves the lookup cache alone. -/
theorem aw_fel_write_uboot_image_cache (buf : List Byte) (len : Nat) :
    Keeps CacheKept (fun _ => True) (aw_fel_write_uboot_image buf len) := by
  intro w
  refine ⟨?_, fun _ _ => trivial⟩
  have hw := fun (o l : Nat) => (aw_fel_write_keeps (D := fun _ => True) (fun _ _ => trivial)
    (buf.drop HEADER_SIZE) o l w).1
  unfold aw_fel_write_uboot_image
  by_cases h0 : len ≤ HEADER_SIZE
  · rw [if_pos h0]
    exact cache_kept_refl w
  · rw [if_neg h0]
    simp only
    by_cases h1 : get_image_type buf len ≤ IH_TYPE_INVALID
    · rw [if_pos h1]
      split
      · exact cache_kept_refl w
      · split
        · exact cache_kept_refl w
        · exact cache_kept_refl w
    · rw [if_neg h1]
      by_cases h2 : get_image_type buf len ≠ IH_TYPE_FIRMWARE
      · rw [if_pos h2]
        exact cache_kept_refl w
      · rw [if_neg h2]
        by_cases h3 : be32_at buf 12 ≠ sub64 len HEADER_SIZE
        · rw [if_pos h3]
          exact cache_kept_refl w
        · rw [if_neg h3]
          have hk := hw (be32_at buf 16) (be32_at buf 12)
          cases hr : aw_fel_write (buf.drop HEADER_SIZE) (be32_at buf 16) (be32_at buf 12) w with
          | exit d w2 =>
            rw [hr] at hk
            rw [bind_exit hr]
            exact cache_kept_of_ext _ _ hk
          | ok u w2 =>
            rw [hr] at hk
            rw [bind_ok hr]
            intro hc r h
            have e : w2.result = some r := h
            have hres : w2.result = w.result := hk.2.2.2.2.2
            rw [hres] at e
            exact hc r e

theorem session_op_cache (thunk : List Nat) (op : SessionOp) :
    Keeps CacheKept (fun _ => True) (op.call thunk) := by
  cases op with
  | write buf offset len =>
    exact keeps_mono (aw_fel_write_keeps (D := fun _ => True) (fun _ _ => trivial) _ _ _)
      cache_kept_of_ext (fun _ h => h)
  | read offset len =>
    exact keeps_bind cache_kept_trans
      (keeps_mono (aw_fel_read_keeps (D := fun _ => True) (fun _ _ => trivial) _ _)
        cache_kept_of_ext (fun _ h => h)) (fun _ => keeps_pure cache_kept_refl _)
  | exec offset =>
    exact keeps_mono (aw_fel_execute_keeps (D := fun _ => True) (fun _ _ => trivial) _)
      cache_kept_of_ext (fun _ h => h)
  | spl buf len => exact aw_fel_write_and_execute_spl_cache thunk buf len
  | uboot_image buf len => exact aw_fel_write_uboot_image_cache buf len

/-- From the start of a session on, whatever FEL writes, reads, executes, SPL loads and
U-Boot image writes are made and however they end, the lookup cache is empty or holds a
descriptor of the program. -/
theorem session_program_cache (thunk : List Nat) (dev : Device) (ops : List SessionOp) :
    ProgramCache (session thunk ops (session_start dev)).world := by
  have h : ∀ ops : List SessionOp, Keeps CacheKept (fun _ => True) (session thunk ops) := by
    intro ops
    induction ops with
    | nil => exact keeps_pure cache_kept_refl _
    | cons op rest ih =>
      exact keeps_bind cache_kept_trans (session_op_cache thunk op) (fun _ => ih)
  exact (h ops (session_start dev)).1 (fun _ hr => nomatch hr)

/-! ## The claims -/

/-- C1 (the code at the failing input). `top_session` is the session after a 256-byte
firmware image for load address 0xFFFFFF00 was loaded on an acknowledging device.  Its
footprint is armed, the one-byte write at 0xFFFFFF00 satisfies both comparisons of the
claim over the integers, and yet `aw_fel_write` does not refuse it: the 32-bit sum
`uboot_entry + uboot_size` wraps to 0, and the write is issued and completes. -/
theorem interlock_misses_wrapped_footprint :
    top_session.uboot_entry = 0xFFFFFF00 ∧ top_session.uboot_size = 0x100 ∧
    0xFFFFFF00 ≤ top_session.uboot_entry + top_session.uboot_size ∧
    0xFFFFFF00 + 1 ≥ top_session.uboot_entry ∧
    u32 (top_session.uboot_entry + top_session.uboot_size) = 0 ∧
    (aw_fel_write [0] 0xFFFFFF00 1 top_session).diag = none ∧
    (aw_fel_write [0] 0xFFFFFF00 1 top_session).world.fel
      = top_session.fel ++ [.write 0xFFFFFF00 [0]] := by
  decide!

/-- C2. After `aw_fel_write_uboot_image` has loaded an image whose header declares
`load_addr = 0x4A000000` and `data_size = 0x80000`, a write of one byte at 0x4A080000
is refused with the interlock diagnostic and nothing is sent, while a write of one
byte at 0x4A080001 is issued as a FEL write and completes. -/
theorem overlap_interlock_scenario (w : World) (buf : List Byte) (b : Byte)
    (hw : Acks w.dev) (hun : w.uboot_size = 0) (hlen : buf.length = 0x80040)
    (hmagic : be32_at buf 0 = 0x27051956) (harch : byte_at buf 29 = 2)
    (htype : byte_at buf 30 = 5) (hsize : be32_at buf 12 = 0x80000)
    (hload : be32_at buf 16 = 0x4A000000) :
    ∃ w1, aw_fel_write_uboot_image buf buf.length w = .ok () w1 ∧
      aw_fel_write [b] 0x4A080000 1 w1 = .exit .overwrite_uboot w1 ∧
      ∃ w2, aw_fel_write [b] 0x4A080001 1 w1 = .ok () w2 ∧
        w2.fel = w1.fel ++ [.write 0x4A080001 [b]] := by
  have hlen2 : buf.length < 18446744073709551616 := by omega
  have hni := not_interlock_of_unarmed w (be32_at buf 16) (buf.length - 64) hun
  obtain ⟨w0, h0, hl0⟩ :=
    aw_fel_write_ok (buf.drop 64) (be32_at buf 16) (buf.length - 64) w hni hw
  have hacc := write_uboot_image_accepted w buf buf.length (by omega) hlen2 hmagic harch htype
    (by omega)
  rw [bind_apply, h0] at hacc
  refine ⟨_, hacc, ?_, ?_⟩
  · apply aw_fel_write_refused
    unfold interlock u32 usize
    simp only [hload, hlen]
    omega
  · have hacks : Acks w0.dev := by rw [hl0.1]; exact hw
    have hni2 : ¬ interlock { w0 with uboot_entry := be32_at buf 16, uboot_size := buf.length - 64 }
        0x4A080001 1 := by
      unfold interlock u32 usize
      simp only [hload, hlen]
      omega
    obtain ⟨w2, h2, hl2⟩ := aw_fel_write_ok [b] 0x4A080001 1 _ hni2 hacks
    exact ⟨w2, h2, hl2.2.1⟩

/-- C2 at a concrete input: `dram_image` loaded into a fresh session on the mock
device. -/
theorem overlap_interlock_scenario_witness :
    ∃ w1, aw_fel_write_uboot_image dram_image dram_image.length (session_start mock_dev)
        = .ok () w1 ∧
      aw_fel_write [0] 0x4A080000 1 w1 = .exit .overwrite_uboot w1 ∧
      ∃ w2, aw_fel_write [0] 0x4A080001 1 w1 = .ok () w2 ∧
        w2.fel = w1.fel ++ [.write 0x4A080001 [0]] :=
  overlap_interlock_scenario (session_start mock_dev) dram_image 0 mock_dev_acks rfl
    dram_image_length (by decide!) (by decide!) (by decide!) (by decide!) (by decide!)

/-- C3. For an eGON.BT0-signed payload of at least 32 bytes whose stored length equals
its length and is a multiple of 4, the header validation of the loader passes exactly
when `2 * stored_checksum - 0x5F0A6C39` and the sum of all little-endian 32-bit words
of the payload agree modulo 2^32. -/
theorem spl_checksum_test (p : List Byte) (hlen : 32 ≤ p.length)
    (hsig : (p.drop 4).take 8 = str_eGON_BT0) (hstored : le32_at p 16 = p.length)
    (hmul : p.length % 4 = 0) :
    (spl_check_header p p.length = .ok p.length ↔
      (2 * (le32_at p 12 : Int) - 0x5F0A6C39) % 4294967296
        = ((List.range (p.length / 4)).map (fun i => (le32_at p (4 * i) : Int))).sum
            % 4294967296) ∧
    (spl_check_header p p.length = .ok p.length ∨
      spl_check_header p p.length = .error .spl_checksum) := by
  have hnot : ¬ (p.length < 32 ∨ (p.drop 4).take 8 ≠ str_eGON_BT0) := by
    rintro (h | h)
    · omega
    · exact h hsig
  have hnot2 : ¬ (le32_at p 16 > p.length ∨ le32_at p 16 % 4 ≠ 0) := by
    rw [hstored]; omega
  unfold spl_check_header
  simp only [hnot, hnot2, if_false]
  rw [hstored, ← spl_checksum_eq_zero_iff]
  by_cases h : spl_checksum p p.length = 0
  · simp [h]
  · simp [h]

/-- C3 at a concrete input: the 32-byte payload `tiny_spl` passes. -/
theorem spl_checksum_test_witness : spl_check_header tiny_spl tiny_spl.length = .ok tiny_spl.length :=
  (spl_checksum_test tiny_spl (by decide) (by decide) (by decide!) (by decide)).1.mpr (by decide!)

/-- C4 (counterexample). The 32-byte payload `short_spl` passes the validation; byte
16 lies in word 4, not in the checksum word 3; changing it from 0x20 to 0x10 gives a
payload that the validation accepts as well (with stored length 16). -/
theorem spl_tamper_stored_length_accepted :
    short_spl.length = 32 ∧ spl_check_header short_spl 32 = .ok 32 ∧ 16 / 4 ≠ 3 ∧
    (0x10 : Byte) ≠ short_spl.getD 16 0 ∧
    spl_check_header (short_spl.set 16 0x10) 32 = .ok 16 := by
  decide!

/-- C4 (amended). For a 32-byte payload that passes the loader's signature, length and
checksum validation with stored length 32, changing a single byte that lies in a word
other than the checksum word 3 to a different value yields a payload the validation
rejects, unless the change turns byte 16, the low byte of the stored length, into a
smaller non-zero multiple of 4 (4, 8, ..., 28). -/
theorem spl_tamper_detection (p : List Byte) (hlen : p.length = 32)
    (hpass : spl_check_header p 32 = .ok 32) (i : Nat) (hi : i < 32) (hw3 : i / 4 ≠ 3)
    (v : Byte) (hv : v ≠ p.getD i 0)
    (hexc : ¬ (i = 16 ∧ v.val % 4 = 0 ∧ 0 < v.val ∧ v.val < 32)) :
    ∃ d, spl_check_header (p.set i v) 32 = .error d := by
  obtain ⟨b0, b1, b2, b3, b4, b5, b6, b7, b8, b9, b10, b11, b12, b13, b14, b15, b16, b17, b18, b19, b20, b21, b22, b23, b24, b25, b26, b27, b28, b29, b30, b31, rfl⟩ := list_of_length_32 p hlen
  exact spl_tamper_detection_bytes _ _ _ _ _ _ _ _ _ _ _ _ _ _ _ _ _ _ _ _ _ _ _ _ _ _ _ _ _ _ _ _
    hpass i hi hw3 v hv hexc

/-- C4 (amended) at a concrete input: zeroing byte 0 of `tiny_spl`. -/
theorem spl_tamper_detection_witness :
    ∃ d, spl_check_header (tiny_spl.set 0 0) 32 = .error d :=
  spl_tamper_detection tiny_spl rfl (by decide!) 0 (by decide) (by decide) 0 (by decide!)
    (by decide)

/-- C5. Whenever the buffer is shorter than 32 bytes, or bytes 4..11 are not
"eGON.BT0", or the stored length at offset 16 exceeds the buffer length or is not a
multiple of 4, or the checksum check fails, `aw_fel_write_and_execute_spl` ends the
run with a diagnostic, having issued no FEL command except possibly the version query
of the SoC lookup: no FEL write, no execute; `uboot_entry` and `uboot_size` keep their
values. -/
theorem spl_header_rejection (fel_to_spl_thunk : List Nat) (w : World) (buf : List Byte)
    (len : Nat)
    (h : len < 32 ∨ (buf.drop 4).take 8 ≠ str_eGON_BT0 ∨ le32_at buf 16 > len
      ∨ le32_at buf 16 % 4 ≠ 0 ∨ spl_checksum buf (le32_at buf 16) ≠ 0) :
    (∃ d, (aw_fel_write_and_execute_spl fel_to_spl_thunk buf len w).diag = some d ∧
      (d = .assert_awus ∨ d = .spl_unsupported_soc ∨ d = .spl_no_egon_header
        ∨ d = .spl_bad_length ∨ d = .spl_checksum)) ∧
    ((aw_fel_write_and_execute_spl fel_to_spl_thunk buf len w).world.fel = w.fel ∨
      (aw_fel_write_and_execute_spl fel_to_spl_thunk buf len w).world.fel
        = w.fel ++ [.version]) ∧
    (aw_fel_write_and_execute_spl fel_to_spl_thunk buf len w).world.uboot_entry
      = w.uboot_entry ∧
    (aw_fel_write_and_execute_spl fel_to_spl_thunk buf len w).world.uboot_size
      = w.uboot_size := by
  have hbad := spl_check_header_rejects buf len h
  obtain ⟨dh, hdh, hdh2⟩ := hbad
  have hf := aw_fel_get_sram_info_frame w
  unfold aw_fel_write_and_execute_spl
  rw [bind_apply]
  cases hs : aw_fel_get_sram_info w with
  | exit d w1 =>
    rw [hs] at hf
    obtain ⟨_, h2, _, h4, h5, h6⟩ := hf
    exact ⟨⟨d, rfl, Or.inl (h6 d rfl)⟩, h2, h4, h5⟩
  | ok info w1 =>
    rw [hs] at hf
    obtain ⟨_, h2, _, h4, h5, _⟩ := hf
    simp only
    cases hsb : info.swap_buffers with
    | none => exact ⟨⟨_, rfl, Or.inr (Or.inl rfl)⟩, h2, h4, h5⟩
    | some sb =>
      simp only [hdh]
      refine ⟨⟨dh, rfl, ?_⟩, h2, h4, h5⟩
      rcases hdh2 with h | h | h
      · exact Or.inr (Or.inr (Or.inl h))
      · exact Or.inr (Or.inr (Or.inr (Or.inl h)))
      · exact Or.inr (Or.inr (Or.inr (Or.inr h)))

/-- C5 at a concrete input: an empty buffer on the mock device. -/
theorem spl_header_rejection_witness :
    (∃ d, (aw_fel_write_and_execute_spl sample_thunk [] 0 (session_start mock_dev)).diag
        = some d ∧
      (d = .assert_awus ∨ d = .spl_unsupported_soc ∨ d = .spl_no_egon_header
        ∨ d = .spl_bad_length ∨ d = .spl_checksum)) ∧
    ((aw_fel_write_and_execute_spl sample_thunk [] 0 (session_start mock_dev)).world.fel
        = (session_start mock_dev).fel ∨
      (aw_fel_write_and_execute_spl sample_thunk [] 0 (session_start mock_dev)).world.fel
        = (session_start mock_dev).fel ++ [.version]) :=
  ⟨(spl_header_rejection sample_thunk (session_start mock_dev) [] 0 (Or.inl (by decide))).1,
   (spl_header_rejection sample_thunk (session_start mock_dev) [] 0 (Or.inl (by decide))).2.1⟩

/-- C6. `get_image_type` returns INVALID (0) when the length is at most 64 or the
big-endian word at offset 0 is not 0x27051956; otherwise ARCH_MISMATCH (-1) when byte
29 is not 2; otherwise the type byte, byte 30. -/
theorem get_image_type_classification (buf : List Byte) (len : Nat) :
    ((len ≤ 64 ∨ be32_at buf 0 ≠ 0x27051956) → get_image_type buf len = 0) ∧
    ((64 < len ∧ be32_at buf 0 = 0x27051956 ∧ byte_at buf 29 ≠ 2) →
      get_image_type buf len = -1) ∧
    ((64 < len ∧ be32_at buf 0 = 0x27051956 ∧ byte_at buf 29 = 2) →
      get_image_type buf len = (byte_at buf 30 : Int)) := by
  unfold get_image_type HEADER_SIZE HEADER_NAME_OFFSET IH_NMLEN IH_MAGIC IH_ARCH_ARM
    IH_TYPE_INVALID IH_TYPE_ARCH_MISMATCH
  refine ⟨?_, ?_, ?_⟩
  · rintro (h | h)
    · simp [h]
    · simp [h]
  · rintro ⟨h1, h2, h3⟩
    have : ¬ len ≤ 64 := by omega
    simp [this, h2, h3]
  · rintro ⟨h1, h2, h3⟩
    have : ¬ len ≤ 64 := by omega
    simp [this, h2, h3]

/-- C6 at a concrete header: magic right, architecture byte 0. -/
theorem get_image_type_arch_mismatch_witness :
    get_image_type arch0_image arch0_image.length = -1 :=
  (get_image_type_classification arch0_image arch0_image.length).2.1 (by decide!)

/-- C7 (the code at a failing input). `huge_image` is an acceptable firmware image of
`0x80000040` bytes: magic 0x27051956, architecture 2, type 5, `data_size = 0x80000000 =
len - 64` and `load_addr = 0x40000000`.  In a fresh session on the mock device
`aw_fel_write_uboot_image` returns normally with `uboot_entry = 0x40000000` and
`uboot_size = 0x80000000`, but the data bytes are never sent: `aw_usb_write` hands its
`size_t` length to the `int length` of `usb_bulk_send`, where `0x80000000` is
`-2147483648`, and the transfer loop `while (length > 0)` does not run.  The wire
carries the FEL write request (request, 16 bytes, acknowledgement), the AW-USB request
for the data followed at once by the acknowledgement, and the status read: eight
transfers, the four host-to-device ones of 32, 16, 32 and 32 bytes. -/
theorem uboot_image_payload_not_sent :
    huge_image.length = 0x80000040 ∧
    be32_at huge_image 0 = 0x27051956 ∧ byte_at huge_image 29 = 2 ∧
    byte_at huge_image 30 = 5 ∧ be32_at huge_image 12 = 0x80000040 - 64 ∧
    be32_at huge_image 16 = 0x40000000 ∧
    (aw_fel_write_uboot_image huge_image 0x80000040 (session_start mock_dev)).diag = none ∧
    (aw_fel_write_uboot_image huge_image 0x80000040 (session_start mock_dev)).world.uboot_entry
      = 0x40000000 ∧
    (aw_fel_write_uboot_image huge_image 0x80000040 (session_start mock_dev)).world.uboot_size
      = 0x80000000 ∧
    (aw_fel_write_uboot_image huge_image 0x80000040 (session_start mock_dev)).world.usb =
      [ ⟨.AW_USB_FEL_BULK_EP_OUT, aw_usb_request_bytes AW_USB_WRITE 16⟩,
        ⟨.AW_USB_FEL_BULK_EP_OUT,
          aw_fel_request_bytes AW_FEL_1_WRITE 0x40000000 0x80000000⟩,
        ⟨.AW_USB_FEL_BULK_EP_IN, [0x41, 0x57, 0x55, 0x53, 0, 0, 0, 0, 0, 0, 0, 0, 0]⟩,
        ⟨.AW_USB_FEL_BULK_EP_OUT, aw_usb_request_bytes AW_USB_WRITE (-2147483648)⟩,
        ⟨.AW_USB_FEL_BULK_EP_IN, [0x41, 0x57, 0x55, 0x53, 0, 0, 0, 0, 0, 0, 0, 0, 0]⟩,
        ⟨.AW_USB_FEL_BULK_EP_OUT, aw_usb_request_bytes AW_USB_READ 8⟩,
        ⟨.AW_USB_FEL_BULK_EP_IN, [0x65, 0x47, 0x4F, 0x4E, 0x2E, 0x46, 0x45, 0x4C]⟩,
        ⟨.AW_USB_FEL_BULK_EP_IN, [0x41, 0x57, 0x55, 0x53, 0, 0, 0, 0, 0, 0, 0, 0, 0]⟩ ] ∧
    ((aw_fel_write_uboot_image huge_image 0x80000040 (session_start mock_dev)).world.usb.filter
        (fun x => x.ep = .AW_USB_FEL_BULK_EP_OUT)).map (fun x => x.data.length)
      = [32, 16, 32, 32] :=
  ⟨huge_image_length, by decide!, by decide!, by decide!, by decide!, by decide!, by decide!,
    by decide!, by decide!, by decide!, by decide!⟩

/-- C8. A buffer that is not an acceptable image (length at most 64, wrong magic,
architecture byte other than 2, type byte other than 5, or `data_size` different from
`len - 64`) leaves the whole world unchanged, so no FEL write is issued and
`uboot_entry`/`uboot_size` keep their values; the call returns normally exactly when
the length is at most 64 and ends the run with a diagnostic otherwise. -/
theorem write_uboot_image_rejection (w : World) (buf : List Byte) (len : Nat)
    (hlen : len < 18446744073709551616)
    (h : len ≤ 64 ∨ be32_at buf 0 ≠ 0x27051956 ∨ byte_at buf 29 ≠ 2 ∨ byte_at buf 30 ≠ 5
      ∨ be32_at buf 12 ≠ len - 64) :
    (len ≤ 64 → aw_fel_write_uboot_image buf len w = .ok () w) ∧
    (64 < len → ∃ d, aw_fel_write_uboot_image buf len w = .exit d w) := by
  unfold aw_fel_write_uboot_image get_image_type HEADER_SIZE HEADER_NAME_OFFSET IH_NMLEN
    IH_MAGIC IH_ARCH_ARM IH_TYPE_INVALID IH_TYPE_ARCH_MISMATCH IH_TYPE_FIRMWARE
  constructor
  · intro h1
    simp [h1, pure_apply]
  · intro h1
    have h2 : ¬ len ≤ 64 := by omega
    simp only [h2, if_false, Nat.reduceAdd]
    by_cases hm : be32_at buf 0 = 0x27051956
    · by_cases ha : byte_at buf 29 = 2
      · by_cases ht : byte_at buf 30 = 5
        · have hs : be32_at buf 12 ≠ len - 64 := by
            rcases h with h | h | h | h | h
            · omega
            · exact absurd hm h
            · exact absurd ha h
            · exact absurd ht h
            · exact h
          have hs2 : be32_at buf 12 ≠ sub64 len 64 := by
            unfold sub64; omega
          simp [hm, ha, ht, hs2, die_apply]
        · by_cases h0 : byte_at buf 30 = 0
          · simp [hm, ha, h0, die_apply]
          · have : ¬ ((byte_at buf 30 : Int) ≤ 0) := by omega
            have h5 : ¬ ((byte_at buf 30 : Int) = 5) := by omega
            simp [hm, ha, this, h5, die_apply]
      · simp [hm, ha, die_apply]
    · simp [hm, die_apply]

/-- C8 at a concrete input: 65 zero bytes are rejected and change nothing. -/
theorem write_uboot_image_rejection_witness :
    ∃ d, aw_fel_write_uboot_image junk_image 65 (session_start mock_dev)
      = .exit d (session_start mock_dev) :=
  (write_uboot_image_rejection (session_start mock_dev) junk_image 65 (by decide)
    (Or.inr (Or.inl (by decide!)))).2 (by decide)

/-- C9 (counterexample). A device reporting SoC id 0x1639, which is not in the static
table, is given the valid 32-byte SPL `tiny_spl`: the lookup caches the generic
record, the loader does not end with the unsupported-SoC diagnostic (it completes),
and it stages the SPL at address 0 and writes and executes the thunk at 0x5680. -/
theorem generic_soc_spl_is_staged :
    (aw_fel_get_version (session_start a80_dev)).value.map (fun v => v.soc_id) = some 0x1639 ∧
    0x1639 ∉ [0x1623, 0x1625, 0x1651, 0x1650, 0x1633, 0x1667, 0x1673, 0x1680] ∧
    spl_check_header tiny_spl 32 = .ok 32 ∧
    (aw_fel_write_and_execute_spl sample_thunk tiny_spl 32 (session_start a80_dev)).world.result
      = some generic_sram_info ∧
    (aw_fel_write_and_execute_spl sample_thunk tiny_spl 32 (session_start a80_dev)).diag
      = none ∧
    (aw_fel_write_and_execute_spl sample_thunk tiny_spl 32 (session_start a80_dev)).world.fel
      = [ .version,
          .write 0x2000 stackinfo_stub, .exec 0x2000, .read 0x2024 8,
          .write 0x2000 (words_le [0xee122f10, 0xe58f2008, 0xe12fff1e]), .exec 0x2000,
          .read 0x2014 4,
          .write 0x2000 (words_le [0xee112f10, 0xe58f2008, 0xe12fff1e]), .exec 0x2000,
          .read 0x2014 4,
          .write 0 tiny_spl,
          .write 0x5680 (words_le (sample_thunk ++ [0, 0x1C00, 0x5800, 0x400, 0, 0, 0])),
          .exec 0x5680,
          .read 4 8 ] := by
  decide!

/-- C9 (amended). For a device whose effective SoC id is not in the static table the
first lookup yields the generic record, and `aw_fel_write_and_execute_spl` is not
refused: it never ends with the unsupported-SoC diagnostic; a payload that fails the
header checks is rejected with the diagnostic of the failing check; and for a payload
that passes them, in a session with no armed footprint, the loader goes on to the
device: after the version query its command log continues with the FEL write that
uploads the stack probe to scratch address 0x2000. -/
theorem generic_soc_spl_not_refused (thunk : List Nat) (w : World) (buf : List Byte)
    (len : Nat) (v : aw_fel_version) (w1 : World)
    (hr : w.result = none) (hun : w.uboot_size = 0)
    (hv : aw_fel_get_version w = .ok v w1)
    (hid : v.soc_id ∉ [0x1623, 0x1625, 0x1651, 0x1650, 0x1633, 0x1667, 0x1673, 0x1680]) :
    (aw_fel_write_and_execute_spl thunk buf len w).world.result = some generic_sram_info ∧
    (aw_fel_write_and_execute_spl thunk buf len w).diag ≠ some .spl_unsupported_soc ∧
    (∀ d, spl_check_header buf len = .error d →
      aw_fel_write_and_execute_spl thunk buf len w
        = .exit d { w1 with result := some generic_sram_info }) ∧
    (∀ n, spl_check_header buf len = .ok n →
      (w.fel ++ [.version, .write 0x2000 stackinfo_stub])
        <+: (aw_fel_write_and_execute_spl thunk buf len w).world.fel) := by
  have hinfo := aw_fel_get_sram_info_first w v w1 hr hv
  rw [sram_info_scan_unknown v.soc_id hid] at hinfo
  simp only at hinfo
  have hlog := aw_fel_get_version_keeps w
  rw [hv] at hlog
  obtain ⟨⟨_, hfel, _, _, hsize, _⟩, _⟩ := hlog
  have hrun : aw_fel_write_and_execute_spl thunk buf len w =
      match spl_check_header buf len with
      | .error d => .exit d { w1 with result := some generic_sram_info }
      | .ok n => spl_stage_and_run thunk generic_sram_info generic_sram_swap_buffers buf n
          { w1 with result := some generic_sram_info } := by
    unfold aw_fel_write_and_execute_spl
    rw [bind_apply, hinfo]
    show (match spl_check_header buf len with
      | .error d => die d
      | .ok n => spl_stage_and_run thunk generic_sram_info generic_sram_swap_buffers buf n)
        { w1 with result := some generic_sram_info } = _
    cases spl_check_header buf len <;> rfl
  have hk := spl_stage_and_run_keeps_het
    (S := fun a b => Ext a b ∧
      (a.uboot_size = 0 → (a.fel ++ [.write 0x2000 stackinfo_stub]) <+: b.fel))
    (R := fun a b => Ext a b ∧
      (a.uboot_size = 0 → (a.fel ++ [.write 0x2000 stackinfo_stub]) <+: b.fel))
    (D := fun d => d ≠ .spl_unsupported_soc)
    (fun a b c h1 h2 => ⟨ext_trans _ _ _ h1.1 h2, fun h => (h1.2 h).trans h2.2.1⟩)
    (fun _ _ h => h)
    (by intro d hd; rcases hd with h | h <;> rw [h] <;> decide)
    (by decide) (by decide) (by decide) (by decide) (by decide) (by decide)
    (by intro sig; simp)
    thunk generic_sram_info generic_sram_swap_buffers buf
  rw [hrun]
  cases hc : spl_check_header buf len with
  | error d =>
    simp only
    exact ⟨rfl, by simp [Res.diag]; intro h; subst h; exact absurd hc (by
      unfold spl_check_header
      split
      · simp
      · simp only
        split
        · simp
        · split <;> simp), fun d1 h1 => by rw [Except.error.injEq] at h1; rw [h1], fun n h1 => by simp at h1⟩
  | ok n =>
    simp only
    have hk1 := hk n (aw_get_stackinfo_starts (by
        intro d hd; rcases hd with h | h <;> rw [h] <;> decide) generic_sram_info)
      { w1 with result := some generic_sram_info }
    obtain ⟨⟨hext, hstart⟩, hdiag⟩ := hk1
    refine ⟨?_, fun h => hdiag _ h rfl, fun d1 h1 => by simp at h1, fun n1 _ => ?_⟩
    · rw [hext.2.2.2.2.2]
    · have h2 := hstart (hsize.trans hun)
      have h3 : w1.fel = w.fel ++ [.version] := hfel
      have h4 : w.fel ++ [FelOp.version, .write 0x2000 stackinfo_stub]
          = w1.fel ++ [.write 0x2000 stackinfo_stub] := by
        rw [h3, List.append_assoc]; rfl
      rw [h4]
      exact h2

/-- C9 (amended) at a concrete input: the valid payload `tiny_spl` on a device that
reports the SoC id 0x1639. -/
theorem generic_soc_spl_not_refused_witness :
    (aw_fel_write_and_execute_spl sample_thunk tiny_spl 32 (session_start a80_dev)).diag
      ≠ some .spl_unsupported_soc ∧
    ((session_start a80_dev).fel ++ [.version, .write 0x2000 stackinfo_stub])
      <+: (aw_fel_write_and_execute_spl sample_thunk tiny_spl 32
            (session_start a80_dev)).world.fel :=
  ⟨(generic_soc_spl_not_refused sample_thunk (session_start a80_dev) tiny_spl 32 _ _ rfl rfl
      (res_eq_ok_of_value _ _ a80_dev_version) (by decide)).2.1,
   (generic_soc_spl_not_refused sample_thunk (session_start a80_dev) tiny_spl 32 _ _ rfl rfl
      (res_eq_ok_of_value _ _ a80_dev_version) (by decide)).2.2.2 32 (by decide!)⟩

/-- C10. On the first call of `aw_fel_get_sram_info` (nothing cached), with `v` the
version record obtained from the device: when `v.soc_id` is one of 0x1623, 0x1625,
0x1651, 0x1650, 0x1633, 0x1667, 0x1673, 0x1680 the call returns the one entry of the
static table with that `soc_id`; for every other id (0 included) it returns the generic
record, whose swap buffers are the single region `{0x1C00, 0x5800, 0x400}` followed by
the terminator, with `scratch_addr = 0x2000`, `thunk_addr = 0x5680`,
`thunk_size = 0x180`.  The returned record is also what gets cached. -/
theorem soc_lookup (w : World) (v : aw_fel_version) (w1 : World)
    (hr : w.result = none) (hv : aw_fel_get_version w = .ok v w1) :
    ∃ info, aw_fel_get_sram_info w = .ok info { w1 with result := some info } ∧
      (v.soc_id ∈ [0x1623, 0x1625, 0x1651, 0x1650, 0x1633, 0x1667, 0x1673, 0x1680] →
        info ∈ soc_sram_info_table ∧ info.soc_id = v.soc_id ∧ info.swap_buffers ≠ none ∧
        ∀ e ∈ soc_sram_info_table, e.soc_id = v.soc_id → e = info) ∧
      (v.soc_id ∉ [0x1623, 0x1625, 0x1651, 0x1650, 0x1633, 0x1667, 0x1673, 0x1680] →
        info = generic_sram_info) ∧
      generic_sram_info.swap_buffers
        = some [⟨0x1C00, 0x5800, 0x400⟩, ⟨0, 0, 0⟩] ∧
      generic_sram_info.scratch_addr = 0x2000 ∧ generic_sram_info.thunk_addr = 0x5680 ∧
      generic_sram_info.thunk_size = 0x180 := by
  refine ⟨_, aw_fel_get_sram_info_first w v w1 hr hv, ?_, ?_, rfl, rfl, rfl, rfl⟩
  · intro h
    obtain ⟨e, h1, h2, h3, h4, h5⟩ := sram_info_scan_known v.soc_id h
    rw [h1]
    exact ⟨h2, h3, h4, h5⟩
  · intro h
    rw [sram_info_scan_unknown v.soc_id h]

/-- C10 at a concrete input: a device reporting the raw id 0x00165100 gets the A20 entry
of the table. -/
theorem soc_lookup_witness :
    ∃ info, (aw_fel_get_sram_info (session_start a20_dev)).value = some info ∧
      info.soc_id = 0x1651 ∧ info.thunk_addr = 0xAE00 ∧
      info.swap_buffers = some a10_a13_a20_sram_swap_buffers := by
  obtain ⟨info, h1, h2, _⟩ := soc_lookup (session_start a20_dev) _ _ rfl
    (res_eq_ok_of_value _ _ a20_dev_version)
  refine ⟨info, by rw [h1]; rfl, (h2 (by decide)).2.1, ?_, ?_⟩
  · have h := (h2 (by decide)).2.2.2 (soc_sram_info_table.getD 2 generic_sram_info)
      (by decide) rfl
    rw [← h]; rfl
  · have h := (h2 (by decide)).2.2.2 (soc_sram_info_table.getD 2 generic_sram_info)
      (by decide) rfl
    rw [← h]; rfl

/-- C11 (swap-buffer table well-formedness). For every SoC descriptor of
`soc_sram_info_table` and for `generic_sram_info`, the `swap_buffers` array consists of
entries that are strictly ascending by `buf1`, whose regions `[buf1, buf1 + size)` are
pairwise disjoint and whose `size` is positive, followed by one last entry, the
sentinel, whose `size` is 0. -/
theorem swap_buffers_well_formed (info : soc_sram_info) (sbs : List sram_swap_buffers)
    (hinfo : info ∈ soc_sram_info_table ∨ info = generic_sram_info)
    (hsbs : info.swap_buffers = some sbs) :
    sbs.dropLast.Pairwise (fun a b => a.buf1 < b.buf1) ∧
    sbs.dropLast.Pairwise
      (fun a b => a.buf1 + a.size ≤ b.buf1 ∨ b.buf1 + b.size ≤ a.buf1) ∧
    (∀ e ∈ sbs.dropLast, e.size > 0) ∧
    sbs.getLast?.map (fun e => e.size) = some 0 := by
  have key : ∀ info ∈ soc_sram_info_table ++ [generic_sram_info],
      ∀ sbs ∈ info.swap_buffers,
        sbs.dropLast.Pairwise (fun a b => a.buf1 < b.buf1) ∧
        sbs.dropLast.Pairwise
          (fun a b => a.buf1 + a.size ≤ b.buf1 ∨ b.buf1 + b.size ≤ a.buf1) ∧
        (∀ e ∈ sbs.dropLast, e.size > 0) ∧
        sbs.getLast?.map (fun e => e.size) = some 0 := by decide
  refine key info ?_ sbs hsbs
  rcases hinfo with h | h
  · exact List.mem_append_left _ h
  · exact List.mem_append_right _ (by simp [h])

/-- C11 at a concrete input: the A20 entry of the table. -/
theorem swap_buffers_well_formed_witness :
    a10_a13_a20_sram_swap_buffers.dropLast.Pairwise (fun a b => a.buf1 < b.buf1) ∧
    a10_a13_a20_sram_swap_buffers.dropLast.Pairwise
      (fun a b => a.buf1 + a.size ≤ b.buf1 ∨ b.buf1 + b.size ≤ a.buf1) ∧
    (∀ e ∈ a10_a13_a20_sram_swap_buffers.dropLast, e.size > 0) ∧
    a10_a13_a20_sram_swap_buffers.getLast?.map (fun e => e.size) = some 0 :=
  swap_buffers_well_formed a20_sram_info a10_a13_a20_sram_swap_buffers
    (Or.inl (by simp [soc_sram_info_table, a20_sram_info])) rfl

/-- C12 (effective SoC id). On an acknowledging device `aw_fel_get_version` returns
a record whose `soc_id` is `(raw >> 8) & 0xFFFF`, where `raw` is the little-endian
32-bit value at offset 8 of the 32-byte reply, the reply being the payload of the
AW-USB read that follows the request; when `raw` is `0x00165100` the `soc_id` is
`0x1651` and `aw_fel_print_version` prints the name "A20" for it. -/
theorem effective_soc_id (w : World) (hacks : Acks w.dev) :
    ∃ v w1 reply t1 t2 t3 status,
      aw_fel_get_version w = .ok v w1 ∧
      w1.usb = w.usb ++ t1 ++ t2 ++ t3 ∧
      AwWrite (htole32 0x001 ++ htole32 0 ++ htole32 0 ++ htole32 0) t1 ∧
      AwRead 32 reply t2 ∧ AwRead 8 status t3 ∧
      v.soc_id = (le32_at reply 8 >>> 8) &&& 0xFFFF ∧
      (le32_at reply 8 = 0x00165100 →
        v.soc_id = 0x1651 ∧ aw_fel_print_version w = .ok ("A20", v) w1) := by
  obtain ⟨v, w1, t1, t2, t3, reply, status, h, _, hu, h1, h2, h3, hid⟩ :=
    aw_fel_get_version_emits w hacks
  refine ⟨v, w1, reply, t1, t2, t3, status, h, by simp [hu], h1, h2, h3, hid, ?_⟩
  intro hraw
  have h1651 : v.soc_id = 0x1651 := by rw [hid, hraw]; decide
  refine ⟨h1651, ?_⟩
  unfold aw_fel_print_version
  rw [bind_apply, h]
  show Res.ok (soc_name v.soc_id, v) w1 = _
  rw [h1651]
  rfl

/-- C12 at a concrete input: a device whose version reply carries the raw id
`0x00165100`. -/
theorem effective_soc_id_witness :
    ∃ v w1 reply t1 t2 t3 status,
      aw_fel_get_version (session_start a20_dev) = .ok v w1 ∧
      w1.usb = (session_start a20_dev).usb ++ t1 ++ t2 ++ t3 ∧
      AwWrite (htole32 0x001 ++ htole32 0 ++ htole32 0 ++ htole32 0) t1 ∧
      AwRead 32 reply t2 ∧ AwRead 8 status t3 ∧
      v.soc_id = (le32_at reply 8 >>> 8) &&& 0xFFFF ∧
      (le32_at reply 8 = 0x00165100 →
        v.soc_id = 0x1651 ∧
          aw_fel_print_version (session_start a20_dev) = .ok ("A20", v) w1) :=
  effective_soc_id (session_start a20_dev) a20_dev_acks

/-- C13 (AW-USB write envelope). For every byte sequence `p` shorter than `2^31`,
the transfers that `aw_usb_write` adds to the wire log are exactly: one send on the OUT
endpoint of the 32 bytes "AWUC", four zero bytes, `len(p)` as 32-bit little-endian,
`0x0c000000` as 32-bit little-endian, `0x12` as 16-bit little-endian, `len(p)` again
as 32-bit little-endian and ten zero bytes; then sends on the OUT endpoint that carry
the bytes of `p` in order (each non-empty and at most 4 MiB); then one 13-byte receive
from the IN endpoint. -/
theorem aw_usb_write_envelope (p : List Byte) (cb : Bool) (w : World)
    (hlen : p.length < 2147483648) :
    ∃ tc ack,
      (aw_usb_write p p.length cb w).world.usb =
        w.usb ++
          [⟨.AW_USB_FEL_BULK_EP_OUT,
            str_AWUC ++ [0, 0, 0, 0] ++ htole32 p.length ++ htole32 0x0c000000
              ++ htole16 0x12 ++ htole32 p.length ++ List.replicate 10 0⟩]
          ++ tc ++ [⟨.AW_USB_FEL_BULK_EP_IN, ack⟩] ∧
      (str_AWUC ++ [0, 0, 0, 0] ++ htole32 p.length ++ htole32 0x0c000000
          ++ htole16 0x12 ++ htole32 p.length ++ List.replicate 10 0).length = 32 ∧
      Chunked .AW_USB_FEL_BULK_EP_OUT p tc ∧ ack.length = 13 := by
  obtain ⟨w1, t, _, hu, ⟨tc, ack, ht, hc, hal⟩, hres, _⟩ :=
    aw_usb_write_trace p p.length cb w hlen (Nat.le_refl _)
  rw [List.take_length] at ht hc
  refine ⟨tc, ack, ?_, rfl, hc, hal⟩
  rw [res_world_of _ _ _ _ _ hres, hu, ht]
  have henv : aw_usb_request_bytes AW_USB_WRITE (p.length : Int)
      = str_AWUC ++ [0, 0, 0, 0] ++ htole32 p.length ++ htole32 0x0c000000
          ++ htole16 0x12 ++ htole32 p.length ++ List.replicate 10 0 := by
    unfold aw_usb_request_bytes
    rw [u32_of_int_small p.length (by omega)]
    rfl
  rw [henv]
  simp only [List.append_assoc, List.cons_append, List.nil_append]

/-- C13 at a concrete input: three bytes written to the mock device. -/
theorem aw_usb_write_envelope_witness :
    ∃ tc ack,
      (aw_usb_write [1, 2, 3] ([1, 2, 3] : List Byte).length false
          (session_start mock_dev)).world.usb =
        (session_start mock_dev).usb ++
          [⟨.AW_USB_FEL_BULK_EP_OUT,
            str_AWUC ++ [0, 0, 0, 0] ++ htole32 ([1, 2, 3] : List Byte).length
              ++ htole32 0x0c000000 ++ htole16 0x12
              ++ htole32 ([1, 2, 3] : List Byte).length ++ List.replicate 10 0⟩]
          ++ tc ++ [⟨.AW_USB_FEL_BULK_EP_IN, ack⟩] ∧
      (str_AWUC ++ [0, 0, 0, 0] ++ htole32 ([1, 2, 3] : List Byte).length
          ++ htole32 0x0c000000 ++ htole16 0x12
          ++ htole32 ([1, 2, 3] : List Byte).length ++ List.replicate 10 0).length = 32 ∧
      Chunked .AW_USB_FEL_BULK_EP_OUT [1, 2, 3] tc ∧ ack.length = 13 :=
  aw_usb_write_envelope [1, 2, 3] false (session_start mock_dev) (by decide)

/-- C15 (counterexample). A 13-byte response whose first 4 bytes are "AWUS" and
whose fifth byte is 1 is rejected: `aw_read_usb_response` ends the run at its
assertion. -/
theorem awus_with_tag_rejected :
    ((List.range 13).map (tagged_ack_dev [] 13)).take 4 = str_AWUS ∧
    (aw_read_usb_response (session_start tagged_ack_dev)).diag = some .assert_awus := by
  decide!

/-- C15 (amended). For every 13-byte response read from the IN endpoint,
`aw_read_usb_response` accepts it exactly when its first 4 bytes are "AWUS" and its
fifth byte is NUL, whatever the values of the remaining 8 bytes; a response it does not
accept ends the run at the assertion. -/
theorem awus_check (w : World) (reply : List Byte)
    (hreply : (List.range 13).map (w.dev w.usb 13) = reply) :
    reply.length = 13 ∧
    (aw_read_usb_response w).world.usb = w.usb ++ [⟨.AW_USB_FEL_BULK_EP_IN, reply⟩] ∧
    ((aw_read_usb_response w).diag = none ↔
      reply.take 4 = str_AWUS ∧ reply.getD 4 0 = 0) ∧
    ((aw_read_usb_response w).diag = none ∨
      (aw_read_usb_response w).diag = some .assert_awus) := by
  obtain ⟨w1, ack, _, hu, hal, hack, h⟩ := aw_read_usb_response_trace w
  rw [hreply] at hack
  subst hack
  have hiff := c_str_eq_iff str_AWUS ack (by decide!)
  rw [h]
  by_cases hc : c_str ack = str_AWUS
  · rw [if_pos hc]
    exact ⟨hal, hu, ⟨fun _ => hiff.mp hc, fun _ => rfl⟩, Or.inl rfl⟩
  · rw [if_neg hc]
    refine ⟨hal, hu, ⟨fun hd => ?_, fun hr => absurd (hiff.mpr hr) hc⟩, Or.inr rfl⟩
    simp [Res.diag] at hd

/-- C15 (amended) at a concrete input: the acknowledgement of the mock device. -/
theorem awus_check_witness :
    ((List.range 13).map (mock_dev [] 13)).length = 13 ∧
    (aw_read_usb_response (session_start mock_dev)).world.usb
      = (session_start mock_dev).usb
          ++ [⟨.AW_USB_FEL_BULK_EP_IN, (List.range 13).map (mock_dev [] 13)⟩] ∧
    ((aw_read_usb_response (session_start mock_dev)).diag = none ↔
      ((List.range 13).map (mock_dev [] 13)).take 4 = str_AWUS ∧
        ((List.range 13).map (mock_dev [] 13)).getD 4 0 = 0) ∧
    ((aw_read_usb_response (session_start mock_dev)).diag = none ∨
      (aw_read_usb_response (session_start mock_dev)).diag = some .assert_awus) :=
  awus_check (session_start mock_dev) _ rfl

/-- C16 (counterexample). The valid 24 KiB SPL `spl_24k` is loaded on a device that
reports the A20, whose swap buffers are `{0x1800,0x8000,0x800}`, `{0x5C00,0x8800,0x2400}`
and whose `spl_addr` is 0.  The FEL commands of the run are listed in full: the fourth
SPL data write, at `0x8800`, carries the payload range `0x5C00..0x6000` (the payload
ends at `0x6000`), and it is followed by the upload of the thunk at `0xAE00`; there is
no tail write at `0x8000`. -/
theorem spl_24k_staging_has_no_tail :
    spl_check_header spl_24k 0x6000 = .ok 0x6000 ∧ spl_24k.length = 0x6000 ∧
    (aw_fel_write_and_execute_spl sample_thunk spl_24k 0x6000
        (session_start a20_fel_dev)).world.fel =
      [ .version,
        .write 0x2000 stackinfo_stub, .exec 0x2000, .read 0x2024 8,
        .write 0x2000 (words_le [0xee122f10, 0xe58f2008, 0xe12fff1e]), .exec 0x2000,
        .read 0x2014 4,
        .write 0x2000 (words_le [0xee112f10, 0xe58f2008, 0xe12fff1e]), .exec 0x2000,
        .read 0x2014 4,
        .write 0 (spl_24k.take 0x1800),
        .write 0x8000 ((spl_24k.drop 0x1800).take 0x800),
        .write 0x2000 ((spl_24k.drop 0x2000).take 0x3C00),
        .write 0x8800 ((spl_24k.drop 0x5C00).take 0x400),
        .write 0xAE00 (words_le (sample_thunk ++
          [0, 0x1800, 0x8000, 0x800, 0x5C00, 0x8800, 0x2400, 0, 0, 0])),
        .exec 0xAE00,
        .read 4 8 ] := by
  refine ⟨spl_24k_valid, spl_24k_length, ?_⟩
  have hinfo := res_eq_ok_of_value (aw_fel_get_sram_info (session_start a20_fel_dev))
    a20_sram_info (by decide!)
  have hprep := res_eq_ok_of_value
    (spl_prepare a20_sram_info
      (aw_fel_get_sram_info (session_start a20_fel_dev)).world) none (by decide!)
  have hlog1 : (spl_prepare a20_sram_info
      (aw_fel_get_sram_info (session_start a20_fel_dev)).world).world.fel =
      [ .version,
        .write 0x2000 stackinfo_stub, .exec 0x2000, .read 0x2024 8,
        .write 0x2000 (words_le [0xee122f10, 0xe58f2008, 0xe12fff1e]), .exec 0x2000,
        .read 0x2014 4,
        .write 0x2000 (words_le [0xee112f10, 0xe58f2008, 0xe12fff1e]), .exec 0x2000,
        .read 0x2014 4 ] := by decide!
  obtain ⟨w2, hl, hdev, hsz, hrun⟩ := spl_staging_walk sample_thunk spl_24k 0x6000 _ _ _ _ _
    hinfo rfl rfl spl_24k_valid hprep (fun _ => rfl) rfl
  rw [hrun, if_neg (by decide)]
  rw [spl_thunk_log_none sample_thunk _ _ 2 w2 (by decide) (by rw [hdev]; exact fun _ => rfl)
    hsz, hl.2.1, hlog1]
  rfl

/-- C16 (amended). For a SoC with swap buffers `{0x1800,0x8000,0x800}`,
`{0x5C00,0x8800,0x2400}`, `spl_addr = 0` and a valid SPL of 24 KiB, on an acknowledging
device with no U-Boot image recorded, once the preparation (cache, stack probe, MMU
backup) has returned, the SPL data writes issued by `aw_fel_write_and_execute_spl` are
exactly, in order: payload range `0x0000..0x1800` at address `0x0000`, `0x1800..0x2000`
at `0x8000`, `0x2000..0x5C00` at `0x2000` and `0x5C00..0x6000` at `0x8800`; the run
then goes on with the size check and the thunk, without a tail write. -/
theorem spl_staging_walk_24k (thunk : List Nat) (buf : List Byte) (len : Nat)
    (w w0 w1 : World) (info : soc_sram_info) (tt : Option (List Nat))
    (hinfo : aw_fel_get_sram_info w = .ok info w0)
    (hsb : info.swap_buffers
      = some [⟨0x1800, 0x8000, 0x800⟩, ⟨0x5C00, 0x8800, 0x2400⟩, ⟨0, 0, 0⟩])
    (haddr : info.spl_addr = 0)
    (hvalid : spl_check_header buf len = .ok 0x6000)
    (hprep : spl_prepare info w0 = .ok tt w1)
    (hacks : Acks w.dev) (hun : w.uboot_size = 0) :
    ∃ w2,
      w2.fel = w1.fel ++
        [.write 0 (buf.take 0x1800), .write 0x8000 ((buf.drop 0x1800).take 0x800),
          .write 0x2000 ((buf.drop 0x2000).take 0x3C00),
          .write 0x8800 ((buf.drop 0x5C00).take 0x400)] ∧
      aw_fel_write_and_execute_spl thunk buf len w =
        (if 0x6000 > (if info.thunk_addr < 0x8000 then info.thunk_addr else 0x8000) then
          die .spl_too_large
         else spl_thunk thunk info
          [⟨0x1800, 0x8000, 0x800⟩, ⟨0x5C00, 0x8800, 0x2400⟩, ⟨0, 0, 0⟩] tt 2) w2 := by
  obtain ⟨w2, hl, _, _, hrun⟩ :=
    spl_staging_walk thunk buf len w w0 w1 info tt hinfo hsb haddr hvalid hprep hacks hun
  exact ⟨w2, hl.2.1, hrun⟩

/-- C16 (amended) at a concrete input: `spl_24k` on a device that reports the A20. -/
theorem spl_staging_walk_24k_witness :
    ∃ w2,
      w2.fel = (spl_prepare a20_sram_info
          (aw_fel_get_sram_info (session_start a20_fel_dev)).world).world.fel ++
        [.write 0 (spl_24k.take 0x1800), .write 0x8000 ((spl_24k.drop 0x1800).take 0x800),
          .write 0x2000 ((spl_24k.drop 0x2000).take 0x3C00),
          .write 0x8800 ((spl_24k.drop 0x5C00).take 0x400)] ∧
      aw_fel_write_and_execute_spl sample_thunk spl_24k 0x6000 (session_start a20_fel_dev) =
        (if 0x6000 > (if a20_sram_info.thunk_addr < 0x8000 then a20_sram_info.thunk_addr
            else 0x8000) then
          die .spl_too_large
         else spl_thunk sample_thunk a20_sram_info
          [⟨0x1800, 0x8000, 0x800⟩, ⟨0x5C00, 0x8800, 0x2400⟩, ⟨0, 0, 0⟩] none 2) w2 :=
  spl_staging_walk_24k sample_thunk spl_24k 0x6000 (session_start a20_fel_dev) _ _
    a20_sram_info none
    (res_eq_ok_of_value _ _ (by decide!)) rfl rfl spl_24k_valid
    (res_eq_ok_of_value _ _ (by decide!)) (fun _ => rfl) rfl

/-- C18 (post-SPL success gate). On an acknowledging device, with no U-Boot image
recorded, every run of `aw_fel_write_and_execute_spl` either ends earlier with a
diagnostic that is not a failure code of the SPL, or reaches the point right after the
execution of the thunk (the last FEL command is the execute at `thunk_addr` of the
descriptor that the lookup returned) and reads 8 bytes at `spl_addr + 4`; from there it completes normally exactly when these 8 bytes
are "eGON.FEL", and for every other value (values containing zero bytes included) it
ends with the failure diagnostic in the world right after the read, so without any
command of the MMU restore. -/
theorem post_spl_gate (thunk : List Nat) (buf : List Byte) (len : Nat) (w : World)
    (hacks : Acks w.dev) (hun : w.uboot_size = 0) :
    (∃ d w1, aw_fel_write_and_execute_spl thunk buf len w = .exit d w1 ∧
      ∀ s, d ≠ .spl_failure_code s) ∨
    (∃ (info : soc_sram_info) (w2 : World) (sig : List Byte) (w3 : World),
      (aw_fel_get_sram_info w).value = some info ∧
      w2.fel.getLast? = some (.exec info.thunk_addr) ∧
      aw_fel_read (u32 (info.spl_addr + 4)) 8 w2 = .ok sig w3 ∧
      w3.fel = w2.fel ++ [.read (u32 (info.spl_addr + 4)) 8] ∧ sig.length = 8 ∧
      (sig = str_eGON_FEL →
        ∃ w4, aw_fel_write_and_execute_spl thunk buf len w = .ok () w4 ∧ Ext w3 w4) ∧
      (sig ≠ str_eGON_FEL →
        aw_fel_write_and_execute_spl thunk buf len w
          = .exit (.spl_failure_code (c_str (sig ++ [0]))) w3)) := by
  rcases aw_fel_write_and_execute_spl_leads thunk buf len w with
    ⟨d, w1, h1, hd⟩ | ⟨info, tt, w0, w2, hinfo, h2, hdev, hsz, hlast⟩
  · exact Or.inl ⟨d, w1, h1, hd⟩
  · have hacks2 : Acks w2.dev := by rw [hdev]; exact hacks
    have hun2 : w2.uboot_size = 0 := by rw [hsz]; exact hun
    obtain ⟨sig, w3, ops, hread, hl, rfl, hlen⟩ :=
      aw_fel_read_performs (u32 (info.spl_addr + 4)) 8 (by omega) w2 hacks2 hun2
    obtain ⟨hbad, hgood⟩ := spl_verify_gate info tt w2 w3 sig hread hlen
    refine Or.inr ⟨info, w2, sig, w3, by rw [hinfo]; rfl, hlast, hread, hl.2.1, hlen, ?_, ?_⟩
    · intro heq
      obtain ⟨w4, h4, he⟩ := hgood heq (by rw [hl.1]; exact hacks2)
        (by rw [hl.2.2.2.2.1]; exact hun2)
      exact ⟨w4, h2.trans h4, he⟩
    · intro hne
      exact h2.trans (hbad hne)

/-- C18 at a concrete input: `tiny_spl` on a device that reports the SoC id `0x1639`. -/
theorem post_spl_gate_witness :
    (∃ d w1, aw_fel_write_and_execute_spl sample_thunk tiny_spl 32 (session_start a80_dev)
        = .exit d w1 ∧
      ∀ s, d ≠ .spl_failure_code s) ∨
    (∃ (info : soc_sram_info) (w2 : World) (sig : List Byte) (w3 : World),
      (aw_fel_get_sram_info (session_start a80_dev)).value = some info ∧
      w2.fel.getLast? = some (.exec info.thunk_addr) ∧
      aw_fel_read (u32 (info.spl_addr + 4)) 8 w2 = .ok sig w3 ∧
      w3.fel = w2.fel ++ [.read (u32 (info.spl_addr + 4)) 8] ∧ sig.length = 8 ∧
      (sig = str_eGON_FEL →
        ∃ w4, aw_fel_write_and_execute_spl sample_thunk tiny_spl 32 (session_start a80_dev)
          = .ok () w4 ∧ Ext w3 w4) ∧
      (sig ≠ str_eGON_FEL →
        aw_fel_write_and_execute_spl sample_thunk tiny_spl 32 (session_start a80_dev)
          = .exit (.spl_failure_code (c_str (sig ++ [0]))) w3)) :=
  post_spl_gate sample_thunk tiny_spl 32 (session_start a80_dev)
    (fun _ => rfl) rfl

/-- C19 (MMU backup decision). Let `ttbr0` and `sctlr` be the values returned by
the two probes of `aw_backup_and_disable_mmu`.  If bit 0 of `sctlr` is clear the
function returns "no table" right after the probes.  Otherwise, if bit 28 of `sctlr` is
set or any of the low 14 bits of `ttbr0` is set, it ends the run.  Otherwise it reads
16 KiB at `ttbr0`; if some index `i` below 4096 has a little-endian-decoded entry with
bit 1 clear, or bit 18 set, or `entry >> 20` different from `i`, it ends the run;
otherwise (on an acknowledging device, with no U-Boot image recorded) it writes and
executes the disable stub and returns the 4096 decoded entries. -/
theorem mmu_backup_decision (info : soc_sram_info) (w w1 w2 : World) (ttbr0 sctlr : Nat)
    (h1 : aw_get_ttbr0 info w = .ok ttbr0 w1) (h2 : aw_get_sctlr info w1 = .ok sctlr w2) :
    (sctlr.testBit 0 = false → aw_backup_and_disable_mmu info w = .ok none w2) ∧
    (sctlr.testBit 0 = true → (sctlr.testBit 28 = true ∨ ttbr0 % 16384 ≠ 0) →
      ∃ d, aw_backup_and_disable_mmu info w = .exit d w2 ∧
        (d = .tex_remap_enabled ∨ d = .unexpected_ttbr0)) ∧
    (sctlr.testBit 0 = true → sctlr.testBit 28 = false → ttbr0 % 16384 = 0 →
      ∀ raw w3, aw_fel_read ttbr0 (16 * 1024) w2 = .ok raw w3 →
        ((∃ i, i < 4096 ∧ ((le32_at raw (4 * i)).testBit 1 = false ∨
              (le32_at raw (4 * i)).testBit 18 = true ∨ le32_at raw (4 * i) >>> 20 ≠ i)) →
          ∃ d, aw_backup_and_disable_mmu info w = .exit d w3 ∧
            (d = .mmu_not_section ∨ d = .mmu_not_direct)) ∧
        ((∀ i, i < 4096 → (le32_at raw (4 * i)).testBit 1 = true ∧
              (le32_at raw (4 * i)).testBit 18 = false ∧ le32_at raw (4 * i) >>> 20 = i) →
          Acks w.dev → w.uboot_size = 0 →
          ∃ w4, aw_backup_and_disable_mmu info w
              = .ok (some ((List.range 4096).map (fun i => le32_at raw (4 * i)))) w4 ∧
            w4.fel = w3.fel ++
              [.write info.scratch_addr
                  (words_le [0xee110f10, 0xe3c00001, 0xe3c00a01, 0xe3c00b02, 0xee010f10,
                    0xe12fff1e]),
                .exec info.scratch_addr])) := by
  have hlow : ttbr0 &&& 0x3FFF = ttbr0 % 16384 := Nat.and_pow_two_sub_one_eq_mod ttbr0 14
  have c0 : ((sctlr &&& 1) = 0) ↔ sctlr.testBit 0 = false := by
    have := shift_and_one sctlr 0
    rw [Nat.shiftRight_zero] at this
    rw [this]
    cases sctlr.testBit 0 <;> simp
  have c28 : (((sctlr >>> 28) &&& 1) ≠ 0) ↔ sctlr.testBit 28 = true := by
    rw [shift_and_one]
    cases sctlr.testBit 28 <;> simp
  obtain ⟨hA, hB, hC, hD⟩ := aw_backup_and_disable_mmu_after_probes info w w1 w2 ttbr0 sctlr h1 h2
  rw [hlow] at hC hD
  refine ⟨fun h0 => hA (c0.mpr h0), ?_, ?_⟩
  · intro h0 hbad
    have n0 : (sctlr &&& 1) ≠ 0 := fun h => by rw [c0.mp h] at h0; cases h0
    by_cases h28 : sctlr.testBit 28 = true
    · exact ⟨_, hB n0 (c28.mpr h28), Or.inl rfl⟩
    · have hl : ttbr0 % 16384 ≠ 0 := by
        rcases hbad with h | h
        · exact absurd h h28
        · exact h
      exact ⟨_, hC n0 (not_not.mp (fun h => h28 (c28.mp h))) hl, Or.inr rfl⟩
  · intro h0 h28 hl raw w3 hread
    have n0 : (sctlr &&& 1) ≠ 0 := fun h => by rw [c0.mp h] at h0; cases h0
    have n28 : ((sctlr >>> 28) &&& 1) = 0 :=
      not_not.mp (fun h => by rw [c28.mp h] at h28; cases h28)
    obtain ⟨hbadT, hgoodT⟩ := hD n0 n28 hl raw w3 hread
    have hiff := mmu_sanity_none_iff ((List.range 4096).map (fun i => le32_at raw (4 * i))) 0
    have hlen4096 : ((List.range 4096).map (fun i => le32_at raw (4 * i))).length = 4096 := by
      rw [List.length_map, List.length_range]
    have hget : ∀ j, j < 4096 →
        ((List.range 4096).map (fun i => le32_at raw (4 * i))).getD j 0
          = le32_at raw (4 * j) := by
      intro j hj
      rw [List.getD_eq_getElem?_getD, List.getElem?_map, List.getElem?_range hj]
      rfl
    rw [hlen4096] at hiff
    generalize (List.range 4096).map (fun i => le32_at raw (4 * i)) = T
      at hiff hget hbadT hgoodT ⊢
    constructor
    · rintro ⟨i, hi, hbad⟩
      cases hs : mmu_sanity 0 T with
      | none =>
        have := hiff.mp hs i hi
        rw [hget i hi, Nat.zero_add] at this
        rcases hbad with hb | hb | hb
        · rw [this.1] at hb; cases hb
        · rw [this.2.1] at hb; cases hb
        · exact absurd this.2.2 hb
      | some d => exact ⟨d, hbadT d hs, mmu_sanity_diag _ _ _ hs⟩
    · intro hgood hacks hun
      have hs : mmu_sanity 0 T = none := by
        rw [hiff]
        intro j hj
        rw [hget j hj, Nat.zero_add]
        exact hgood j hj
      rw [hgoodT hs]
      have e1 : Ext w w1 := keeps_ok (aw_get_ttbr0_keeps cmd_diag_true info) h1
      have e2 : Ext w1 w2 := keeps_ok (aw_get_sctlr_keeps cmd_diag_true info) h2
      have e3 : Ext w2 w3 := keeps_ok (aw_fel_read_keeps cmd_diag_true _ _) hread
      have e : Ext w w3 := ext_trans _ _ _ (ext_trans _ _ _ e1 e2) e3
      obtain ⟨a, w4, ops, h4, hl4, _, o1, _, rfl, rfl, _, o2, _, rfl, rfl, rfl, rfl⟩ :=
        performs_bind (aw_fel_write_performs (words_le [0xee110f10, 0xe3c00001, 0xe3c00a01,
            0xe3c00b02, 0xee010f10, 0xe12fff1e]) info.scratch_addr 24)
          (fun _ => performs_bind (aw_fel_execute_performs info.scratch_addr)
            (fun _ => performs_pure (some T))) w3 (by rw [e.1]; exact hacks)
          (by rw [e.2.2.2.2.1]; exact hun)
      exact ⟨w4, h4, hl4.2.1⟩

/-- C19 at a concrete input: the mock device, whose probes both read 0. -/
theorem mmu_backup_decision_witness :
    ((0 : Nat).testBit 0 = false →
      aw_backup_and_disable_mmu generic_sram_info (session_start mock_dev)
        = .ok none (aw_get_sctlr generic_sram_info
            (aw_get_ttbr0 generic_sram_info (session_start mock_dev)).world).world) ∧
    ((0 : Nat).testBit 0 = true → ((0 : Nat).testBit 28 = true ∨ 0 % 16384 ≠ 0) →
      ∃ d, aw_backup_and_disable_mmu generic_sram_info (session_start mock_dev)
          = .exit d (aw_get_sctlr generic_sram_info
              (aw_get_ttbr0 generic_sram_info (session_start mock_dev)).world).world ∧
        (d = .tex_remap_enabled ∨ d = .unexpected_ttbr0)) ∧
    ((0 : Nat).testBit 0 = true → (0 : Nat).testBit 28 = false → 0 % 16384 = 0 →
      ∀ raw w3, aw_fel_read 0 (16 * 1024) (aw_get_sctlr generic_sram_info
          (aw_get_ttbr0 generic_sram_info (session_start mock_dev)).world).world
          = .ok raw w3 →
        ((∃ i, i < 4096 ∧ ((le32_at raw (4 * i)).testBit 1 = false ∨
              (le32_at raw (4 * i)).testBit 18 = true ∨ le32_at raw (4 * i) >>> 20 ≠ i)) →
          ∃ d, aw_backup_and_disable_mmu generic_sram_info (session_start mock_dev)
              = .exit d w3 ∧
            (d = .mmu_not_section ∨ d = .mmu_not_direct)) ∧
        ((∀ i, i < 4096 → (le32_at raw (4 * i)).testBit 1 = true ∧
              (le32_at raw (4 * i)).testBit 18 = false ∧ le32_at raw (4 * i) >>> 20 = i) →
          Acks (session_start mock_dev).dev → (session_start mock_dev).uboot_size = 0 →
          ∃ w4, aw_backup_and_disable_mmu generic_sram_info (session_start mock_dev)
              = .ok (some ((List.range 4096).map (fun i => le32_at raw (4 * i)))) w4 ∧
            w4.fel = w3.fel ++
              [.write generic_sram_info.scratch_addr
                  (words_le [0xee110f10, 0xe3c00001, 0xe3c00a01, 0xe3c00b02, 0xee010f10,
                    0xe12fff1e]),
                .exec generic_sram_info.scratch_addr])) :=
  mmu_backup_decision generic_sram_info (session_start mock_dev) _ _ 0 0
    (res_eq_ok_of_value _ _ (by decide!)) (res_eq_ok_of_value _ _ (by decide!))

/-- C20 (counterexample). For the table `flat_table` the entry with index `0x800`,
which is outside `0x400 <= i < 0x800` and is not `0xFFF`, is not written back
unchanged: `aw_restore_and_enable_mmu` writes `0x80001C02` in place of `0x80000C02`. -/
theorem mmu_restore_rewrites_entry_0x800 :
    flat_table.length = 4096 ∧ flat_table.getD 0x800 0 = 0x80000C02 ∧
    (tt_rewrite flat_table).getD 0x800 0 = 0x80001C02 ∧
    (match (aw_restore_and_enable_mmu generic_sram_info flat_table
        (session_start mock_dev)).world.fel.getD 3 (.exec 0) with
      | .write a d => (a, d.length, le32_at d (4 * 0x800))
      | _ => (1, 0, 0)) = (0, 16384, 0x80001C02) := by
  decide!

/-- C20 (amended). For every captured 4096-entry translation table, the table that
`aw_restore_and_enable_mmu` writes back at the TTBR0 address gives the DRAM mapping to
exactly the entries with index `i`, `0x400 <= i < 0xC00`: each such entry becomes the
old entry with bits 14..12, bit 3 and bit 2 cleared and then bit 12 set, and every
entry with an index outside that range other than `0xFFF` is written back unchanged. -/
theorem mmu_restore_dram_range (info : soc_sram_info) (tt : List Nat)
    (hlen : tt.length = 4096) :
    (∀ i, 0x400 ≤ i → i < 0xC00 →
      (tt_rewrite tt).getD i 0 = (tt.getD i 0 &&& 0xFFFF8FF3) ||| 0x1000) ∧
    (∀ e b, b < 32 →
      ((e &&& 0xFFFF8FF3) ||| 0x1000).testBit b =
        if b = 12 then true
        else if b = 13 ∨ b = 14 ∨ b = 3 ∨ b = 2 then false
        else e.testBit b) ∧
    (∀ i, i < 4096 → ¬ (0x400 ≤ i ∧ i < 0xC00) → i ≠ 0xFFF →
      (tt_rewrite tt).getD i 0 = tt.getD i 0) ∧
    (∀ w, Acks w.dev → w.uboot_size = 0 →
      ∃ w1 ttbr0 probe rest, aw_restore_and_enable_mmu info tt w = .ok () w1 ∧
        w1.fel = w.fel ++ probe ++ [.write ttbr0 (words_le (tt_rewrite tt))] ++ rest ∧
        (∀ op ∈ probe ++ rest, ∀ a d, op = .write a d → a = info.scratch_addr)) := by
  refine ⟨?_, ?_, ?_, ?_⟩
  · intro i h1 h2
    rw [tt_rewrite_getD tt i (by omega) (by omega)]
    unfold tt_dram_entry
    rw [if_pos (by constructor <;> [exact h1; exact h2])]
    rfl
  · intro e b hb
    rw [texcb_testBit]
    by_cases h12 : b = 12
    · simp [h12]
    · have hiff : (b = 13 ∨ b = 14 ∨ b = 3 ∨ b = 2 ∨ 32 ≤ b) ↔
          (b = 13 ∨ b = 14 ∨ b = 3 ∨ b = 2) := by omega
      simp only [h12, if_false, hiff]
  · intro i hi hout h
    rw [tt_rewrite_getD tt i (by omega) h]
    unfold tt_dram_entry
    rw [if_neg]
    intro hc
    exact hout (by constructor <;> [exact hc.1; exact hc.2])
  · intro w hw hun
    obtain ⟨_, w1, ops, h, hl, ttbr0, rfl⟩ :=
      aw_restore_and_enable_mmu_performs info tt w hw hun
    have hfull : (words_le (tt_rewrite tt)).take (16 * 1024) = words_le (tt_rewrite tt) :=
      List.take_of_length_le (by rw [words_le_length, tt_rewrite_length, hlen])
    refine ⟨w1, ttbr0,
      [.write info.scratch_addr (words_le [0xee122f10, 0xe58f2008, 0xe12fff1e]),
        .exec info.scratch_addr, .read (u32 (info.scratch_addr + 0x14)) 4],
      [.write info.scratch_addr
          (words_le [0xe3a00000, 0xee080f17, 0xee070f15, 0xee070fd5, 0xf57ff04f,
            0xf57ff06f, 0xee110f10, 0xe3800001, 0xe3800a01, 0xe3800b02, 0xee010f10,
            0xe12fff1e]),
        .exec info.scratch_addr], h, ?_, ?_⟩
    · rw [hl.2.1, hfull]
      simp only [List.append_assoc, List.cons_append, List.nil_append]
    · intro op hop a d hop2
      subst hop2
      simp at hop
      rcases hop with h | h <;> exact h.1

/-- C20 (amended) at a concrete input: the table `flat_table`. -/
theorem mmu_restore_dram_range_witness :
    (∀ i, 0x400 ≤ i → i < 0xC00 →
      (tt_rewrite flat_table).getD i 0 = (flat_table.getD i 0 &&& 0xFFFF8FF3) ||| 0x1000) ∧
    (∀ e b, b < 32 →
      ((e &&& 0xFFFF8FF3) ||| 0x1000).testBit b =
        if b = 12 then true
        else if b = 13 ∨ b = 14 ∨ b = 3 ∨ b = 2 then false
        else e.testBit b) ∧
    (∀ i, i < 4096 → ¬ (0x400 ≤ i ∧ i < 0xC00) → i ≠ 0xFFF →
      (tt_rewrite flat_table).getD i 0 = flat_table.getD i 0) ∧
    (∀ w, Acks w.dev → w.uboot_size = 0 →
      ∃ w1 ttbr0 probe rest,
        aw_restore_and_enable_mmu generic_sram_info flat_table w = .ok () w1 ∧
        w1.fel = w.fel ++ probe ++ [.write ttbr0 (words_le (tt_rewrite flat_table))]
          ++ rest ∧
        (∀ op ∈ probe ++ rest, ∀ a d, op = .write a d →
          a = generic_sram_info.scratch_addr)) :=
  mmu_restore_dram_range generic_sram_info flat_table (by decide!)

/-- C21 (MMU restore, BROM section). For every captured 4096-entry translation table,
in the table that `aw_restore_and_enable_mmu` writes back the entry `0xFFF` is the old
entry with bits 14 and 13 cleared and bits 12, 3 and 2 set, its other bits unchanged;
the table is written, after the TTBR0 probe, at the address `ttbr0` the probe returned,
as 16384 bytes in which bytes `4 * i .. 4 * i + 3` are the little-endian encoding of
entry `i`; the write of the enable stub to the scratch area and its execution
follow. -/
theorem mmu_restore_brom_section (info : soc_sram_info) (tt : List Nat)
    (hlen : tt.length = 4096) (w w0 : World) (ttbr0 : Nat)
    (hprobe : aw_get_ttbr0 info w = .ok ttbr0 w0) (hacks : Acks w.dev)
    (hun : w.uboot_size = 0) :
    (tt_rewrite tt).getD 0xFFF 0 = (tt.getD 0xFFF 0 &&& 0xFFFF8FF3) ||| 0x100C ∧
    (∀ e b, b < 32 →
      ((e &&& 0xFFFF8FF3) ||| 0x100C).testBit b =
        if b = 12 ∨ b = 3 ∨ b = 2 then true
        else if b = 13 ∨ b = 14 then false
        else e.testBit b) ∧
    (∃ w1, aw_restore_and_enable_mmu info tt w = .ok () w1 ∧
      w1.fel = w0.fel ++
        [.write ttbr0 (words_le (tt_rewrite tt)),
         .write info.scratch_addr
           (words_le [0xe3a00000, 0xee080f17, 0xee070f15, 0xee070fd5, 0xf57ff04f,
             0xf57ff06f, 0xee110f10, 0xe3800001, 0xe3800a01, 0xe3800b02, 0xee010f10,
             0xe12fff1e]),
         .exec info.scratch_addr]) ∧
    (words_le (tt_rewrite tt)).length = 16 * 1024 ∧
    (∀ i, i < 4096 →
      ((words_le (tt_rewrite tt)).drop (4 * i)).take 4 = htole32 ((tt_rewrite tt).getD i 0)) := by
  have hl : (words_le (tt_rewrite tt)).length = 16 * 1024 := by
    rw [words_le_length, tt_rewrite_length, hlen]
  refine ⟨tt_rewrite_brom tt (by omega), texcb_brom_testBit, ?_, hl, ?_⟩
  · have he : Ext w w0 := keeps_ok (aw_get_ttbr0_keeps (D := fun _ => True)
      (fun _ _ => trivial) info) hprobe
    have hacks0 : Acks w0.dev := by rw [he.1]; exact hacks
    have hun0 : w0.uboot_size = 0 := by rw [he.2.2.2.2.1]; exact hun
    obtain ⟨_, w1, ops, h1, hl1, _, o1, _, rfl, rfl, _, o2, _, rfl, rfl, rfl⟩ :=
      performs_bind (aw_fel_write_performs (words_le (tt_rewrite tt)) ttbr0 (16 * 1024))
        (fun _ => performs_bind (aw_fel_write_performs
          (words_le [0xe3a00000, 0xee080f17, 0xee070f15, 0xee070fd5, 0xf57ff04f,
             0xf57ff06f, 0xee110f10, 0xe3800001, 0xe3800a01, 0xe3800b02, 0xee010f10,
             0xe12fff1e]) info.scratch_addr 48)
          (fun _ => aw_fel_execute_performs info.scratch_addr)) w0 hacks0 hun0
    refine ⟨w1, ?_, ?_⟩
    · unfold aw_restore_and_enable_mmu
      rw [bind_ok hprobe]
      exact h1
    · rw [hl1.2.1, List.take_of_length_le (Nat.le_of_eq hl)]
      rfl
  · intro i hi
    exact words_le_at _ i (by rw [tt_rewrite_length, hlen]; exact hi)

/-- C21 at a concrete input: the table `flat_table` on the mock device, whose TTBR0
probe reads 0. -/
theorem mmu_restore_brom_section_witness :
    (tt_rewrite flat_table).getD 0xFFF 0 = (flat_table.getD 0xFFF 0 &&& 0xFFFF8FF3) ||| 0x100C ∧
    (∀ e b, b < 32 →
      ((e &&& 0xFFFF8FF3) ||| 0x100C).testBit b =
        if b = 12 ∨ b = 3 ∨ b = 2 then true
        else if b = 13 ∨ b = 14 then false
        else e.testBit b) ∧
    (∃ w1, aw_restore_and_enable_mmu generic_sram_info flat_table (session_start mock_dev)
        = .ok () w1 ∧
      w1.fel = (aw_get_ttbr0 generic_sram_info (session_start mock_dev)).world.fel ++
        [.write 0 (words_le (tt_rewrite flat_table)),
         .write generic_sram_info.scratch_addr
           (words_le [0xe3a00000, 0xee080f17, 0xee070f15, 0xee070fd5, 0xf57ff04f,
             0xf57ff06f, 0xee110f10, 0xe3800001, 0xe3800a01, 0xe3800b02, 0xee010f10,
             0xe12fff1e]),
         .exec generic_sram_info.scratch_addr]) ∧
    (words_le (tt_rewrite flat_table)).length = 16 * 1024 ∧
    (∀ i, i < 4096 →
      ((words_le (tt_rewrite flat_table)).drop (4 * i)).take 4
        = htole32 ((tt_rewrite flat_table).getD i 0)) :=
  mmu_restore_brom_section generic_sram_info flat_table (by decide!)
    (session_start mock_dev) _ 0 (res_eq_ok_of_value _ _ (by decide!)) mock_dev_acks rfl

/-- C22 (`have_sunxi_spl`). Let `sig` be the bytes that the FEL read of 4 bytes at
`spl_addr + 0x14` stored.  `have_sunxi_spl` returns normally, in the world the read left,
with 1 when the first three bytes are 'S', 'P', 'L' and the fourth byte is 1, and with 0
otherwise (other signature, version byte 0, version byte above 1). -/
theorem have_sunxi_spl_result (spl_addr : Nat) (w w1 : World) (sig : List Byte)
    (hread : aw_fel_read (u32 (spl_addr + 0x14)) 4 w = .ok sig w1) :
    have_sunxi_spl spl_addr w =
      .ok (if sig.take 3 = [0x53, 0x50, 0x4C] ∧ byte_at sig 3 = 1 then 1 else 0) w1 ∧
    (sig.take 3 ≠ [0x53, 0x50, 0x4C] → have_sunxi_spl spl_addr w = .ok 0 w1) ∧
    (byte_at sig 3 < 1 → have_sunxi_spl spl_addr w = .ok 0 w1) ∧
    (byte_at sig 3 > 1 → have_sunxi_spl spl_addr w = .ok 0 w1) := by
  have key : have_sunxi_spl spl_addr w =
      .ok (if sig.take 3 = [0x53, 0x50, 0x4C] ∧ byte_at sig 3 = 1 then 1 else 0) w1 := by
    unfold have_sunxi_spl
    rw [bind_ok hread]
    have hS : SPL_SIGNATURE = [0x53, 0x50, 0x4C] := rfl
    have hmin : SPL_MIN_VERSION = 1 := rfl
    have hmax : SPL_MAX_VERSION = 1 := rfl
    rw [hS, hmin, hmax]
    by_cases h1 : sig.take 3 = [0x53, 0x50, 0x4C]
    · by_cases h2 : byte_at sig 3 < 1
      · rw [if_neg (not_not.mpr h1), if_pos h2, if_neg (by omega)]
        rfl
      · by_cases h3 : byte_at sig 3 > 1
        · rw [if_neg (not_not.mpr h1), if_neg h2, if_pos h3, if_neg (by omega)]
          rfl
        · rw [if_neg (not_not.mpr h1), if_neg h2, if_neg h3, if_pos ⟨h1, by omega⟩]
          rfl
    · rw [if_pos h1, if_neg (fun h => h1 h.1)]
      rfl
  refine ⟨key, ?_, ?_, ?_⟩
  · intro h
    rw [key, if_neg (fun hc => h hc.1)]
  · intro h
    rw [key, if_neg (fun hc => by omega)]
  · intro h
    rw [key, if_neg (fun hc => by omega)]

/-- C22 at a concrete input: a device that answers the read with "SPL" and version 1. -/
theorem have_sunxi_spl_result_witness :
    have_sunxi_spl 0 (session_start sunxi_spl_dev) =
      .ok (if ([0x53, 0x50, 0x4C, 0x01] : List Byte).take 3 = [0x53, 0x50, 0x4C] ∧
            byte_at [0x53, 0x50, 0x4C, 0x01] 3 = 1 then 1 else 0)
        (aw_fel_read (u32 (0 + 0x14)) 4 (session_start sunxi_spl_dev)).world ∧
    (([0x53, 0x50, 0x4C, 0x01] : List Byte).take 3 ≠ [0x53, 0x50, 0x4C] →
      have_sunxi_spl 0 (session_start sunxi_spl_dev) =
        .ok 0 (aw_fel_read (u32 (0 + 0x14)) 4 (session_start sunxi_spl_dev)).world) ∧
    (byte_at [0x53, 0x50, 0x4C, 0x01] 3 < 1 →
      have_sunxi_spl 0 (session_start sunxi_spl_dev) =
        .ok 0 (aw_fel_read (u32 (0 + 0x14)) 4 (session_start sunxi_spl_dev)).world) ∧
    (byte_at [0x53, 0x50, 0x4C, 0x01] 3 > 1 →
      have_sunxi_spl 0 (session_start sunxi_spl_dev) =
        .ok 0 (aw_fel_read (u32 (0 + 0x14)) 4 (session_start sunxi_spl_dev)).world) :=
  have_sunxi_spl_result 0 (session_start sunxi_spl_dev) _ [0x53, 0x50, 0x4C, 0x01]
    (res_eq_ok_of_value _ _ (by decide!))

/-- C23 (the code at the failing input). On the mock device, with the command line
`fel exe 0x2000 ver`, `main` returns normally after a single FEL command, the EXECUTE at
`0x2000`: the `exe` branch sets `skip = 3`, so the token `ver` that follows the address
is consumed with it and the version query is never issued.  For comparison, `fel ver`
issues the version query, and in `fel exe 0x2000 ver ver` it is the second `ver` that is
dispatched. -/
theorem exe_consumes_two_tokens :
    strtoul "0x2000" = 0x2000 ∧
    (fel_main sample_thunk ["exe", "0x2000", "ver"] empty_host (session_start mock_dev)).diag
      = none ∧
    (fel_main sample_thunk ["exe", "0x2000", "ver"] empty_host
      (session_start mock_dev)).world.fel = [.exec 0x2000] ∧
    (fel_main sample_thunk ["ver"] empty_host (session_start mock_dev)).world.fel
      = [.version] ∧
    (fel_main sample_thunk ["exe", "0x2000", "ver", "ver"] empty_host
      (session_start mock_dev)).world.fel = [.exec 0x2000, .version] := by
  decide!

/-- C24 (thunk blob layout and cap). Let the swap buffers of a descriptor be `n` entries
of non-zero size followed by the all-zero entry, and let the thunk code have
`thunk.length` words (`T = 4 * thunk.length` bytes).  The swap-buffer loop of the loader
leaves its counter at `n`.  The words of the blob are the thunk code, `spl_addr`, the
words `buf1, buf2, size` of the `n` entries in order, and three zero words; encoded
little-endian they are `T + 4 + 12 * (n + 1)` bytes.  When that total exceeds
`thunk_size` the thunk segment ends with the thunk-size diagnostic and nothing is
written; otherwise it never ends with that diagnostic, and on an acknowledging device
with no U-Boot image recorded it writes exactly the blob at `thunk_addr`, executes
`thunk_addr` and goes on with the read-back. -/
theorem thunk_blob_layout (thunk : List Nat) (info : soc_sram_info)
    (entries rest : List sram_swap_buffers) (tt : Option (List Nat))
    (hne : ∀ e ∈ entries, e.size ≠ 0) :
    (∀ (st0 st : Staging) (w w1 : World), st0.i = 0 →
      spl_stage_loop info.spl_addr (entries ++ ⟨0, 0, 0⟩ :: rest) st0 w = .ok st w1 →
      st.i = entries.length) ∧
    thunk_words thunk info.spl_addr (entries ++ ⟨0, 0, 0⟩ :: rest) entries.length
      = thunk ++ [info.spl_addr]
          ++ (entries.map (fun e => [e.buf1, e.buf2, e.size])).flatten ++ [0, 0, 0] ∧
    (words_le (thunk_words thunk info.spl_addr (entries ++ ⟨0, 0, 0⟩ :: rest)
      entries.length)).length = 4 * thunk.length + 4 + 12 * (entries.length + 1) ∧
    (4 * thunk.length + 4 + 12 * (entries.length + 1) > info.thunk_size →
      ∀ w, spl_thunk thunk info (entries ++ ⟨0, 0, 0⟩ :: rest) tt entries.length w
        = .exit .spl_bad_thunk_size w) ∧
    (¬ 4 * thunk.length + 4 + 12 * (entries.length + 1) > info.thunk_size →
      (∀ w, (spl_thunk thunk info (entries ++ ⟨0, 0, 0⟩ :: rest) tt entries.length w).diag
        ≠ some .spl_bad_thunk_size) ∧
      (∀ w, Acks w.dev → w.uboot_size = 0 →
        ∃ w2, Logs [.write info.thunk_addr
              (words_le (thunk ++ [info.spl_addr]
                ++ (entries.map (fun e => [e.buf1, e.buf2, e.size])).flatten ++ [0, 0, 0])),
            .exec info.thunk_addr] w w2 ∧
          spl_thunk thunk info (entries ++ ⟨0, 0, 0⟩ :: rest) tt entries.length w
            = spl_verify info tt w2)) := by
  have htw : thunk_words thunk info.spl_addr (entries ++ ⟨0, 0, 0⟩ :: rest) entries.length
      = thunk ++ [info.spl_addr]
          ++ (entries.map (fun e => [e.buf1, e.buf2, e.size])).flatten ++ [0, 0, 0] := by
    unfold thunk_words
    have ht : (entries ++ (⟨0, 0, 0⟩ : sram_swap_buffers) :: rest).take (entries.length + 1)
        = entries ++ [⟨0, 0, 0⟩] := by
      rw [List.take_append_eq_append_take, List.take_of_length_le (by omega)]
      simp
    rw [ht, List.map_append, List.flatten_append]
    simp
  have hlen : (words_le (thunk_words thunk info.spl_addr (entries ++ ⟨0, 0, 0⟩ :: rest)
      entries.length)).length = 4 * thunk.length + 4 + 12 * (entries.length + 1) := by
    rw [words_le_length, htw]
    simp only [List.length_append, List.length_flatten, List.map_map, List.length_cons,
      List.length_nil]
    rw [triples_length entries]
    omega
  have hsz : 4 * thunk.length + 4 + (entries.length + 1) * 12
      = 4 * thunk.length + 4 + 12 * (entries.length + 1) := by omega
  refine ⟨?_, htw, hlen, ?_, ?_⟩
  · intro st0 st w w1 h0 hrun
    obtain ⟨_, hi⟩ := spl_stage_loop_ok_inv _ _ _ _ _ _ hrun
    rw [hi, h0, take_while_size entries rest ⟨0, 0, 0⟩ hne rfl]
    omega
  · intro hbig w
    rw [spl_thunk_eq, hsz, if_pos hbig]
    rfl
  · intro hfit
    constructor
    · intro w hd
      have hk : Keeps Ext (fun d => d ≠ .spl_bad_thunk_size)
          (aw_fel_write (words_le (thunk_words thunk info.spl_addr
              (entries ++ ⟨0, 0, 0⟩ :: rest) entries.length)) info.thunk_addr
            (4 * thunk.length + 4 + 12 * (entries.length + 1)) >>= fun _ =>
            aw_fel_execute info.thunk_addr >>= fun _ => spl_verify info tt) := by
        have hD : ∀ d, CmdDiag d → d ≠ .spl_bad_thunk_size := by
          intro d hd he
          subst he
          rcases hd with h | h <;> cases h
        exact keeps_bind ext_trans (aw_fel_write_keeps hD _ _ _)
          (fun _ => keeps_bind ext_trans (aw_fel_execute_keeps hD _)
            (fun _ => spl_verify_keeps hD (fun _ h => by cases h) info tt))
      rw [spl_thunk_eq, hsz, if_neg hfit] at hd
      exact (hk w).2 _ hd rfl
    · intro w hacks hun
      obtain ⟨_, w2, ops, h2, hl2, _, o1, _, rfl, rfl, rfl⟩ :=
        performs_bind (aw_fel_write_performs (words_le (thunk_words thunk info.spl_addr
              (entries ++ ⟨0, 0, 0⟩ :: rest) entries.length)) info.thunk_addr
            (4 * thunk.length + 4 + 12 * (entries.length + 1)))
          (fun _ => aw_fel_execute_performs info.thunk_addr) w hacks hun
      refine ⟨w2, ?_, ?_⟩
      · rw [List.take_of_length_le (Nat.le_of_eq hlen), htw] at hl2
        exact hl2
      · rw [spl_thunk_eq, hsz, if_neg hfit, ← bind_assoc_fel, bind_ok h2]

/-- C24 at a concrete input: the A20 descriptor (two entries) with a thunk of one word:
a blob of 44 bytes. -/
theorem thunk_blob_layout_witness :
    (∀ (st0 st : Staging) (w w1 : World), st0.i = 0 →
      spl_stage_loop a20_sram_info.spl_addr
        ([⟨0x1800, 0x8000, 0x800⟩, ⟨0x5C00, 0x8800, 0x2400⟩] ++ ⟨0, 0, 0⟩ :: []) st0 w
          = .ok st w1 →
      st.i = ([⟨0x1800, 0x8000, 0x800⟩, ⟨0x5C00, 0x8800, 0x2400⟩]
        : List sram_swap_buffers).length) ∧
    thunk_words sample_thunk a20_sram_info.spl_addr
        ([⟨0x1800, 0x8000, 0x800⟩, ⟨0x5C00, 0x8800, 0x2400⟩] ++ ⟨0, 0, 0⟩ :: [])
        ([⟨0x1800, 0x8000, 0x800⟩, ⟨0x5C00, 0x8800, 0x2400⟩] : List sram_swap_buffers).length
      = sample_thunk ++ [a20_sram_info.spl_addr]
          ++ (([⟨0x1800, 0x8000, 0x800⟩, ⟨0x5C00, 0x8800, 0x2400⟩]
            : List sram_swap_buffers).map (fun e => [e.buf1, e.buf2, e.size])).flatten
          ++ [0, 0, 0] ∧
    (words_le (thunk_words sample_thunk a20_sram_info.spl_addr
        ([⟨0x1800, 0x8000, 0x800⟩, ⟨0x5C00, 0x8800, 0x2400⟩] ++ ⟨0, 0, 0⟩ :: [])
        ([⟨0x1800, 0x8000, 0x800⟩, ⟨0x5C00, 0x8800, 0x2400⟩]
          : List sram_swap_buffers).length)).length
      = 4 * sample_thunk.length + 4 + 12 * (([⟨0x1800, 0x8000, 0x800⟩,
          ⟨0x5C00, 0x8800, 0x2400⟩] : List sram_swap_buffers).length + 1) ∧
    (4 * sample_thunk.length + 4 + 12 * (([⟨0x1800, 0x8000, 0x800⟩,
          ⟨0x5C00, 0x8800, 0x2400⟩] : List sram_swap_buffers).length + 1)
        > a20_sram_info.thunk_size →
      ∀ w, spl_thunk sample_thunk a20_sram_info
          ([⟨0x1800, 0x8000, 0x800⟩, ⟨0x5C00, 0x8800, 0x2400⟩] ++ ⟨0, 0, 0⟩ :: []) none
          ([⟨0x1800, 0x8000, 0x800⟩, ⟨0x5C00, 0x8800, 0x2400⟩]
            : List sram_swap_buffers).length w
        = .exit .spl_bad_thunk_size w) ∧
    (¬ 4 * sample_thunk.length + 4 + 12 * (([⟨0x1800, 0x8000, 0x800⟩,
          ⟨0x5C00, 0x8800, 0x2400⟩] : List sram_swap_buffers).length + 1)
        > a20_sram_info.thunk_size →
      (∀ w, (spl_thunk sample_thunk a20_sram_info
          ([⟨0x1800, 0x8000, 0x800⟩, ⟨0x5C00, 0x8800, 0x2400⟩] ++ ⟨0, 0, 0⟩ :: []) none
          ([⟨0x1800, 0x8000, 0x800⟩, ⟨0x5C00, 0x8800, 0x2400⟩]
            : List sram_swap_buffers).length w).diag
        ≠ some .spl_bad_thunk_size) ∧
      (∀ w, Acks w.dev → w.uboot_size = 0 →
        ∃ w2, Logs [.write a20_sram_info.thunk_addr
              (words_le (sample_thunk ++ [a20_sram_info.spl_addr]
                ++ (([⟨0x1800, 0x8000, 0x800⟩, ⟨0x5C00, 0x8800, 0x2400⟩]
                  : List sram_swap_buffers).map
                    (fun e => [e.buf1, e.buf2, e.size])).flatten ++ [0, 0, 0])),
            .exec a20_sram_info.thunk_addr] w w2 ∧
          spl_thunk sample_thunk a20_sram_info
              ([⟨0x1800, 0x8000, 0x800⟩, ⟨0x5C00, 0x8800, 0x2400⟩] ++ ⟨0, 0, 0⟩ :: []) none
              ([⟨0x1800, 0x8000, 0x800⟩, ⟨0x5C00, 0x8800, 0x2400⟩]
                : List sram_swap_buffers).length w
            = spl_verify a20_sram_info none w2)) :=
  thunk_blob_layout sample_thunk a20_sram_info
    [⟨0x1800, 0x8000, 0x800⟩, ⟨0x5C00, 0x8800, 0x2400⟩] [] none (by decide)

/-- C25 (counterexample). On the mock device the image `low_image` is loaded: the
session records the footprint `0x4A000000`, size `0x10`.  A second call of
`aw_fel_write_uboot_image`, for `high_image`, returns normally as well and replaces the
recorded entry point by `0x4B000000`. -/
theorem uboot_footprint_overwritten :
    (session [] [.uboot_image low_image 80] (session_start mock_dev)).diag = none ∧
    (session [] [.uboot_image low_image 80] (session_start mock_dev)).world.uboot_size
      = 0x10 ∧
    (session [] [.uboot_image low_image 80] (session_start mock_dev)).world.uboot_entry
      = 0x4A000000 ∧
    (session [] [.uboot_image low_image 80, .uboot_image high_image 80]
      (session_start mock_dev)).diag = none ∧
    (session [] [.uboot_image low_image 80, .uboot_image high_image 80]
      (session_start mock_dev)).world.uboot_entry = 0x4B000000 := by
  decide!

/-- C25 (amended). However it ends, a session operation other than
`aw_fel_write_uboot_image` (FEL write, read, execute, SPL load), and so every sequence
of such operations, leaves `uboot_entry` and `uboot_size` as they were.  A call of
`aw_fel_write_uboot_image` leaves them as they were when it ends the process or is given
at most 64 bytes, and sets them to the load address and the data size of the image,
whatever was recorded before, when it returns for a longer buffer. -/
theorem uboot_footprint_updates (thunk : List Nat) (ops : List SessionOp)
    (hops : ∀ op ∈ ops, ∀ buf len, op ≠ .uboot_image buf len) (w : World)
    (buf : List Byte) (len : Nat) :
    (∀ op ∈ ops, Foot w (op.call thunk w).world) ∧
    Foot w (session thunk ops w).world ∧
    (∀ d w1, aw_fel_write_uboot_image buf len w = .exit d w1 → Foot w w1) ∧
    (∀ w1, aw_fel_write_uboot_image buf len w = .ok () w1 → len ≤ 64 → Foot w w1) ∧
    (∀ w1, aw_fel_write_uboot_image buf len w = .ok () w1 → 64 < len →
      w1.uboot_entry = be32_at buf 16 ∧ w1.uboot_size = be32_at buf 12 ∧
      be32_at buf 12 = sub64 len 64) :=
  ⟨fun op hop => (session_op_foot thunk op (hops op hop) w).1,
    (session_foot thunk ops hops w).1, aw_fel_write_uboot_image_foot buf len w⟩

/-- C25 (amended) at a concrete input: a write, an SPL load and an execute in a session
with an armed footprint, and the load of `high_image` in that session. -/
theorem uboot_footprint_updates_witness :
    (∀ op ∈ [SessionOp.write [1, 2] 0x2000 2, .spl tiny_spl 32, .exec 0x2000],
      Foot dram_session (op.call sample_thunk dram_session).world) ∧
    Foot dram_session
      (session sample_thunk [.write [1, 2] 0x2000 2, .spl tiny_spl 32, .exec 0x2000]
        dram_session).world ∧
    (∀ d w1, aw_fel_write_uboot_image high_image 80 dram_session = .exit d w1 →
      Foot dram_session w1) ∧
    (∀ w1, aw_fel_write_uboot_image high_image 80 dram_session = .ok () w1 → 80 ≤ 64 →
      Foot dram_session w1) ∧
    (∀ w1, aw_fel_write_uboot_image high_image 80 dram_session = .ok () w1 → 64 < 80 →
      w1.uboot_entry = be32_at high_image 16 ∧ w1.uboot_size = be32_at high_image 12 ∧
      be32_at high_image 12 = sub64 80 64) :=
  uboot_footprint_updates sample_thunk
    [.write [1, 2] 0x2000 2, .spl tiny_spl 32, .exec 0x2000]
    (by
      intro op hop buf len h
      subst h
      simp at hop)
    dram_session high_image 80

/-- C26 (bulk send chunking). For every payload `p` of `n < 2^31` bytes, `usb_bulk_send`
on the OUT endpoint returns after `ceil(n / 4194304)` transfers, each on the OUT
endpoint and of at most 4194304 bytes, whose data concatenated in order is `p`; nothing
but the wire log and the callback log changes; with a progress callback the callback log
gets one entry per transfer, in order: `n`, the number of bytes sent up to and
including that transfer, and the length of that transfer; without one it gets none.
The same holds when the function drives the IN endpoint for `n` bytes, as `aw_usb_read`
uses it, with the bytes received in place of the payload. -/
theorem bulk_send_chunking (p : List Byte) (cb : Bool) (w : World)
    (hlen : p.length < 2147483648) :
    (∃ w1 t, usb_bulk_send .AW_USB_FEL_BULK_EP_OUT p (p.length : Int) cb w = .ok [] w1 ∧
      Wire w w1 ∧ w1.usb = w.usb ++ t ∧
      t.length = (p.length + 4194303) / 4194304 ∧
      (∀ x ∈ t, x.ep = .AW_USB_FEL_BULK_EP_OUT ∧ x.data.length ≤ 4194304) ∧
      (t.map (fun x => x.data)).flatten = p ∧
      w1.sink = w.sink ++
        (if cb then (List.range t.length).map (fun j =>
          ((p.length : Int),
           ((((t.take (j + 1)).map (fun x => x.data.length)).sum : Nat) : Int),
           (((t.getD j ⟨.AW_USB_FEL_BULK_EP_OUT, []⟩).data.length : Nat) : Int)))
         else [])) ∧
    (∀ data : List Byte,
      ∃ w1 t got, usb_bulk_send .AW_USB_FEL_BULK_EP_IN data (p.length : Int) cb w
          = .ok got w1 ∧
        Wire w w1 ∧ w1.usb = w.usb ++ t ∧
        t.length = (p.length + 4194303) / 4194304 ∧
        (∀ x ∈ t, x.ep = .AW_USB_FEL_BULK_EP_IN ∧ x.data.length ≤ 4194304) ∧
        (t.map (fun x => x.data)).flatten = got ∧ got.length = p.length ∧
        w1.sink = w.sink ++
          (if cb then (List.range t.length).map (fun j =>
            ((p.length : Int),
             ((((t.take (j + 1)).map (fun x => x.data.length)).sum : Nat) : Int),
             (((t.getD j ⟨.AW_USB_FEL_BULK_EP_IN, []⟩).data.length : Nat) : Int)))
           else [])) := by
  have _ := hlen
  constructor
  · unfold usb_bulk_send
    rw [Int.toNat_ofNat]
    obtain ⟨w1, t, h1, hw, hu, hc, hcount, hs⟩ :=
      usb_bulk_send_loop_sink (p.length : Int) cb p.length p.length p [] w (Nat.le_refl _)
        (Nat.le_refl _)
    rw [List.take_length] at hc
    refine ⟨w1, t, h1, hw, hu, hcount, fun x hx => ⟨(hc.2 x hx).1, (hc.2 x hx).2.2⟩, hc.1, ?_⟩
    rw [hs]
    cases cb with
    | false => rfl
    | true =>
      simp only [if_true]
      congr 1
      apply List.map_congr_left
      intro j _
      congr 2
      omega
  · intro data
    unfold usb_bulk_send
    rw [Int.toNat_ofNat]
    obtain ⟨w1, t, got, h1, hw, hu, hc, hg, hcount, hs⟩ :=
      usb_bulk_send_loop_in_sink (p.length : Int) cb p.length p.length data [] w
        (Nat.le_refl _)
    refine ⟨w1, t, got, by rw [h1, List.nil_append], hw, hu, hcount,
      fun x hx => ⟨(hc.2 x hx).1, (hc.2 x hx).2.2⟩, hc.1, hg, ?_⟩
    rw [hs]
    cases cb with
    | false => rfl
    | true =>
      simp only [if_true]
      congr 1
      apply List.map_congr_left
      intro j _
      congr 2
      omega

/-- C26 at a concrete input: a payload of 9 MiB, with a progress callback: three
transfers. -/
theorem bulk_send_chunking_witness :
    ∃ w1 t, usb_bulk_send .AW_USB_FEL_BULK_EP_OUT (List.replicate 9437184 0)
        (((List.replicate 9437184 (0 : Byte)).length : Nat) : Int) true
        (session_start mock_dev) = .ok [] w1 ∧
      t.length = 3 ∧ w1.usb = t ∧
      (t.map (fun x => x.data)).flatten = List.replicate 9437184 0 ∧
      w1.sink = (List.range t.length).map (fun j =>
          ((((List.replicate 9437184 (0 : Byte)).length : Nat) : Int),
           ((((t.take (j + 1)).map (fun x => x.data.length)).sum : Nat) : Int),
           (((t.getD j ⟨.AW_USB_FEL_BULK_EP_OUT, []⟩).data.length : Nat) : Int))) := by
  obtain ⟨⟨w1, t, h1, _, hu, hcount, _, hcat, hs⟩, _⟩ :=
    bulk_send_chunking (List.replicate 9437184 0) true (session_start mock_dev)
      (by simp only [List.length_replicate]; decide)
  exact ⟨w1, t, h1, by rw [hcount, List.length_replicate], by rw [hu]; rfl, hcat,
    by rw [hs]; rfl⟩

/-- C27 (SPL staging placement). Let the lookup have returned a descriptor whose swap
entries (those before the first entry of size 0) are sorted by `buf1`, do not overlap,
start at or above `spl_addr` and have `buf1 < 2^32`; let the buffer hold a validated SPL
of stored length `n` with `spl_addr + n < 2^32` and `n` within the enforced size limit;
let the device acknowledge, let the preparation have returned, and let the interlock
refuse no write into the SPL range or into a stash region.  Then between the
preparation and the thunk segment the loader issues only FEL writes, and the bytes they
carry are, in order, the bytes `k = 0, 1, .., n - 1` of the buffer, each exactly once:
byte `k` at `buf2 + (spl_addr + k - buf1)` when `spl_addr + k` lies in the swap region
`[buf1, buf1 + size)` of an entry, and at `spl_addr + k` otherwise. -/
theorem spl_staging_placement (thunk : List Nat) (buf : List Byte) (len : Nat)
    (w w0 w1 : World) (info : soc_sram_info) (sbs : List sram_swap_buffers)
    (tt : Option (List Nat)) (n : Nat)
    (hinfo : aw_fel_get_sram_info w = .ok info w0)
    (hsb : info.swap_buffers = some sbs)
    (hvalid : spl_check_header buf len = .ok n) (hbuf : len ≤ buf.length)
    (hprep : spl_prepare info w0 = .ok tt w1)
    (hsorted : SortedFrom info.spl_addr (sbs.takeWhile (fun e => decide (e.size ≠ 0))))
    (h32 : ∀ e ∈ sbs.takeWhile (fun e => decide (e.size ≠ 0)), e.buf1 < 4294967296)
    (hov : info.spl_addr + n < 4294967296)
    (hfit : ¬ n > enforced_spl_len_limit info sbs)
    (hacks : Acks w.dev)
    (hfree1 : ∀ a l, info.spl_addr ≤ a → a + l ≤ info.spl_addr + n → ¬ interlock w a l)
    (hfree2 : ∀ e ∈ sbs.takeWhile (fun e => decide (e.size ≠ 0)), ∀ l, l ≤ e.size →
      ¬ interlock w e.buf2 l) :
    ∃ ws w2, Logs (ws.map (fun p => FelOp.write p.1 p.2)) w1 w2 ∧
      placed ws = (List.range n).map (fun k =>
        (spec_spl_target (sbs.takeWhile (fun e => decide (e.size ≠ 0))) (info.spl_addr + k),
          buf.getD k 0)) ∧
      aw_fel_write_and_execute_spl thunk buf len w =
        spl_thunk thunk info sbs tt (sbs.takeWhile (fun e => decide (e.size ≠ 0))).length
          w2 := by
  have hf := aw_fel_get_sram_info_frame w
  rw [hinfo] at hf
  have he1 : Ext w0 w1 := keeps_ok (spl_prepare_keeps (D := fun _ => True)
    (fun _ _ => trivial) trivial trivial trivial trivial info) hprep
  have hd0 : w0.dev = w.dev := hf.1
  have hue : w0.uboot_entry = w.uboot_entry := hf.2.2.2.1
  have hus : w0.uboot_size = w.uboot_size := hf.2.2.2.2.1
  have hacks1 : Acks w1.dev := by rw [he1.1, hd0]; exact hacks
  have hil : ∀ a l, interlock w1 a l ↔ interlock w a l := by
    intro a l
    unfold interlock
    rw [he1.2.2.2.1, he1.2.2.2.2.1, hue, hus]
  have hn : n ≤ buf.length := le_trans (spl_check_header_ok buf len n hvalid).2.2.2.1 hbuf
  rw [aw_fel_write_and_execute_spl_eq thunk buf len w w0 info sbs n hinfo hsb hvalid,
    spl_stage_and_run_eq, bind_ok hprep]
  obtain ⟨st1, w2, ws, h2, hl2, hle, hc2, hb2, hp2, hend⟩ :=
    spl_stage_loop_placement info.spl_addr sbs 0 SPL_LEN_LIMIT info.spl_addr buf n w1 hov hn
      hsorted h32 hacks1 (fun a l ha hal => by rw [hil]; exact hfree1 a l ha hal)
      (fun e he l hl => by rw [hil]; exact hfree2 e he l hl)
  obtain ⟨hlim, hi⟩ := spl_stage_loop_ok_inv _ _ _ _ _ _ h2
  have hcheck : ¬ n > (if info.thunk_addr < st1.spl_len_limit then info.thunk_addr
      else st1.spl_len_limit) := by
    rw [hlim]
    exact hfit
  rw [bind_ok h2, spl_finish_eq, if_neg hcheck, hi, Nat.zero_add]
  by_cases hpos : st1.len > 0
  · rw [if_pos hpos]
    obtain ⟨w3, h3, hl3⟩ := aw_fel_write_ok st1.buf st1.cur_addr st1.len w2
      (by
        rw [interlock_of_logs hl2, hil]
        exact hfree1 _ _ (by rw [hc2]; omega) (by rw [hc2]; omega))
      (by rw [hl2.1]; exact hacks1)
    refine ⟨ws ++ [(st1.cur_addr, st1.buf.take st1.len)], w3, ?_, ?_, by rw [bind_ok h3]⟩
    · rw [List.map_append]
      exact logs_trans hl2 hl3
    · have hsplit : n = (n - st1.len) + st1.len := by omega
      have hgoal : (List.range n).map (fun k =>
          (spec_spl_target (sbs.takeWhile (fun e => decide (e.size ≠ 0))) (info.spl_addr + k),
            buf.getD k 0))
          = spec_spl_placement (sbs.takeWhile (fun e => decide (e.size ≠ 0))) info.spl_addr
              buf n := rfl
      rw [hgoal, placed_append, hp2, placed_take _ _ _ (by rw [hb2, List.length_drop]; omega)]
      conv_rhs => rw [hsplit, spec_spl_placement_split]
      congr 1
      unfold spec_spl_placement
      apply List.map_congr_left
      intro j _
      rw [spec_spl_target_above _ _ (fun e he => by
        have := hend hpos e he
        rw [hc2] at this
        omega), hc2, hb2]
  · rw [if_neg hpos]
    have h0 : st1.len = 0 := by omega
    refine ⟨ws, w2, hl2, ?_, rfl⟩
    rw [hp2, h0]
    rfl

/-- C27 at a concrete input: the 24 KiB image `spl_24k` on a device that reports the
A20, in a session with a U-Boot footprint recorded at `0x4A000000`. -/
theorem spl_staging_placement_witness :
    ∃ ws w2, Logs (ws.map (fun p => FelOp.write p.1 p.2))
        (spl_prepare a20_sram_info (aw_fel_get_sram_info a20_armed_session).world).world w2 ∧
      placed ws = (List.range 0x6000).map (fun k =>
        (spec_spl_target
            (a10_a13_a20_sram_swap_buffers.takeWhile (fun e => decide (e.size ≠ 0)))
            (a20_sram_info.spl_addr + k),
          spl_24k.getD k 0)) ∧
      aw_fel_write_and_execute_spl sample_thunk spl_24k 0x6000 a20_armed_session =
        spl_thunk sample_thunk a20_sram_info a10_a13_a20_sram_swap_buffers none
          (a10_a13_a20_sram_swap_buffers.takeWhile (fun e => decide (e.size ≠ 0))).length
          w2 :=
  spl_staging_placement sample_thunk spl_24k 0x6000 a20_armed_session _ _ a20_sram_info
    a10_a13_a20_sram_swap_buffers none 0x6000
    (res_eq_ok_of_value _ _ (by decide!)) rfl spl_24k_valid (Nat.le_of_eq spl_24k_length.symm)
    (res_eq_ok_of_value _ _ (by decide!)) (by decide) (by decide) (by decide) (by decide)
    (fun _ => rfl)
    (fun a l _ h hi => by
      have h3 : usize (a + l) ≥ 0x4A000000 := hi.2.2
      unfold usize at h3
      have : a + l ≤ 0x6000 := h
      omega)
    (fun e he l hl hi => by
      have h3 : usize (e.buf2 + l) ≥ 0x4A000000 := hi.2.2
      unfold usize at h3
      have hb : ∀ x ∈ a10_a13_a20_sram_swap_buffers.takeWhile (fun e => decide (e.size ≠ 0)),
          x.buf2 + x.size ≤ 0xAC00 := by decide
      have := hb e he
      omega)

/-- C28 (checksum closed form). For a stored length `n >= 16` the loader's checksum
variable ends at zero exactly when the stored checksum word (offset 12) equals
`0x5F0A6C39` plus the sum of the other little-endian 32-bit words below `n`, modulo
`2^32`; hence, for an eGON.BT0-signed buffer of `len >= 32` bytes whose stored length is
a multiple of 4, at least 16 and at most `len`, the header validation of the loader
passes exactly in that case, and fails with the checksum diagnostic otherwise. -/
theorem spl_checksum_closed_form (buf : List Byte) (len : Nat) (hlen : 32 ≤ len)
    (hsig : (buf.drop 4).take 8 = str_eGON_BT0) (hmul : le32_at buf 16 % 4 = 0)
    (hmin : 16 ≤ le32_at buf 16) (hmax : le32_at buf 16 ≤ len) :
    (spl_checksum buf (le32_at buf 16) = 0 ↔
      le32_at buf 12 = (0x5F0A6C39 +
        (((List.range (le32_at buf 16 / 4)).filter (fun i => decide (i ≠ 3))).map
          (fun i => le32_at buf (4 * i))).sum) % 4294967296) ∧
    (spl_check_header buf len = .ok (le32_at buf 16) ↔
      le32_at buf 12 = (0x5F0A6C39 +
        (((List.range (le32_at buf 16 / 4)).filter (fun i => decide (i ≠ 3))).map
          (fun i => le32_at buf (4 * i))).sum) % 4294967296) ∧
    (spl_check_header buf len = .ok (le32_at buf 16) ∨
      spl_check_header buf len = .error .spl_checksum) := by
  have hsum := word_sum_split (fun i => le32_at buf (4 * i)) (le32_at buf 16 / 4) (by omega)
  have hlt := le32_at_lt buf 12
  have hkey : spl_checksum buf (le32_at buf 16) = 0 ↔
      le32_at buf 12 = (0x5F0A6C39 +
        (((List.range (le32_at buf 16 / 4)).filter (fun i => decide (i ≠ 3))).map
          (fun i => le32_at buf (4 * i))).sum) % 4294967296 := by
    rw [spl_checksum_eq_zero_iff, hsum]
    simp only [Nat.reduceMul] at hlt ⊢
    generalize (((List.range (le32_at buf 16 / 4)).filter (fun i => decide (i ≠ 3))).map
          (fun i => le32_at buf (4 * i))).sum = so
    generalize le32_at buf 12 = s at hlt
    omega
  have hnot : ¬ (len < 32 ∨ (buf.drop 4).take 8 ≠ str_eGON_BT0) := by
    rintro (h | h)
    · omega
    · exact h hsig
  have hnot2 : ¬ (le32_at buf 16 > len ∨ le32_at buf 16 % 4 ≠ 0) := by omega
  refine ⟨hkey, ?_, ?_⟩
  · rw [← hkey]
    unfold spl_check_header
    simp only [hnot, hnot2, if_false]
    by_cases h : spl_checksum buf (le32_at buf 16) = 0
    · simp [h]
    · simp [h]
  · unfold spl_check_header
    simp only [hnot, hnot2, if_false]
    by_cases h : spl_checksum buf (le32_at buf 16) = 0
    · simp [h]
    · simp [h]

/-- C28 at a concrete input: the 32-byte payload `tiny_spl`, whose stored checksum
`0xC7ADF602` is `0x5F0A6C39` plus the other seven words. -/
theorem spl_checksum_closed_form_witness :
    (spl_checksum tiny_spl (le32_at tiny_spl 16) = 0 ↔
      le32_at tiny_spl 12 = (0x5F0A6C39 +
        (((List.range (le32_at tiny_spl 16 / 4)).filter (fun i => decide (i ≠ 3))).map
          (fun i => le32_at tiny_spl (4 * i))).sum) % 4294967296) ∧
    (spl_check_header tiny_spl 32 = .ok (le32_at tiny_spl 16) ↔
      le32_at tiny_spl 12 = (0x5F0A6C39 +
        (((List.range (le32_at tiny_spl 16 / 4)).filter (fun i => decide (i ≠ 3))).map
          (fun i => le32_at tiny_spl (4 * i))).sum) % 4294967296) ∧
    (spl_check_header tiny_spl 32 = .ok (le32_at tiny_spl 16) ∨
      spl_check_header tiny_spl 32 = .error .spl_checksum) :=
  spl_checksum_closed_form tiny_spl 32 (by decide) (by decide) (by decide!) (by decide!)
    (by decide!)

/-- C29 (SRAM layout disjointness). For every descriptor of `soc_sram_info_table` that
has swap buffers and for `generic_sram_info`, with `L` the SPL length limit that the
loader enforces: the SPL region `[spl_addr, spl_addr + L)` and the thunk region
`[thunk_addr, thunk_addr + thunk_size)` have no address in common; every stash region
`[buf2, buf2 + size)` of a swap entry is apart from the SPL region, from the thunk
region and from every BROM-live region `[buf1, buf1 + size)`; the stash regions of two
entries are apart; and `L` is the limit that the size check of the loader uses whenever
the swap-buffer loop has returned. -/
theorem sram_layout_disjoint (info : soc_sram_info) (sbs : List sram_swap_buffers)
    (hmem : info ∈ soc_sram_info_table ∨ info = generic_sram_info)
    (hsb : info.swap_buffers = some sbs) :
    Apart info.spl_addr (enforced_spl_len_limit info sbs) info.thunk_addr info.thunk_size ∧
    (∀ e ∈ sbs.takeWhile (fun e => decide (e.size ≠ 0)),
      Apart info.spl_addr (enforced_spl_len_limit info sbs) e.buf2 e.size ∧
      Apart e.buf2 e.size info.thunk_addr info.thunk_size ∧
      ∀ e1 ∈ sbs.takeWhile (fun e => decide (e.size ≠ 0)),
        Apart e.buf2 e.size e1.buf1 e1.size) ∧
    List.Pairwise (fun e e1 => Apart e.buf2 e.size e1.buf2 e1.size)
      (sbs.takeWhile (fun e => decide (e.size ≠ 0))) ∧
    (∀ (st0 st : Staging) (w w1 : World), st0.spl_len_limit = SPL_LEN_LIMIT →
      spl_stage_loop info.spl_addr sbs st0 w = .ok st w1 →
      (if info.thunk_addr < st.spl_len_limit then info.thunk_addr else st.spl_len_limit)
        = enforced_spl_len_limit info sbs) := by
  have hc : layout_check info sbs = true := by
    rcases hmem with h | h
    · exact layout_check_table info h sbs hsb
    · subst h
      cases hsb
      decide
  have hp : List.Pairwise
      (fun e e1 => e.buf2 + e.size ≤ e1.buf2 ∨ e1.buf2 + e1.size ≤ e.buf2)
      (sbs.takeWhile (fun e => decide (e.size ≠ 0))) := by
    rcases hmem with h | h
    · exact stash_pairwise_table info h sbs hsb
    · subst h
      cases hsb
      decide
  obtain ⟨h1, h2⟩ := layout_check_sound info sbs hc
  refine ⟨h1, h2, hp.imp (fun h => apart_of_le _ _ _ _ h), ?_⟩
  intro st0 st w w1 h0 hrun
  obtain ⟨hl, _⟩ := spl_stage_loop_ok_inv info.spl_addr sbs st0 st w w1 hrun
  rw [hl, h0]
  rfl

/-- C29 at a concrete input: the A20 descriptor. -/
theorem sram_layout_disjoint_witness :
    Apart a20_sram_info.spl_addr
      (enforced_spl_len_limit a20_sram_info a10_a13_a20_sram_swap_buffers)
      a20_sram_info.thunk_addr a20_sram_info.thunk_size ∧
    (∀ e ∈ a10_a13_a20_sram_swap_buffers.takeWhile (fun e => decide (e.size ≠ 0)),
      Apart a20_sram_info.spl_addr
        (enforced_spl_len_limit a20_sram_info a10_a13_a20_sram_swap_buffers) e.buf2 e.size ∧
      Apart e.buf2 e.size a20_sram_info.thunk_addr a20_sram_info.thunk_size ∧
      ∀ e1 ∈ a10_a13_a20_sram_swap_buffers.takeWhile (fun e => decide (e.size ≠ 0)),
        Apart e.buf2 e.size e1.buf1 e1.size) ∧
    List.Pairwise (fun e e1 => Apart e.buf2 e.size e1.buf2 e1.size)
      (a10_a13_a20_sram_swap_buffers.takeWhile (fun e => decide (e.size ≠ 0))) ∧
    (∀ (st0 st : Staging) (w w1 : World), st0.spl_len_limit = SPL_LEN_LIMIT →
      spl_stage_loop a20_sram_info.spl_addr a10_a13_a20_sram_swap_buffers st0 w
        = .ok st w1 →
      (if a20_sram_info.thunk_addr < st.spl_len_limit then a20_sram_info.thunk_addr
        else st.spl_len_limit)
        = enforced_spl_len_limit a20_sram_info a10_a13_a20_sram_swap_buffers) :=
  sram_layout_disjoint a20_sram_info a10_a13_a20_sram_swap_buffers
    (Or.inl (by decide)) rfl

/-- C30 (enforced SPL length limits). Let the swap-buffer loop of the loader, started
with the limit `SPL_LEN_LIMIT` as the loader starts it, have returned the variables
`st`.  For each of the eight descriptors of `soc_sram_info_table` that have swap buffers
the size check that follows compares the SPL length with `0x8000`; for
`generic_sram_info` it compares it with `0x5680`. -/
theorem enforced_spl_len_limits (info : soc_sram_info) (sbs : List sram_swap_buffers)
    (hsb : info.swap_buffers = some sbs) (st0 st : Staging) (w w1 : World)
    (h0 : st0.spl_len_limit = SPL_LEN_LIMIT)
    (hrun : spl_stage_loop info.spl_addr sbs st0 w = .ok st w1) :
    (soc_sram_info_table.filter (fun e => e.swap_buffers.isSome)).length = 8 ∧
    (info ∈ soc_sram_info_table →
      enforced_spl_len_limit info sbs = 0x8000 ∧
      ∀ (thunk : List Nat) (spl_len : Nat) (tt : Option (List Nat)),
        spl_finish thunk info sbs spl_len tt st =
          (if spl_len > 0x8000 then die .spl_too_large
           else
            (if st.len > 0 then aw_fel_write st.buf st.cur_addr st.len else pure ()) >>=
              fun _ => spl_thunk thunk info sbs tt st.i)) ∧
    (info = generic_sram_info →
      enforced_spl_len_limit info sbs = 0x5680 ∧
      ∀ (thunk : List Nat) (spl_len : Nat) (tt : Option (List Nat)),
        spl_finish thunk info sbs spl_len tt st =
          (if spl_len > 0x5680 then die .spl_too_large
           else
            (if st.len > 0 then aw_fel_write st.buf st.cur_addr st.len else pure ()) >>=
              fun _ => spl_thunk thunk info sbs tt st.i)) := by
  obtain ⟨hl, _⟩ := spl_stage_loop_ok_inv info.spl_addr sbs st0 st w w1 hrun
  have hlim : (if info.thunk_addr < st.spl_len_limit then info.thunk_addr
      else st.spl_len_limit) = enforced_spl_len_limit info sbs := by
    rw [hl, h0]
    rfl
  refine ⟨by decide, ?_, ?_⟩
  · intro hmem
    have hv := enforced_limit_table info hmem sbs hsb
    refine ⟨hv, ?_⟩
    intro thunk spl_len tt
    rw [spl_finish_eq, hlim, hv]
  · intro hg
    have hv : enforced_spl_len_limit info sbs = 0x5680 := by
      subst hg
      cases hsb
      rfl
    refine ⟨hv, ?_⟩
    intro thunk spl_len tt
    rw [spl_finish_eq, hlim, hv]

/-- C30 at a concrete input: the A20 descriptor, the loop run with nothing to stage. -/
theorem enforced_spl_len_limits_witness :
    (soc_sram_info_table.filter (fun e => e.swap_buffers.isSome)).length = 8 ∧
    (a20_sram_info ∈ soc_sram_info_table →
      enforced_spl_len_limit a20_sram_info a10_a13_a20_sram_swap_buffers = 0x8000 ∧
      ∀ (thunk : List Nat) (spl_len : Nat) (tt : Option (List Nat)),
        spl_finish thunk a20_sram_info a10_a13_a20_sram_swap_buffers spl_len tt
            ⟨2, 0x8000, 0, [], 0⟩ =
          (if spl_len > 0x8000 then die .spl_too_large
           else
            (if (0 : Nat) > 0 then aw_fel_write [] 0 0 else pure ()) >>=
              fun _ => spl_thunk thunk a20_sram_info a10_a13_a20_sram_swap_buffers tt 2)) ∧
    (a20_sram_info = generic_sram_info →
      enforced_spl_len_limit a20_sram_info a10_a13_a20_sram_swap_buffers = 0x5680 ∧
      ∀ (thunk : List Nat) (spl_len : Nat) (tt : Option (List Nat)),
        spl_finish thunk a20_sram_info a10_a13_a20_sram_swap_buffers spl_len tt
            ⟨2, 0x8000, 0, [], 0⟩ =
          (if spl_len > 0x5680 then die .spl_too_large
           else
            (if (0 : Nat) > 0 then aw_fel_write [] 0 0 else pure ()) >>=
              fun _ => spl_thunk thunk a20_sram_info a10_a13_a20_sram_swap_buffers tt 2)) :=
  enforced_spl_len_limits a20_sram_info a10_a13_a20_sram_swap_buffers rfl
    ⟨0, SPL_LEN_LIMIT, 0, [], 0⟩ ⟨2, 0x8000, 0, [], 0⟩ (session_start mock_dev)
    (session_start mock_dev) rfl rfl

/-- X1. When the 32-bit sum `uboot_entry + uboot_size` does not wrap (and `offset + len`
fits a `size_t`), an armed footprint refuses every write with
`offset <= uboot_entry + uboot_size` and `offset + len >= uboot_entry`: the call ends
with the interlock diagnostic and the world is unchanged, so nothing is sent. -/
theorem interlock_refuses_without_wrap (w : World) (buf : List Byte) (offset len : Nat)
    (harmed : w.uboot_size > 0)
    (hnowrap : w.uboot_entry + w.uboot_size < 4294967296)
    (hlen : offset + len < 18446744073709551616)
    (h1 : offset ≤ w.uboot_entry + w.uboot_size) (h2 : offset + len ≥ w.uboot_entry) :
    aw_fel_write buf offset len w = .exit .overwrite_uboot w := by
  apply aw_fel_write_refused
  unfold interlock u32 usize
  refine ⟨harmed, ?_, ?_⟩
  · rw [Nat.mod_eq_of_lt hnowrap]; exact h1
  · rw [Nat.mod_eq_of_lt hlen]; exact h2

/-- X1 at a concrete input: a one-byte write into the footprint of `dram_session`. -/
theorem interlock_refuses_without_wrap_witness :
    aw_fel_write [0] 0x4A000010 1 dram_session = .exit .overwrite_uboot dram_session :=
  interlock_refuses_without_wrap dram_session [0] 0x4A000010 1 (by decide) (by decide)
    (by decide) (by decide) (by decide)

/-- X2. One iteration of the command loop of `main`, for each command given with all its
arguments: the command's function is called with the converted arguments and the loop
goes on with the tokens that follow them, except for `exe`, after which one more token
is dropped. -/
theorem command_loop_step (thunk : List Nat) (fuel : Nat) (rest : List String) (h : Host)
    (auto : Bool) (a b c : String) :
    fel_main_loop thunk (fuel + 1) ("hex" :: a :: b :: rest) h auto =
      (aw_fel_hexdump (u32 (strtoul a)) (strtoul b) >>= fun _ =>
        fel_main_loop thunk fuel rest h auto) ∧
    fel_main_loop thunk (fuel + 1) ("dump" :: a :: b :: rest) h auto =
      (aw_fel_dump (u32 (strtoul a)) (strtoul b) >>= fun _ =>
        fel_main_loop thunk fuel rest h auto) ∧
    fel_main_loop thunk (fuel + 1) ("exe" :: a :: rest) h auto =
      (aw_fel_execute (u32 (strtoul a)) >>= fun _ =>
        fel_main_loop thunk fuel (rest.drop 1) h auto) ∧
    fel_main_loop thunk (fuel + 1) ("ver" :: rest) h auto =
      (aw_fel_print_version >>= fun _ => fel_main_loop thunk fuel rest h auto) ∧
    fel_main_loop thunk (fuel + 1) ("write" :: a :: b :: rest) h auto =
      (load_file b h >>= fun p =>
        aw_fel_write p.1 (u32 (strtoul a)) p.1.length >>= fun _ =>
        (if get_image_type p.1 p.1.length = IH_TYPE_SCRIPT then
          pass_fel_information (u32 (strtoul a)) else pure ()) >>= fun _ =>
        fel_main_loop thunk fuel rest p.2 auto) ∧
    fel_main_loop thunk (fuel + 1) ("read" :: a :: b :: c :: rest) h auto =
      (aw_fel_read (u32 (strtoul a)) (strtoul b) >>= fun buf =>
        save_file c buf (strtoul b) h >>= fun h1 =>
        fel_main_loop thunk fuel rest h1 auto) ∧
    fel_main_loop thunk (fuel + 1) ("clear" :: a :: b :: rest) h auto =
      (aw_fel_fill (u32 (strtoul a)) (strtoul b) 0 >>= fun _ =>
        fel_main_loop thunk fuel rest h auto) ∧
    fel_main_loop thunk (fuel + 1) ("fill" :: a :: b :: c :: rest) h auto =
      (aw_fel_fill (u32 (strtoul a)) (strtoul b) (Fin.ofNat (strtoul c)) >>= fun _ =>
        fel_main_loop thunk fuel rest h auto) ∧
    fel_main_loop thunk (fuel + 1) ("spl" :: a :: rest) h auto =
      (load_file a h >>= fun p =>
        aw_fel_process_spl_and_uboot thunk p.1 p.1.length >>= fun _ =>
        fel_main_loop thunk fuel rest p.2 auto) ∧
    fel_main_loop thunk (fuel + 1) ("uboot" :: a :: rest) h auto =
      (load_file a h >>= fun p =>
        aw_fel_process_spl_and_uboot thunk p.1 p.1.length >>= fun _ =>
        uboot_detected >>= fun detected =>
        fel_main_loop thunk fuel rest p.2 detected) := by
  refine ⟨?_, ?_, ?_, ?_, ?_, ?_, ?_, ?_, ?_, ?_⟩
  · rw [fel_main_loop]
    dsimp only
    rw [if_pos ⟨by decide, by simp⟩]
    rfl
  · rw [fel_main_loop]
    dsimp only
    rw [if_neg (fun hc => absurd hc.1 (by decide)),
      if_pos ⟨by decide, by simp⟩]
    rfl
  · rw [fel_main_loop]
    dsimp only
    rw [if_neg (fun hc => absurd hc.1 (by decide)),
      if_neg (fun hc => absurd hc.1 (by decide)),
      if_pos ⟨by decide, by simp⟩]
    rfl
  · rw [fel_main_loop]
    dsimp only
    rw [if_neg (fun hc => absurd hc.1 (by decide)),
      if_neg (fun hc => absurd hc.1 (by decide)),
      if_neg (fun hc => absurd hc.1 (by decide)),
      if_pos ⟨by decide, by simp⟩]
    rfl
  · rw [fel_main_loop]
    dsimp only
    rw [if_neg (fun hc => absurd hc.1 (by decide)),
      if_neg (fun hc => absurd hc.1 (by decide)),
      if_neg (fun hc => absurd hc.1 (by decide)),
      if_neg (fun hc => absurd hc.1 (by decide)),
      if_pos ⟨by decide, by simp⟩]
    rfl
  · rw [fel_main_loop]
    dsimp only
    rw [if_neg (fun hc => absurd hc.1 (by decide)),
      if_neg (fun hc => absurd hc.1 (by decide)),
      if_neg (fun hc => absurd hc.1 (by decide)),
      if_neg (fun hc => absurd hc.1 (by decide)),
      if_neg (fun hc => absurd hc.1 (by decide)),
      if_pos ⟨by decide, by simp⟩]
    rfl
  · rw [fel_main_loop]
    dsimp only
    rw [if_neg (fun hc => absurd hc.1 (by decide)),
      if_neg (fun hc => absurd hc.1 (by decide)),
      if_neg (fun hc => absurd hc.1 (by decide)),
      if_neg (fun hc => absurd hc.1 (by decide)),
      if_neg (fun hc => absurd hc.1 (by decide)),
      if_neg (fun hc => absurd hc.1 (by decide)),
      if_pos ⟨by decide, by simp⟩]
    rfl
  · rw [fel_main_loop]
    dsimp only
    rw [if_neg (fun hc => absurd hc.1 (by decide)),
      if_neg (fun hc => absurd hc.1 (by decide)),
      if_neg (fun hc => absurd hc.1 (by decide)),
      if_neg (fun hc => absurd hc.1 (by decide)),
      if_neg (fun hc => absurd hc.1 (by decide)),
      if_neg (fun hc => absurd hc.1 (by decide)),
      if_neg (fun hc => absurd hc.1 (by decide)),
      if_pos ⟨by decide, by simp⟩]
    rfl
  · rw [fel_main_loop]
    dsimp only
    rw [if_neg (fun hc => absurd hc.1 (by decide)),
      if_neg (fun hc => absurd hc.1 (by decide)),
      if_neg (fun hc => absurd hc.1 (by decide)),
      if_neg (fun hc => absurd hc.1 (by decide)),
      if_neg (fun hc => absurd hc.1 (by decide)),
      if_neg (fun hc => absurd hc.1 (by decide)),
      if_neg (fun hc => absurd hc.1 (by decide)),
      if_neg (fun hc => absurd hc.1 (by decide)),
      if_pos ⟨by decide, by simp⟩]
    rfl
  · rw [fel_main_loop]
    dsimp only
    rw [if_neg (fun hc => absurd hc.1 (by decide)),
      if_neg (fun hc => absurd hc.1 (by decide)),
      if_neg (fun hc => absurd hc.1 (by decide)),
      if_neg (fun hc => absurd hc.1 (by decide)),
      if_neg (fun hc => absurd hc.1 (by decide)),
      if_neg (fun hc => absurd hc.1 (by decide)),
      if_neg (fun hc => absurd hc.1 (by decide)),
      if_neg (fun hc => absurd hc.1 (by decide)),
      if_neg (fun hc => absurd hc.1 (by decide)),
      if_pos ⟨by decide, by simp⟩]
    rfl

/-- X3. Within the range of a C `int`: in a session with no U-Boot footprint armed, on
an acknowledging device, an image of length above 64 with magic 0x27051956,
architecture 2, type 5, `data_size = len - 64` and fewer than `2^31` data bytes is
really sent.  `aw_fel_write_uboot_image` returns; the command log grows by the one
write of `bytes[64..]` at the big-endian `load_addr` of offset 16; the wire log grows by
the AW-USB write of the 16-byte FEL write request for `load_addr` and `len - 64`, the
AW-USB write whose transfers carry exactly `bytes[64..]` in order, and the 8-byte
status read; afterwards `uboot_entry = load_addr` and `uboot_size = data_size`. -/
theorem write_uboot_image_sends_payload (w : World) (buf : List Byte)
    (hun : w.uboot_size = 0) (hlen : 64 < buf.length)
    (hint : buf.length - 64 < 2147483648)
    (hmagic : be32_at buf 0 = 0x27051956) (harch : byte_at buf 29 = 2)
    (htype : byte_at buf 30 = 5) (hsize : be32_at buf 12 = buf.length - 64)
    (hacks : Acks w.dev) :
    ∃ w1 t1 t2 t3 status, aw_fel_write_uboot_image buf buf.length w = .ok () w1 ∧
      w1.fel = w.fel ++ [.write (be32_at buf 16) (buf.drop 64)] ∧
      w1.usb = w.usb ++ (t1 ++ (t2 ++ t3)) ∧
      AwWrite (aw_fel_request_bytes AW_FEL_1_WRITE (be32_at buf 16) (buf.length - 64)) t1 ∧
      AwWrite (buf.drop 64) t2 ∧ AwRead 8 status t3 ∧
      w1.uboot_entry = be32_at buf 16 ∧ w1.uboot_size = be32_at buf 12 := by
  have hlen2 : buf.length < 18446744073709551616 := by omega
  have htake : (buf.drop 64).take (buf.length - 64) = buf.drop 64 :=
    List.take_of_length_le (by simp)
  have hni := not_interlock_of_unarmed w (be32_at buf 16) (buf.length - 64) hun
  rw [write_uboot_image_accepted w buf buf.length hlen hlen2 hmagic harch htype hsize]
  obtain ⟨w1, t1, t2, t3, status, h1, hl, hu, ht1, ht2, ht3⟩ :=
    aw_fel_write_emits (buf.drop 64) (be32_at buf 16) (buf.length - 64) hint (by simp) w
      hni hacks
  rw [htake] at hl ht2
  rw [bind_apply, h1]
  exact ⟨_, t1, t2, t3, status, rfl, hl.2.1, hu, ht1, ht2, ht3, rfl, hsize.symm⟩

/-- X3 at a concrete input: the 320-byte image `top_image` on the mock device. -/
theorem write_uboot_image_sends_payload_witness :
    ∃ w1 t1 t2 t3 status,
      aw_fel_write_uboot_image top_image top_image.length (session_start mock_dev)
        = .ok () w1 ∧
      w1.fel = (session_start mock_dev).fel
        ++ [.write (be32_at top_image 16) (top_image.drop 64)] ∧
      w1.usb = (session_start mock_dev).usb ++ (t1 ++ (t2 ++ t3)) ∧
      AwWrite (aw_fel_request_bytes AW_FEL_1_WRITE (be32_at top_image 16)
        (top_image.length - 64)) t1 ∧
      AwWrite (top_image.drop 64) t2 ∧ AwRead 8 status t3 ∧
      w1.uboot_entry = be32_at top_image 16 ∧ w1.uboot_size = be32_at top_image 12 :=
  write_uboot_image_sends_payload (session_start mock_dev) top_image rfl (by decide!)
    (by decide!) (by decide!) (by decide!) (by decide!) (by decide!) mock_dev_acks

end Fel
